import Mathlib

/-!
# Verification of the nlp-sql-assistant candidate-generation and feedback-ingestion core

This file shallowly embeds the Python modules of the repository
(`legacy_assistant/nl2sql.py`, `feedback_learn.py`, `joins.py`, `learner.py`,
`db.py`, `dynamic_templates.py`, `templates.py`) into Lean and proves / refutes
the behavioural claims about them.

Conventions of the embedding:
* Python strings are `List Char` (`Str`), so that whitespace normalisation,
  stripping, lower-casing and tokenisation are fully executable and provable.
* Components that depend on external libraries (spaCy tokenisation, rapidfuzz
  scoring, the TF-IDF ranker's floating point cosine) are modelled as oracle
  fields of an environment record; claims quantify over all oracles subject to
  the interface constraints those library functions actually guarantee.
* Machine floats only influence candidate *scores*; scores are modelled as `ℚ`
  (with the transcendental `log1p` frequency boost as an oracle), which is
  sound for every claim below since none depends on score arithmetic.
* File-system state (corpus / synonym / pattern stores, checkpoint, feedback
  log) is explicit state; durable-write effects are recorded as an event trace.
-/

namespace NLSQL

abbrev Str := List Char

def lit (s : String) : Str := s.data

/-- Whitespace as recognised by Python `str.split()` / `str.strip()`
(restricted to the ASCII whitespace that occurs in this system's data). -/
def isWs (c : Char) : Bool := c = ' ' || c = '\t' || c = '\n' || c = '\r'

def isDigitCh (c : Char) : Bool := ('0' ≤ c) && (c ≤ '9')

/-- A `\w`-style word character (on lower-cased text): `[a-z0-9_]`. -/
def isWordCh (c : Char) : Bool := (('a' ≤ c) && (c ≤ 'z')) || isDigitCh c || (c = '_')

/-- ASCII lower-casing of one character, as `str.lower()` acts on the ASCII
range (all schema/SQL data in this system is ASCII). -/
def lowerChar (c : Char) : Char :=
  if h : 65 ≤ c.toNat ∧ c.toNat ≤ 90 then
    Char.ofNatAux (c.toNat + 32) (Or.inl (by omega))
  else c

/-- Embedding of `str.lower()`. -/
def asciiLower (s : Str) : Str := s.map lowerChar

theorem char_eq_iff_toNat {a b : Char} : a = b ↔ a.toNat = b.toNat := by
  constructor
  · intro h; rw [h]
  · intro h; exact Char.ext (UInt32.toNat.inj h)

theorem char_le_iff_toNat {a b : Char} : a ≤ b ↔ a.toNat ≤ b.toNat := Iff.rfl

theorem toNat_lowerChar (c : Char) :
    (lowerChar c).toNat =
      if 65 ≤ c.toNat ∧ c.toNat ≤ 90 then c.toNat + 32 else c.toNat := by
  unfold lowerChar
  split <;> rfl

theorem isWs_iff (c : Char) :
    isWs c = true ↔ (c.toNat = 32 ∨ c.toNat = 9 ∨ c.toNat = 10 ∨ c.toNat = 13) := by
  have h1 : (' ').toNat = 32 := rfl
  have h2 : ('\t').toNat = 9 := rfl
  have h3 : ('\n').toNat = 10 := rfl
  have h4 : ('\r').toNat = 13 := rfl
  simp [isWs, char_eq_iff_toNat, h1, h2, h3, h4]
  omega

theorem isDigitCh_iff (c : Char) :
    isDigitCh c = true ↔ (48 ≤ c.toNat ∧ c.toNat ≤ 57) := by
  have h1 : ('0').toNat = 48 := rfl
  have h2 : ('9').toNat = 57 := rfl
  simp [isDigitCh, char_le_iff_toNat, h1, h2]

theorem isWordCh_iff (c : Char) :
    isWordCh c = true ↔
      ((97 ≤ c.toNat ∧ c.toNat ≤ 122) ∨ (48 ≤ c.toNat ∧ c.toNat ≤ 57) ∨ c.toNat = 95) := by
  have h1 : ('a').toNat = 97 := rfl
  have h2 : ('z').toNat = 122 := rfl
  have h3 : ('_').toNat = 95 := rfl
  simp [isWordCh, isDigitCh_iff, char_le_iff_toNat, char_eq_iff_toNat, h1, h2, h3]
  omega

theorem lowerChar_idem (c : Char) : lowerChar (lowerChar c) = lowerChar c := by
  rw [char_eq_iff_toNat, toNat_lowerChar (lowerChar c), toNat_lowerChar c]
  by_cases h : 65 ≤ c.toNat ∧ c.toNat ≤ 90 <;> simp [h] <;> omega

theorem asciiLower_idem (s : Str) : asciiLower (asciiLower s) = asciiLower s := by
  unfold asciiLower
  rw [List.map_map]
  apply List.map_congr_left
  intro c _
  exact lowerChar_idem c

theorem asciiLower_append (s t : Str) :
    asciiLower (s ++ t) = asciiLower s ++ asciiLower t := List.map_append _ s t

theorem isWs_lowerChar (c : Char) : isWs (lowerChar c) = isWs c := by
  rw [Bool.eq_iff_iff, isWs_iff, isWs_iff, toNat_lowerChar]
  by_cases h : 65 ≤ c.toNat ∧ c.toNat ≤ 90 <;> simp [h] <;> omega

theorem not_isWs_of_isWordCh {c : Char} (h : isWordCh c = true) : isWs c = false := by
  rw [isWordCh_iff] at h
  rw [Bool.eq_false_iff]
  intro hw
  rw [isWs_iff] at hw
  omega

theorem length_dropWhile_le (p : Char → Bool) (l : Str) :
    (l.dropWhile p).length ≤ l.length := by
  induction l with
  | nil => simp
  | cons a t ih =>
    rw [List.dropWhile_cons]
    split
    · simp only [List.length_cons]; omega
    · simp

/-! ## Maximal-run chunking

`chunksBy keep s` splits `s` into the maximal runs of characters satisfying
`keep`, discarding the separators.  With `keep := (!isWs ·)` this is Python's
`str.split()`; with `keep := isWordCh` it is the token sequence matched by the
regex `[a-z0-9_]+` (re.findall on lower-cased text).  It is implemented with
explicit fuel so that it is structurally recursive (and hence computes by
`rfl`/`decide`). -/

def chunksGo (keep : Char → Bool) : Nat → Str → List Str
  | 0, _ => []
  | _ + 1, [] => []
  | fuel + 1, c :: cs =>
    if keep c then (c :: cs.takeWhile keep) :: chunksGo keep fuel (cs.dropWhile keep)
    else chunksGo keep fuel cs

def chunksBy (keep : Char → Bool) (s : Str) : List Str := chunksGo keep s.length s

theorem chunksGo_fuel (keep : Char → Bool) :
    ∀ f g s, s.length ≤ f → s.length ≤ g → chunksGo keep f s = chunksGo keep g s := by
  intro f
  induction f with
  | zero =>
    intro g s hf _
    have : s = [] := List.length_eq_zero.mp (Nat.le_zero.mp hf)
    subst this
    cases g <;> rfl
  | succ n ih =>
    intro g s hf hg
    match s with
    | [] => cases g <;> rfl
    | c :: cs =>
      match g with
      | 0 => simp at hg
      | m + 1 =>
        simp only [chunksGo]
        by_cases hk : keep c = true
        · simp only [hk, if_true]
          have hlen := length_dropWhile_le keep cs
          simp only [List.length_cons] at hf hg
          rw [ih m (cs.dropWhile keep) (by omega) (by omega)]
        · simp only [hk, if_false, Bool.false_eq_true]
          simp only [List.length_cons] at hf hg
          rw [ih m cs (by omega) (by omega)]

theorem chunksBy_nil (keep : Char → Bool) : chunksBy keep [] = [] := rfl

theorem chunksBy_cons (keep : Char → Bool) (c : Char) (cs : Str) :
    chunksBy keep (c :: cs) =
      if keep c then (c :: cs.takeWhile keep) :: chunksBy keep (cs.dropWhile keep)
      else chunksBy keep cs := by
  show chunksGo keep (cs.length + 1) (c :: cs) = _
  simp only [chunksGo]
  by_cases hk : keep c = true
  · simp only [hk, if_true]
    rw [chunksGo_fuel keep cs.length (cs.dropWhile keep).length (cs.dropWhile keep)
         (length_dropWhile_le keep cs) le_rfl]
    rfl
  · simp only [hk, if_false, Bool.false_eq_true]
    rfl

theorem chunksBy_cons_pos {keep : Char → Bool} {c : Char} (cs : Str) (hk : keep c = true) :
    chunksBy keep (c :: cs) =
      (c :: cs.takeWhile keep) :: chunksBy keep (cs.dropWhile keep) := by
  rw [chunksBy_cons, if_pos hk]

theorem chunksBy_cons_neg {keep : Char → Bool} {c : Char} (cs : Str) (hk : keep c = false) :
    chunksBy keep (c :: cs) = chunksBy keep cs := by
  rw [chunksBy_cons, if_neg (by simp [hk])]

theorem mem_chunksBy_aux {keep : Char → Bool} :
    ∀ (n : Nat) (s : Str), s.length ≤ n →
      ∀ t ∈ chunksBy keep s, t ≠ [] ∧ ∀ c ∈ t, keep c = true := by
  intro n
  induction n with
  | zero =>
    intro s hs t ht
    have : s = [] := List.length_eq_zero.mp (Nat.le_zero.mp hs)
    subst this
    simp [chunksBy_nil] at ht
  | succ m ih =>
    intro s hs t ht
    match s with
    | [] => simp [chunksBy_nil] at ht
    | c :: cs =>
      simp only [List.length_cons, Nat.succ_le_succ_iff] at hs
      by_cases hk : keep c = true
      · rw [chunksBy_cons_pos cs hk] at ht
        rcases List.mem_cons.mp ht with h | h
        · subst h
          refine ⟨by simp, ?_⟩
          intro d hd
          rcases List.mem_cons.mp hd with rfl | hd
          · exact hk
          · exact List.mem_takeWhile_imp hd
        · exact ih (cs.dropWhile keep) (le_trans (length_dropWhile_le _ _) hs) t h
      · rw [chunksBy_cons_neg cs (by simpa using hk)] at ht
        exact ih cs hs t ht

theorem mem_chunksBy {keep : Char → Bool} {s t : Str} (ht : t ∈ chunksBy keep s) :
    t ≠ [] ∧ ∀ c ∈ t, keep c = true :=
  mem_chunksBy_aux s.length s le_rfl t ht

theorem chunksBy_allsep {keep : Char → Bool} :
    ∀ s : Str, (∀ c ∈ s, keep c = false) → chunksBy keep s = [] := by
  intro s
  induction s with
  | nil => intro _; rfl
  | cons c cs ih =>
    intro h
    rw [chunksBy_cons_neg cs (h c (by simp))]
    exact ih fun d hd => h d (by simp [hd])

theorem chunksBy_append_allsep_left {keep : Char → Bool} :
    ∀ (xs : Str), (∀ c ∈ xs, keep c = false) →
      ∀ ys, chunksBy keep (xs ++ ys) = chunksBy keep ys := by
  intro xs
  induction xs with
  | nil => intro _ ys; rfl
  | cons c cs ih =>
    intro h ys
    rw [List.cons_append, chunksBy_cons_neg _ (h c (by simp))]
    exact ih (fun d hd => h d (by simp [hd])) ys

theorem chunksBy_append_sep_aux {keep : Char → Bool} {b : Char} (hb : keep b = false) :
    ∀ (n : Nat) (xs : Str), xs.length ≤ n →
      ∀ ys, chunksBy keep (xs ++ b :: ys) = chunksBy keep xs ++ chunksBy keep ys := by
  intro n
  induction n with
  | zero =>
    intro xs hxs ys
    have : xs = [] := List.length_eq_zero.mp (Nat.le_zero.mp hxs)
    subst this
    simp [chunksBy_nil, chunksBy_cons_neg ys hb]
  | succ m ih =>
    intro xs hxs ys
    match xs with
    | [] => simp [chunksBy_nil, chunksBy_cons_neg ys hb]
    | c :: xs1 =>
      simp only [List.length_cons, Nat.succ_le_succ_iff] at hxs
      by_cases hk : keep c = true
      · have hsplit := List.takeWhile_append_dropWhile keep xs1
        rw [List.cons_append, chunksBy_cons_pos _ hk, chunksBy_cons_pos _ hk]
        have htake : List.takeWhile keep (xs1 ++ b :: ys) =
            xs1.takeWhile keep ++ List.takeWhile keep (xs1.dropWhile keep ++ b :: ys) := by
          conv_lhs => rw [← hsplit]
          rw [List.append_assoc]
          exact List.takeWhile_append_of_pos fun a ha => List.mem_takeWhile_imp ha
        have hdrop : List.dropWhile keep (xs1 ++ b :: ys) =
            List.dropWhile keep (xs1.dropWhile keep ++ b :: ys) := by
          conv_lhs => rw [← hsplit]
          rw [List.append_assoc]
          exact List.dropWhile_append_of_pos fun a ha => List.mem_takeWhile_imp ha
        rcases hdw : xs1.dropWhile keep with _ | ⟨d, dw1⟩
        · have hall : ∀ a ∈ xs1, keep a = true := List.dropWhile_eq_nil_iff.mp hdw
          rw [htake, hdw]
          simp only [List.nil_append]
          rw [List.takeWhile_cons_of_neg (by simp [hb]), hdrop, hdw]
          simp only [List.nil_append]
          rw [List.dropWhile_cons_of_neg (by simp [hb]), chunksBy_cons_neg ys hb]
          rw [List.takeWhile_eq_self_iff.mpr hall]
          simp [chunksBy_nil]
        · have hne2 : xs1.dropWhile keep ≠ [] := by rw [hdw]; simp
          have hd : keep d = false := by
            have h3 := List.head_dropWhile_not keep xs1 hne2
            simp only [hdw, List.head_cons] at h3
            exact h3
          rw [htake, hdw, hdrop, hdw]
          rw [List.cons_append, List.takeWhile_cons_of_neg (by simp [hd]),
              List.dropWhile_cons_of_neg (by simp [hd])]
          rw [chunksBy_cons_neg _ hd]
          have hlen : dw1.length ≤ m := by
            have h1 := length_dropWhile_le keep xs1
            rw [hdw] at h1
            simp only [List.length_cons] at h1
            omega
          rw [ih dw1 hlen ys, chunksBy_cons_neg _ hd]
          simp [List.append_nil]
      · have hkf : keep c = false := by simpa using hk
        rw [List.cons_append, chunksBy_cons_neg _ hkf, chunksBy_cons_neg _ hkf]
        exact ih xs1 hxs ys

theorem chunksBy_append_sep {keep : Char → Bool} {b : Char} (hb : keep b = false)
    (xs ys : Str) :
    chunksBy keep (xs ++ b :: ys) = chunksBy keep xs ++ chunksBy keep ys :=
  chunksBy_append_sep_aux hb xs.length xs le_rfl ys

theorem chunksBy_append_allsep_right {keep : Char → Bool} (xs : Str) {ys : Str}
    (h : ∀ c ∈ ys, keep c = false) :
    chunksBy keep (xs ++ ys) = chunksBy keep xs := by
  match ys with
  | [] => simp
  | b :: ys1 =>
    rw [chunksBy_append_sep (h b (by simp)) xs ys1,
        chunksBy_allsep ys1 (fun d hd => h d (by simp [hd]))]
    simp

theorem chunksBy_all_keep {keep : Char → Bool} {w : Str}
    (hw : ∀ c ∈ w, keep c = true) (hne : w ≠ []) :
    chunksBy keep w = [w] := by
  match w with
  | [] => exact absurd rfl hne
  | c :: w1 =>
    rw [chunksBy_cons_pos _ (hw c (by simp))]
    have h1 : ∀ c ∈ w1, keep c = true := fun d hd => hw d (by simp [hd])
    rw [List.takeWhile_eq_self_iff.mpr h1, List.dropWhile_eq_nil_iff.mpr h1, chunksBy_nil]

theorem chunksBy_word_sep {keep : Char → Bool} {w : Str} {b : Char}
    (hw : ∀ c ∈ w, keep c = true) (hne : w ≠ []) (hb : keep b = false) (ys : Str) :
    chunksBy keep (w ++ b :: ys) = w :: chunksBy keep ys := by
  rw [chunksBy_append_sep hb w ys, chunksBy_all_keep hw hne]
  rfl

theorem chunksBy_refine_aux {keep k2 : Char → Bool}
    (himp : ∀ c, keep c = true → k2 c = true) :
    ∀ (n : Nat) (s : Str), s.length ≤ n →
      chunksBy keep s = ((chunksBy k2 s).map (chunksBy keep)).flatten := by
  intro n
  induction n with
  | zero =>
    intro s hs
    have : s = [] := List.length_eq_zero.mp (Nat.le_zero.mp hs)
    subst this
    rfl
  | succ m ih =>
    intro s hs
    match s with
    | [] => rfl
    | c :: cs =>
      simp only [List.length_cons, Nat.succ_le_succ_iff] at hs
      by_cases h2 : k2 c = true
      · rw [chunksBy_cons_pos cs h2]
        simp only [List.map_cons, List.flatten_cons]
        rw [← ih (cs.dropWhile k2) (le_trans (length_dropWhile_le _ _) hs)]
        have hsplit := List.takeWhile_append_dropWhile k2 cs
        conv_lhs => rw [show c :: cs = (c :: cs.takeWhile k2) ++ cs.dropWhile k2 by
          simp [hsplit]]
        rcases hdw : cs.dropWhile k2 with _ | ⟨d, dw1⟩
        · simp [chunksBy_nil]
        · have hne2 : cs.dropWhile k2 ≠ [] := by rw [hdw]; simp
          have hd2 : k2 d = false := by
            have h3 := List.head_dropWhile_not k2 cs hne2
            simp only [hdw, List.head_cons] at h3
            exact h3
          have hdk : keep d = false := by
            rcases hkd : keep d with _ | _
            · rfl
            · exact absurd (himp d hkd) (by simp [hd2])
          rw [chunksBy_append_sep hdk, chunksBy_cons_neg _ hdk]
      · have hck : keep c = false := by
          rcases hkc : keep c with _ | _
          · rfl
          · exact absurd (himp c hkc) (by simp [h2])
        rw [chunksBy_cons_neg _ hck, chunksBy_cons_neg _ (by simpa using h2)]
        exact ih cs hs

theorem chunksBy_refine {keep k2 : Char → Bool}
    (himp : ∀ c, keep c = true → k2 c = true) (s : Str) :
    chunksBy keep s = ((chunksBy k2 s).map (chunksBy keep)).flatten :=
  chunksBy_refine_aux himp s.length s le_rfl

/-! ## Python string primitives -/

/-- Embedding of `str.split()` (split on whitespace, discarding empty fields). -/
def splitWs (s : Str) : List Str := chunksBy (fun c => !(isWs c)) s

/-- Embedding of `" ".join(parts)`. -/
def joinSp : List Str → Str
  | [] => []
  | [p] => p
  | p :: q :: rest => p ++ ' ' :: joinSp (q :: rest)

/-- Embedding of `" ".join(s.split())` — Python's idiom for whitespace
normalisation, used throughout `feedback_learn.py` and `nl2sql.py`. -/
def normWs (s : Str) : Str := joinSp (splitWs s)

/-- The `[a-z0-9_]+` word tokens of a string (already lower-cased). -/
def wordTokens (s : Str) : List Str := chunksBy isWordCh s

/-- Word tokens of arbitrary-cased text: lower-case first. -/
def sqlTokens (s : Str) : List Str := wordTokens (asciiLower s)

/-- Embedding of `str.strip()` (whitespace from both ends). -/
def stripWs (s : Str) : Str := (s.dropWhile isWs).rdropWhile isWs

/-- Embedding of `nl2sql._strip_sql`: `(sql or "").strip().rstrip(";")`. -/
def stripSql (s : Str) : Str := (stripWs s).rdropWhile (fun c => c = ';')

theorem mem_splitWs {s t : Str} (ht : t ∈ splitWs s) :
    t ≠ [] ∧ ∀ c ∈ t, isWs c = false := by
  have h := @mem_chunksBy (fun c => !(isWs c)) _ _ ht
  exact ⟨h.1, fun c hc => by simpa using h.2 c hc⟩

theorem splitWs_joinSp :
    ∀ parts : List Str, (∀ p ∈ parts, p ≠ [] ∧ ∀ c ∈ p, isWs c = false) →
      splitWs (joinSp parts) = parts := by
  intro parts
  induction parts with
  | nil => intro _; rfl
  | cons p rest ih =>
    intro h
    match rest with
    | [] =>
      show splitWs p = [p]
      exact chunksBy_all_keep
        (fun c hc => by simp [(h p (by simp)).2 c hc]) (h p (by simp)).1
    | q :: rest2 =>
      show chunksBy (fun c => !(isWs c)) (p ++ ' ' :: joinSp (q :: rest2)) = p :: q :: rest2
      rw [@chunksBy_word_sep (fun c => !(isWs c)) _ _
            (fun c hc => by simp [(h p (by simp)).2 c hc]) (h p (by simp)).1
            (by decide) _]
      rw [show chunksBy (fun c => !(isWs c)) (joinSp (q :: rest2)) =
            splitWs (joinSp (q :: rest2)) from rfl]
      rw [ih fun r hr => h r (by simp [hr])]

theorem normWs_idem (s : Str) : normWs (normWs s) = normWs s := by
  unfold normWs
  rw [splitWs_joinSp (splitWs s) fun p hp => mem_splitWs hp]

theorem wordTokens_joinSp (parts : List Str) :
    wordTokens (joinSp parts) = (parts.map wordTokens).flatten := by
  induction parts with
  | nil => rfl
  | cons p rest ih =>
    match rest with
    | [] => simp [joinSp]
    | q :: rest2 =>
      show wordTokens (p ++ ' ' :: joinSp (q :: rest2)) = _
      unfold wordTokens
      rw [chunksBy_append_sep (by decide) p (joinSp (q :: rest2))]
      rw [show chunksBy isWordCh (joinSp (q :: rest2)) = wordTokens (joinSp (q :: rest2)) from rfl,
          ih]
      simp only [List.map_cons, List.flatten_cons]
      rfl

theorem wordTokens_normWs (s : Str) : wordTokens (normWs s) = wordTokens s := by
  unfold normWs
  rw [wordTokens_joinSp]
  have himp : ∀ c, isWordCh c = true → (!(isWs c)) = true := by
    intro c hc
    simp [not_isWs_of_isWordCh hc]
  exact (chunksBy_refine himp s).symm

theorem rdrop_decomp (p : Char → Bool) (l : Str) :
    l = l.rdropWhile p ++ l.rtakeWhile p := by
  rw [List.rdropWhile, List.rtakeWhile]
  rw [← List.reverse_append, ← List.reverse_reverse l]
  congr 1
  rw [List.reverse_reverse]
  exact (List.takeWhile_append_dropWhile p l.reverse).symm ▸ rfl

theorem chunksBy_dropWhile_sep {keep : Char → Bool} {p : Char → Bool}
    (hp : ∀ c, p c = true → keep c = false) (s : Str) :
    chunksBy keep (s.dropWhile p) = chunksBy keep s := by
  conv_rhs => rw [← List.takeWhile_append_dropWhile p s]
  rw [chunksBy_append_allsep_left]
  intro c hc
  exact hp c (List.mem_takeWhile_imp hc)

theorem chunksBy_rdropWhile_sep {keep : Char → Bool} {p : Char → Bool}
    (hp : ∀ c, p c = true → keep c = false) (s : Str) :
    chunksBy keep (s.rdropWhile p) = chunksBy keep s := by
  conv_rhs => rw [rdrop_decomp p s]
  rw [chunksBy_append_allsep_right]
  intro c hc
  exact hp c (List.mem_rtakeWhile_imp hc)

theorem not_isWordCh_of_isWs {c : Char} (h : isWs c = true) : isWordCh c = false := by
  rcases hw : isWordCh c with _ | _
  · rfl
  · rw [not_isWs_of_isWordCh hw] at h
    exact absurd h (by simp)

theorem wordTokens_stripWs (s : Str) : wordTokens (stripWs s) = wordTokens s := by
  unfold stripWs wordTokens
  rw [chunksBy_rdropWhile_sep (fun c hc => not_isWordCh_of_isWs hc),
      chunksBy_dropWhile_sep (fun c hc => not_isWordCh_of_isWs hc)]

theorem splitWs_stripWs (s : Str) : splitWs (stripWs s) = splitWs s := by
  unfold stripWs splitWs
  rw [chunksBy_rdropWhile_sep (fun c hc => by simp [hc]),
      chunksBy_dropWhile_sep (fun c hc => by simp [hc])]

theorem normWs_stripWs (s : Str) : normWs (stripWs s) = normWs s := by
  unfold normWs
  rw [splitWs_stripWs]

theorem wordTokens_stripSql (s : Str) : wordTokens (stripSql s) = wordTokens s := by
  unfold stripSql wordTokens
  rw [@chunksBy_rdropWhile_sep _ (fun c => c = ';')
        (fun c hc => by
          have : c = ';' := by simpa using hc
          subst this
          decide)]
  exact wordTokens_stripWs s

theorem dropWhile_isWs_asciiLower (s : Str) :
    (asciiLower s).dropWhile isWs = asciiLower (s.dropWhile isWs) := by
  unfold asciiLower
  rw [List.dropWhile_map]
  rw [show (isWs ∘ lowerChar) = isWs from funext isWs_lowerChar]

theorem rdropWhile_isWs_asciiLower (s : Str) :
    (asciiLower s).rdropWhile isWs = asciiLower (s.rdropWhile isWs) := by
  unfold List.rdropWhile
  rw [show (asciiLower s).reverse = asciiLower s.reverse by
        unfold asciiLower; rw [List.map_reverse]]
  rw [dropWhile_isWs_asciiLower]
  unfold asciiLower
  rw [List.map_reverse]

theorem stripWs_asciiLower (s : Str) :
    stripWs (asciiLower s) = asciiLower (stripWs s) := by
  unfold stripWs
  rw [dropWhile_isWs_asciiLower, rdropWhile_isWs_asciiLower]

theorem dropWhile_eq_self_of_head {p : Char → Bool} {l : Str}
    (h : ∀ hn : l ≠ [], p (l.head hn) = false) : l.dropWhile p = l := by
  match l with
  | [] => rfl
  | c :: cs =>
    have hc := h (by simp)
    simp only [List.head_cons] at hc
    exact List.dropWhile_cons_of_neg (by simp [hc])

theorem head_stripWs {s : Str} (h : stripWs s ≠ []) :
    isWs ((stripWs s).head h) = false := by
  have hpre : stripWs s <+: s.dropWhile isWs := by
    unfold stripWs
    exact List.rdropWhile_prefix isWs _
  obtain ⟨r, hr⟩ := hpre
  have hne2 : s.dropWhile isWs ≠ [] := by
    rw [← hr]
    intro hc
    exact h (List.append_eq_nil.mp hc).1
  have hhead := List.head_dropWhile_not isWs s hne2
  have heq : (s.dropWhile isWs).head hne2 = (stripWs s).head h := by
    have h1 : (s.dropWhile isWs).head? = (stripWs s).head? := by
      rw [← hr]
      exact List.head?_append_of_ne_nil _ h
    rw [List.head?_eq_head hne2, List.head?_eq_head h] at h1
    exact Option.some.inj h1
  rwa [heq] at hhead

theorem stripWs_idem (s : Str) : stripWs (stripWs s) = stripWs s := by
  have h1 : (stripWs s).dropWhile isWs = stripWs s :=
    dropWhile_eq_self_of_head fun hn => head_stripWs hn
  show ((stripWs s).dropWhile isWs).rdropWhile isWs = stripWs s
  rw [h1]
  show (((s.dropWhile isWs).rdropWhile isWs)).rdropWhile isWs = stripWs s
  rw [List.rdropWhile_idempotent]
  rfl

theorem lowStrip_idem (x : Str) :
    asciiLower (stripWs (asciiLower (stripWs x))) = asciiLower (stripWs x) := by
  rw [stripWs_asciiLower, stripWs_idem, asciiLower_idem]

theorem normWs_stripWs_normWs (y : Str) :
    normWs (stripWs (normWs y)) = normWs y := by
  rw [normWs_stripWs, normWs_idem]

/-! ## Generic utilities: stable sort, ordered association lists, dedup -/

/-- Stable insertion: `x` is placed after every already-present element it does
not strictly precede.  Folding it left over a list yields exactly the result of
Python's stable `sort` with the corresponding strict-less-than key order. -/
def insByLt {α : Type} (ltb : α → α → Bool) (x : α) : List α → List α
  | [] => [x]
  | y :: ys => if ltb x y then x :: y :: ys else y :: insByLt ltb x ys

def sortByLt {α : Type} (ltb : α → α → Bool) (l : List α) : List α :=
  l.foldl (fun acc x => insByLt ltb x acc) []

theorem mem_insByLt {α : Type} (ltb : α → α → Bool) (x : α) :
    ∀ (l : List α) (a : α), a ∈ insByLt ltb x l ↔ a = x ∨ a ∈ l := by
  intro l
  induction l with
  | nil => intro a; simp [insByLt]
  | cons y ys ih =>
    intro a
    unfold insByLt
    split
    · simp
    · rw [List.mem_cons, ih a, List.mem_cons]
      tauto

theorem length_insByLt {α : Type} (ltb : α → α → Bool) (x : α) :
    ∀ l : List α, (insByLt ltb x l).length = l.length + 1 := by
  intro l
  induction l with
  | nil => rfl
  | cons y ys ih =>
    unfold insByLt
    split
    · simp
    · simp [ih]

theorem mem_sortByLt_aux {α : Type} (ltb : α → α → Bool) :
    ∀ (l acc : List α) (a : α),
      a ∈ l.foldl (fun acc x => insByLt ltb x acc) acc ↔ a ∈ acc ∨ a ∈ l := by
  intro l
  induction l with
  | nil => intro acc a; simp
  | cons x xs ih =>
    intro acc a
    simp only [List.foldl_cons]
    rw [ih, mem_insByLt]
    simp only [List.mem_cons]
    tauto

theorem mem_sortByLt {α : Type} (ltb : α → α → Bool) (l : List α) (a : α) :
    a ∈ sortByLt ltb l ↔ a ∈ l := by
  unfold sortByLt
  rw [mem_sortByLt_aux]
  simp

theorem length_sortByLt_aux {α : Type} (ltb : α → α → Bool) :
    ∀ (l acc : List α),
      (l.foldl (fun acc x => insByLt ltb x acc) acc).length = acc.length + l.length := by
  intro l
  induction l with
  | nil => intro acc; simp
  | cons x xs ih =>
    intro acc
    simp only [List.foldl_cons]
    rw [ih, length_insByLt]
    simp only [List.length_cons]
    omega

theorem length_sortByLt {α : Type} (ltb : α → α → Bool) (l : List α) :
    (sortByLt ltb l).length = l.length := by
  unfold sortByLt
  rw [length_sortByLt_aux]
  simp

/-- Python string `<` (lexicographic by code point). -/
def strLtB : Str → Str → Bool
  | [], [] => false
  | [], _ :: _ => true
  | _ :: _, [] => false
  | a :: as, b :: bs => if a < b then true else if b < a then false else strLtB as bs

/-- Ordered association-list lookup (Python `dict.get`). -/
def lookupA {β : Type} (k : Str × Str) : List ((Str × Str) × β) → Option β
  | [] => none
  | (k2, v) :: rest => if k2 = k then some v else lookupA k rest

/-- `d[k] = d.get(k, 0) + inc` on an insertion-ordered dict: update in place if
the key exists, append otherwise. -/
def bumpIndex (idx : List ((Str × Str) × Int)) (k : Str × Str) (inc : Int) :
    List ((Str × Str) × Int) :=
  if (lookupA k idx).isSome then
    idx.map (fun e => if e.1 = k then (e.1, e.2 + inc) else e)
  else idx ++ [(k, inc)]

theorem lookupA_isSome_iff {β : Type} (k : Str × Str) :
    ∀ idx : List ((Str × Str) × β), (lookupA k idx).isSome ↔ k ∈ idx.map Prod.fst := by
  intro idx
  induction idx with
  | nil => simp [lookupA]
  | cons e rest ih =>
    obtain ⟨k2, v⟩ := e
    unfold lookupA
    by_cases h : k2 = k
    · subst h
      rw [if_pos rfl]
      constructor
      · intro _
        rw [List.map_cons]
        exact List.mem_cons_self _ _
      · intro _
        rfl
    · rw [if_neg h, ih]
      simp only [List.map_cons, List.mem_cons]
      constructor
      · exact fun hm => Or.inr hm
      · rintro (rfl | hm)
        · exact absurd rfl h
        · exact hm

/-- First-occurrence dedup with an explicit seen set, as in
`feedback_learn.ingest_feedback_to_corpus` (pattern dedup). -/
def dedupGo {α : Type} [DecidableEq α] (seen : List α) : List α → List α
  | [] => []
  | p :: rest => if p ∈ seen then dedupGo seen rest else p :: dedupGo (p :: seen) rest

/-! ## Embedding of `legacy_assistant/feedback_learn.py`

The feedback log is modelled as a list of physical lines, each carrying its
byte length (`len(line.encode("utf-8"))`, newline included) and the result of
`json.loads` on its stripped text: `none` for a blank or unparsable line,
`some r` for a parsed record.  `readFrom` models `f.seek(offset)` followed by
line iteration; an offset landing inside a line yields that line's remaining
bytes as an unparsable tail.  The synonym-mining and pattern-induction regex
transformations (lines 109–125) are oracles of `IngestEnv`: the claims below
never depend on their output values, only on *when* they are applied. -/

structure FRec where
  question : Option Str
  generatedSql : Option Str
  correctedSql : Option Str
  correct : Bool

structure LogLine where
  len : Nat
  parsed : Option FRec

structure CorpusItem where
  q : Option Str
  sql : Option Str
  count : Option Int

structure SynEntry where
  mapsTo : List (Str × Nat)
  count : Nat

abbrev SynStore := List (Str × SynEntry)

abbrev QPattern := Str × Str

structure IngestEnv where
  mine : Str → Str → SynStore → SynStore
  induce : Str → Str → QPattern

structure StoreState where
  corpusFile : List CorpusItem
  synFile : SynStore
  patternsFile : List QPattern
  offsetFile : Nat
  log : Option (List LogLine)

inductive StoreId
  | corpus
  | syn
  | patterns
deriving DecidableEq

/-- Durable-write events performed by one `ingest_feedback_to_corpus()` call,
in program order.  `tmpWrite st` is the write of store `st`'s content to a
temporary file, `atomicRename st` the `os.replace` making it durable,
`advanceOffset n` the plain write of the checkpoint file. -/
inductive WriteEv
  | tmpWrite (st : StoreId)
  | atomicRename (st : StoreId)
  | advanceOffset (n : Nat)
deriving DecidableEq

/-- `(x or "")` on an optional string. -/
def getStr (o : Option Str) : Str := o.getD []

/-- `(it.get("q") or "").strip().lower()` -/
def loadQ (o : Option Str) : Str := asciiLower (stripWs (getStr o))

/-- `" ".join((it.get("sql") or "").strip().split())` -/
def loadSql (o : Option Str) : Str := normWs (stripWs (getStr o))

/-- `int(it.get("count") or 1)` (Python `or` treats `0` as falsy). -/
def loadCount (o : Option Int) : Int :=
  match o with
  | none => 1
  | some n => if n = 0 then 1 else n

abbrev Index := List ((Str × Str) × Int)

/-- One iteration of the corpus-aggregation loop (lines 65–70). -/
def corpusStep (idx : Index) (it : CorpusItem) : Index :=
  let q := loadQ it.q
  let sql := loadSql it.sql
  let cnt := loadCount it.count
  if q ≠ [] ∧ sql ≠ [] then bumpIndex idx (q, sql) (max 1 cnt) else idx

/-- Lines 63–70: aggregate the current corpus file into the keyed index. -/
def buildIndex (items : List CorpusItem) : Index :=
  items.foldl corpusStep []

/-- `f.seek(offset)` + line iteration: skip whole lines covered by the offset;
an offset inside a line yields its remaining bytes as an unparsable tail. -/
def readFrom : List LogLine → Nat → List LogLine
  | ls, 0 => ls
  | [], _ + 1 => []
  | l :: ls, off + 1 =>
    if l.len ≤ off + 1 then readFrom ls (off + 1 - l.len)
    else { len := l.len - (off + 1), parsed := none } :: ls

structure IngAcc where
  index : Index
  newCount : Nat
  syn : SynStore
  patterns : List QPattern
  sizeAfter : Nat

/-- The body of the `for line in f` loop (lines 84–125). -/
def lineStep (env : IngestEnv) (acc : IngAcc) (l : LogLine) : IngAcc :=
  let acc1 : IngAcc := { acc with sizeAfter := acc.sizeAfter + l.len }
  match l.parsed with
  | none => acc1
  | some r =>
    let q := asciiLower (stripWs (getStr r.question))
    let corr := stripWs (getStr r.correctedSql)
    let gen := stripWs (getStr r.generatedSql)
    let sql := if corr ≠ [] then corr else if r.correct then gen else []
    if q ≠ [] ∧ sql ≠ [] then
      let nsql := normWs sql
      let was := lookupA (q, nsql) acc1.index
      { index := bumpIndex acc1.index (q, nsql) 1
        newCount := acc1.newCount + (if was.isSome then 0 else 1)
        syn := env.mine q nsql acc1.syn
        patterns := acc1.patterns ++ [env.induce q nsql]
        sizeAfter := acc1.sizeAfter }
    else acc1

/-- `new_items.sort(key=lambda x: (-x["count"], x["q"]))`: strict order on the
sort key, used with the stable insertion sort. -/
def itemLt (a b : Str × Str × Int) : Bool :=
  (b.2.2 < a.2.2) || (a.2.2 = b.2.2 && strLtB a.1 b.1)

/-- Lines 135–136: materialise and sort the written corpus records. -/
def finalItems (idx : Index) : List CorpusItem :=
  (sortByLt itemLt (idx.map fun e => (e.1.1, e.1.2, e.2))).map
    (fun t => { q := some t.1, sql := some t.2.1, count := some t.2.2 })

/-- Full embedding of `ingest_feedback_to_corpus()`: returns the
`(new_count, total_unique)` pair, the post-state, and the durable-write trace. -/
def ingestRun (env : IngestEnv) (s : StoreState) :
    (Nat × Nat) × StoreState × List WriteEv :=
  let idx0 := buildIndex s.corpusFile
  match s.log with
  | none => ((0, idx0.length), s, [])
  | some lines =>
    let acc0 : IngAcc :=
      { index := idx0, newCount := 0, syn := s.synFile,
        patterns := s.patternsFile, sizeAfter := s.offsetFile }
    let acc := (readFrom lines s.offsetFile).foldl (lineStep env) acc0
    let uniqPats := dedupGo [] acc.patterns
    let items := finalItems acc.index
    ((acc.newCount, items.length),
     { corpusFile := items, synFile := acc.syn, patternsFile := uniqPats,
       offsetFile := acc.sizeAfter, log := s.log },
     [WriteEv.tmpWrite StoreId.corpus, WriteEv.atomicRename StoreId.corpus,
      WriteEv.tmpWrite StoreId.syn, WriteEv.atomicRename StoreId.syn,
      WriteEv.tmpWrite StoreId.patterns, WriteEv.atomicRename StoreId.patterns,
      WriteEv.advanceOffset acc.sizeAfter])

def ingestPair (env : IngestEnv) (s : StoreState) : Nat × Nat := (ingestRun env s).1

def ingestState (env : IngestEnv) (s : StoreState) : StoreState := (ingestRun env s).2.1

def ingestTrace (env : IngestEnv) (s : StoreState) : List WriteEv := (ingestRun env s).2.2

/-! ## Analysis of the ingestion pipeline -/

/-- The normalised `(question, sql)` key a corpus record would contribute. -/
def itemKey (it : CorpusItem) : Str × Str := (loadQ it.q, loadSql it.sql)

def keysOf (idx : Index) : List (Str × Str) := idx.map Prod.fst

/-- The raw `(q, sql)` pairs physically stored in a corpus file. -/
def corpusKeys (items : List CorpusItem) : List (Str × Str) :=
  items.map (fun it => (getStr it.q, getStr it.sql))

theorem keysOf_bumpIndex (idx : Index) (k : Str × Str) (inc : Int) :
    keysOf (bumpIndex idx k inc) =
      if k ∈ keysOf idx then keysOf idx else keysOf idx ++ [k] := by
  unfold bumpIndex keysOf
  by_cases h : (lookupA k idx).isSome
  · rw [if_pos h, if_pos ((lookupA_isSome_iff k idx).mp h), List.map_map]
    apply List.map_congr_left
    intro e _
    show Prod.fst (if e.1 = k then (e.1, e.2 + inc) else e) = e.1
    split <;> rfl
  · rw [if_neg h, if_neg (fun hm => h ((lookupA_isSome_iff k idx).mpr hm))]
    simp

/-- `insNew` is the key-level shadow of a keyed-dict insert. -/
def insNew (ks : List (Str × Str)) (k : Str × Str) : List (Str × Str) :=
  if k ∈ ks then ks else ks ++ [k]

theorem keysOf_corpusStep (idx : Index) (it : CorpusItem) :
    keysOf (corpusStep idx it) =
      if loadQ it.q ≠ [] ∧ loadSql it.sql ≠ [] then insNew (keysOf idx) (itemKey it)
      else keysOf idx := by
  show keysOf (if loadQ it.q ≠ [] ∧ loadSql it.sql ≠ [] then
      bumpIndex idx (loadQ it.q, loadSql it.sql) (max 1 (loadCount it.count)) else idx) = _
  split
  · rw [keysOf_bumpIndex]
    rfl
  · rfl

theorem foldlInsNew_spec :
    ∀ (l : List (Str × Str)) (ks : List (Str × Str)), ks.Nodup →
      (l.foldl insNew ks).Nodup ∧ (l.foldl insNew ks).toFinset = ks.toFinset ∪ l.toFinset := by
  intro l
  induction l with
  | nil => intro ks h; simp [h]
  | cons k rest ih =>
    intro ks h
    simp only [List.foldl_cons]
    by_cases hm : k ∈ ks
    · rw [show insNew ks k = ks from by unfold insNew; rw [if_pos hm]]
      obtain ⟨h1, h2⟩ := ih ks h
      refine ⟨h1, ?_⟩
      rw [h2]
      ext a
      simp only [Finset.mem_union, List.mem_toFinset, List.toFinset_cons, Finset.mem_insert]
      constructor
      · rintro (ha | ha)
        · exact Or.inl ha
        · exact Or.inr (Or.inr ha)
      · rintro (ha | rfl | ha)
        · exact Or.inl ha
        · exact Or.inl hm
        · exact Or.inr ha
    · rw [show insNew ks k = ks ++ [k] from by unfold insNew; rw [if_neg hm]]
      have hnd : (ks ++ [k]).Nodup := by
        rw [List.nodup_append]
        exact ⟨h, List.nodup_singleton k, by simpa using hm⟩
      obtain ⟨h1, h2⟩ := ih (ks ++ [k]) hnd
      refine ⟨h1, ?_⟩
      rw [h2]
      ext a
      simp only [Finset.mem_union, List.mem_toFinset, List.mem_append,
        List.mem_singleton, List.toFinset_cons, Finset.mem_insert]
      tauto

theorem keysOf_buildIndex_foldl :
    ∀ (items : List CorpusItem) (idx0 : Index),
      keysOf (items.foldl corpusStep idx0) =
        (((items.map itemKey).filter
            (fun p => decide (p.1 ≠ [] ∧ p.2 ≠ []))).foldl insNew) (keysOf idx0) := by
  intro items
  induction items with
  | nil => intro idx0; rfl
  | cons it rest ih =>
    intro idx0
    simp only [List.foldl_cons, List.map_cons]
    rw [ih]
    by_cases h : loadQ it.q ≠ [] ∧ loadSql it.sql ≠ []
    · rw [List.filter_cons_of_pos (by simpa [itemKey] using h)]
      simp only [List.foldl_cons]
      rw [keysOf_corpusStep, if_pos h]
    · rw [List.filter_cons_of_neg (by simpa [itemKey] using h)]
      rw [keysOf_corpusStep, if_neg h]

/-- The number of distinct non-empty normalised `(q, sql)` pairs in a corpus
file — the specification-level count. -/
def uniquePairCount (items : List CorpusItem) : Nat :=
  (((items.map itemKey).filter (fun p => decide (p.1 ≠ [] ∧ p.2 ≠ []))).dedup).length

/-- The accepted query text of a feedback record, following the claim's
cascade: the corrected query when a non-empty one is present, else the
generated query when the record is explicitly marked correct, else nothing. -/
def acceptedSqlSpec (r : FRec) : Str :=
  if stripWs (getStr r.correctedSql) ≠ [] then stripWs (getStr r.correctedSql)
  else if r.correct then stripWs (getStr r.generatedSql) else []

/-- The normalised `(question, sql)` pair a feedback line contributes to the
corpus index, or `none` when the line is blank/unparsable, the question is
empty, or no query text is accepted. -/
def acceptedPair (l : LogLine) : Option (Str × Str) :=
  match l.parsed with
  | none => none
  | some r =>
    let q := asciiLower (stripWs (getStr r.question))
    let sql := acceptedSqlSpec r
    if q ≠ [] ∧ sql ≠ [] then some (q, normWs sql) else none

theorem length_buildIndex (items : List CorpusItem) :
    (buildIndex items).length = uniquePairCount items := by
  have h1 : (buildIndex items).length = (keysOf (buildIndex items)).length := by
    unfold keysOf
    rw [List.length_map]
  rw [h1]
  unfold buildIndex
  rw [keysOf_buildIndex_foldl items []]
  have h2 := foldlInsNew_spec
    ((items.map itemKey).filter (fun p => decide (p.1 ≠ [] ∧ p.2 ≠ []))) [] (by simp)
  obtain ⟨hnd, hset⟩ := h2
  have h3 := List.toFinset_card_of_nodup hnd
  show (List.foldl insNew []
    ((items.map itemKey).filter (fun p => decide (p.1 ≠ [] ∧ p.2 ≠ [])))).length =
      uniquePairCount items
  rw [← h3, hset]
  simp only [List.toFinset_nil, Finset.empty_union]
  unfold uniquePairCount
  rw [← List.card_toFinset]

/-- Unfolded form of `lineStep`, phrased with the claim-level accepted text. -/
theorem lineStep_eq (env : IngestEnv) (acc : IngAcc) (l : LogLine) :
    lineStep env acc l =
      match l.parsed with
      | none => { acc with sizeAfter := acc.sizeAfter + l.len }
      | some r =>
        if asciiLower (stripWs (getStr r.question)) ≠ [] ∧ acceptedSqlSpec r ≠ [] then
          { index := bumpIndex acc.index
              (asciiLower (stripWs (getStr r.question)), normWs (acceptedSqlSpec r)) 1
            newCount := acc.newCount +
              (if (lookupA (asciiLower (stripWs (getStr r.question)),
                    normWs (acceptedSqlSpec r)) acc.index).isSome then 0 else 1)
            syn := env.mine (asciiLower (stripWs (getStr r.question)))
              (normWs (acceptedSqlSpec r)) acc.syn
            patterns := acc.patterns ++
              [env.induce (asciiLower (stripWs (getStr r.question)))
                (normWs (acceptedSqlSpec r))]
            sizeAfter := acc.sizeAfter + l.len }
        else { acc with sizeAfter := acc.sizeAfter + l.len } := by
  unfold lineStep acceptedSqlSpec
  rcases l.parsed with _ | r
  · rfl
  · rfl

/-- Code-level ↔ claim-level correspondence of one loop iteration. -/
theorem lineStep_cases (env : IngestEnv) (acc : IngAcc) (l : LogLine) :
    (acceptedPair l = none →
      lineStep env acc l = { acc with sizeAfter := acc.sizeAfter + l.len })
    ∧ (∀ k, acceptedPair l = some k →
        (lineStep env acc l).index = bumpIndex acc.index k 1 ∧
        (lineStep env acc l).syn = env.mine k.1 k.2 acc.syn ∧
        (lineStep env acc l).patterns = acc.patterns ++ [env.induce k.1 k.2] ∧
        (lineStep env acc l).sizeAfter = acc.sizeAfter + l.len) := by
  rw [lineStep_eq]
  unfold acceptedPair
  rcases l.parsed with _ | r
  · exact ⟨fun _ => rfl, fun k hk => by simp at hk⟩
  · dsimp only
    by_cases hc : asciiLower (stripWs (getStr r.question)) ≠ [] ∧ acceptedSqlSpec r ≠ []
    · constructor
      · intro hnone
        rw [if_pos hc] at hnone
        exact absurd hnone (by simp)
      · intro k hk
        rw [if_pos hc] at hk ⊢
        have hkv := Option.some.inj hk
        rw [← hkv]
        exact ⟨rfl, rfl, rfl, rfl⟩
    · constructor
      · intro _
        rw [if_neg hc]
      · intro k hk
        rw [if_neg hc] at hk
        exact absurd hk (by simp)

/-- The checkpoint value accumulated by the loop is the initial offset plus
the byte length of every line read. -/
theorem sizeAfter_foldLines (env : IngestEnv) :
    ∀ (ls : List LogLine) (acc : IngAcc),
      (ls.foldl (lineStep env) acc).sizeAfter =
        acc.sizeAfter + (ls.map LogLine.len).sum := by
  intro ls
  induction ls with
  | nil => intro acc; simp
  | cons l rest ih =>
    intro acc
    simp only [List.foldl_cons, List.map_cons, List.sum_cons]
    rw [ih]
    have hstep : (lineStep env acc l).sizeAfter = acc.sizeAfter + l.len := by
      rw [lineStep_eq]
      rcases l.parsed with _ | r
      · rfl
      · dsimp only
        split
        · rfl
        · rfl
    rw [hstep]
    omega

theorem mem_insNew (ks : List (Str × Str)) (k0 k : Str × Str) :
    k ∈ insNew ks k0 ↔ k ∈ ks ∨ k = k0 := by
  unfold insNew
  by_cases hm : k0 ∈ ks
  · rw [if_pos hm]
    constructor
    · exact fun h => Or.inl h
    · rintro (h | rfl)
      · exact h
      · exact hm
  · rw [if_neg hm]
    simp

/-- Keys reachable after folding the feedback lines into the index. -/
theorem mem_keysOf_foldLines (env : IngestEnv) :
    ∀ (ls : List LogLine) (acc : IngAcc) (k : Str × Str),
      k ∈ keysOf ((ls.foldl (lineStep env) acc).index) ↔
        k ∈ keysOf acc.index ∨ ∃ l ∈ ls, acceptedPair l = some k := by
  intro ls
  induction ls with
  | nil => intro acc k; simp
  | cons l rest ih =>
    intro acc k
    simp only [List.foldl_cons]
    rw [ih]
    rcases hap : acceptedPair l with _ | k0
    · rw [(lineStep_cases env acc l).1 hap]
      simp only [List.mem_cons]
      constructor
      · rintro (h | h)
        · exact Or.inl h
        · exact Or.inr (by obtain ⟨l2, hl2, hk2⟩ := h; exact ⟨l2, Or.inr hl2, hk2⟩)
      · rintro (h | ⟨l2, hl2, hk2⟩)
        · exact Or.inl h
        · rcases hl2 with rfl | hl2
          · rw [hap] at hk2; exact absurd hk2 (by simp)
          · exact Or.inr ⟨l2, hl2, hk2⟩
    · have hidx := ((lineStep_cases env acc l).2 k0 hap).1
      rw [hidx, show keysOf (bumpIndex acc.index k0 1) = insNew (keysOf acc.index) k0 from
        by unfold insNew; rw [keysOf_bumpIndex]]
      rw [mem_insNew]
      simp only [List.mem_cons]
      constructor
      · rintro ((h | rfl) | h)
        · exact Or.inl h
        · exact Or.inr ⟨l, Or.inl rfl, hap⟩
        · obtain ⟨l2, hl2, hk2⟩ := h
          exact Or.inr ⟨l2, Or.inr hl2, hk2⟩
      · rintro (h | ⟨l2, hl2, hk2⟩)
        · exact Or.inl (Or.inl h)
        · rcases hl2 with rfl | hl2
          · rw [hap] at hk2
            exact Or.inl (Or.inr (Option.some.inj hk2).symm)
          · exact Or.inr ⟨l2, hl2, hk2⟩

theorem mem_keysOf_buildIndex_fold :
    ∀ (items : List CorpusItem) (idx0 : Index) (k : Str × Str),
      k ∈ keysOf (items.foldl corpusStep idx0) ↔
        k ∈ keysOf idx0 ∨
          ∃ it ∈ items, itemKey it = k ∧ loadQ it.q ≠ [] ∧ loadSql it.sql ≠ [] := by
  intro items
  induction items with
  | nil => intro idx0 k; simp
  | cons it rest ih =>
    intro idx0 k
    simp only [List.foldl_cons]
    rw [ih, keysOf_corpusStep]
    by_cases h : loadQ it.q ≠ [] ∧ loadSql it.sql ≠ []
    · rw [if_pos h, mem_insNew]
      simp only [List.mem_cons]
      constructor
      · rintro ((hm | rfl) | hm)
        · exact Or.inl hm
        · exact Or.inr ⟨it, Or.inl rfl, rfl, h⟩
        · obtain ⟨it2, h2, h3⟩ := hm
          exact Or.inr ⟨it2, Or.inr h2, h3⟩
      · rintro (hm | ⟨it2, h2, h3⟩)
        · exact Or.inl (Or.inl hm)
        · rcases h2 with rfl | h2
          · exact Or.inl (Or.inr h3.1.symm)
          · exact Or.inr ⟨it2, h2, h3⟩
    · rw [if_neg h]
      simp only [List.mem_cons]
      constructor
      · rintro (hm | hm)
        · exact Or.inl hm
        · obtain ⟨it2, h2, h3⟩ := hm
          exact Or.inr ⟨it2, Or.inr h2, h3⟩
      · rintro (hm | ⟨it2, h2, h3⟩)
        · exact Or.inl hm
        · rcases h2 with rfl | h2
          · exact absurd ⟨h3.2.1, h3.2.2⟩ h
          · exact Or.inr ⟨it2, h2, h3⟩

/-- A `(q, sql)` key in normal form: both components non-empty and fixed by
the loader's normalisation. -/
def goodKey (k : Str × Str) : Prop :=
  k.1 ≠ [] ∧ k.2 ≠ [] ∧ asciiLower (stripWs k.1) = k.1 ∧ normWs (stripWs k.2) = k.2

theorem joinSp_cons_ne_nil {p : Str} (hp : p ≠ []) (rest : List Str) :
    joinSp (p :: rest) ≠ [] := by
  match rest with
  | [] => exact hp
  | q :: rest2 =>
    show p ++ ' ' :: joinSp (q :: rest2) ≠ []
    simp

theorem normWs_stripWs_ne_nil {s : Str} (h : stripWs s ≠ []) :
    normWs (stripWs s) ≠ [] := by
  have hh := head_stripWs h
  rcases hst : stripWs s with _ | ⟨c, u⟩
  · exact absurd hst h
  · have hc : isWs c = false := by
      have h1 : (stripWs s).head? = some c := by rw [hst]; rfl
      rw [List.head?_eq_head h] at h1
      rw [← Option.some.inj h1]
      exact hh
    unfold normWs splitWs
    rw [chunksBy_cons_pos _ (by simp [hc])]
    exact joinSp_cons_ne_nil (by simp) _

theorem goodKey_itemKey {it : CorpusItem} (h1 : loadQ it.q ≠ []) (h2 : loadSql it.sql ≠ []) :
    goodKey (itemKey it) := by
  refine ⟨h1, h2, ?_, ?_⟩
  · exact lowStrip_idem (getStr it.q)
  · exact normWs_stripWs_normWs (stripWs (getStr it.sql))

theorem acceptedSqlSpec_form {r : FRec} (hsql : acceptedSqlSpec r ≠ []) :
    ∃ z, acceptedSqlSpec r = stripWs z ∧ stripWs z ≠ [] := by
  unfold acceptedSqlSpec at hsql ⊢
  by_cases h2 : stripWs (getStr r.correctedSql) ≠ []
  · rw [if_pos h2]
    exact ⟨getStr r.correctedSql, rfl, h2⟩
  · rw [if_neg h2] at hsql ⊢
    by_cases h3 : r.correct = true
    · rw [if_pos h3] at hsql ⊢
      exact ⟨getStr r.generatedSql, rfl, hsql⟩
    · rw [if_neg h3] at hsql
      exact absurd rfl hsql

theorem goodKey_acceptedPair {l : LogLine} {k : Str × Str}
    (h : acceptedPair l = some k) : goodKey k := by
  unfold acceptedPair at h
  rcases hp : l.parsed with _ | r
  · rw [hp] at h
    exact absurd h (by simp)
  · rw [hp] at h
    dsimp only at h
    split at h
    · next hc =>
      obtain ⟨hq, hsql⟩ := hc
      obtain ⟨z, hz, hzne⟩ := acceptedSqlSpec_form hsql
      have hk := (Option.some.inj h).symm
      subst hk
      refine ⟨hq, ?_, ?_, ?_⟩
      · show normWs (acceptedSqlSpec r) ≠ []
        rw [hz]
        exact normWs_stripWs_ne_nil hzne
      · exact lowStrip_idem (getStr r.question)
      · show normWs (stripWs (normWs (acceptedSqlSpec r))) = normWs (acceptedSqlSpec r)
        rw [hz]
        exact normWs_stripWs_normWs (stripWs z)
    · exact absurd h (by simp)

theorem mem_finalItems (idx : Index) (it : CorpusItem) :
    it ∈ finalItems idx ↔
      ∃ e ∈ idx, it = { q := some e.1.1, sql := some e.1.2, count := some e.2 } := by
  unfold finalItems
  rw [List.mem_map]
  constructor
  · rintro ⟨t, ht, rfl⟩
    rw [mem_sortByLt, List.mem_map] at ht
    obtain ⟨e, he, rfl⟩ := ht
    exact ⟨e, he, rfl⟩
  · rintro ⟨e, he, rfl⟩
    refine ⟨(e.1.1, e.1.2, e.2), ?_, rfl⟩
    rw [mem_sortByLt, List.mem_map]
    exact ⟨e, he, rfl⟩

theorem mem_corpusKeys_finalItems (idx : Index) (k : Str × Str) :
    k ∈ corpusKeys (finalItems idx) ↔ k ∈ keysOf idx := by
  unfold corpusKeys
  rw [List.mem_map]
  constructor
  · rintro ⟨it, hit, rfl⟩
    rw [mem_finalItems] at hit
    obtain ⟨e, he, rfl⟩ := hit
    show (e.1.1, e.1.2) ∈ keysOf idx
    rw [show ((e.1.1, e.1.2) : Str × Str) = e.1 from rfl]
    exact List.mem_map_of_mem Prod.fst he
  · intro hk
    unfold keysOf at hk
    rw [List.mem_map] at hk
    obtain ⟨e, he, hke⟩ := hk
    refine ⟨{ q := some e.1.1, sql := some e.1.2, count := some e.2 }, ?_, ?_⟩
    · rw [mem_finalItems]
      exact ⟨e, he, rfl⟩
    · rw [← hke]
      rfl

theorem goodKeys_buildIndex (items : List CorpusItem) :
    ∀ k ∈ keysOf (buildIndex items), goodKey k := by
  intro k hk
  unfold buildIndex at hk
  rw [mem_keysOf_buildIndex_fold] at hk
  rcases hk with hk | ⟨it, _, hkey, hq, hsql⟩
  · simp [keysOf] at hk
  · rw [← hkey]
    exact goodKey_itemKey hq hsql

theorem mem_keysOf_buildIndex_finalItems (idx : Index)
    (hgood : ∀ k ∈ keysOf idx, goodKey k) (k : Str × Str) :
    k ∈ keysOf (buildIndex (finalItems idx)) ↔ k ∈ keysOf idx := by
  unfold buildIndex
  rw [mem_keysOf_buildIndex_fold]
  constructor
  · rintro (h | ⟨it, hit, hkey, hq, hsql⟩)
    · simp [keysOf] at h
    · rw [mem_finalItems] at hit
      obtain ⟨e, he, rfl⟩ := hit
      have hg : goodKey e.1 := hgood e.1 (List.mem_map_of_mem Prod.fst he)
      have hkey2 : itemKey { q := some e.1.1, sql := some e.1.2, count := some e.2 } = e.1 := by
        show (asciiLower (stripWs e.1.1), normWs (stripWs e.1.2)) = e.1
        rw [hg.2.2.1, hg.2.2.2]
      rw [hkey2] at hkey
      rw [← hkey]
      exact List.mem_map_of_mem Prod.fst he
  · intro hk
    right
    unfold keysOf at hk
    rw [List.mem_map] at hk
    obtain ⟨e, he, hke⟩ := hk
    have hg : goodKey e.1 := hgood e.1 (List.mem_map_of_mem Prod.fst he)
    refine ⟨{ q := some e.1.1, sql := some e.1.2, count := some e.2 },
      (mem_finalItems idx _).mpr ⟨e, he, rfl⟩, ?_, ?_, ?_⟩
    · show (asciiLower (stripWs e.1.1), normWs (stripWs e.1.2)) = k
      rw [hg.2.2.1, hg.2.2.2]
      rw [← hke]
    · show asciiLower (stripWs e.1.1) ≠ []
      rw [hg.2.2.1]
      exact hg.1
    · show normWs (stripWs e.1.2) ≠ []
      rw [hg.2.2.2]
      exact hg.2.1

/-- The loop accumulator of one ingestion run over an existing log. -/
def ingAccOf (env : IngestEnv) (s : StoreState) (lines : List LogLine) : IngAcc :=
  (readFrom lines s.offsetFile).foldl (lineStep env)
    { index := buildIndex s.corpusFile, newCount := 0, syn := s.synFile,
      patterns := s.patternsFile, sizeAfter := s.offsetFile }

theorem ingestRun_some (env : IngestEnv) (s : StoreState) (lines : List LogLine)
    (h : s.log = some lines) :
    ingestRun env s =
      (((ingAccOf env s lines).newCount, (finalItems (ingAccOf env s lines).index).length),
       { corpusFile := finalItems (ingAccOf env s lines).index,
         synFile := (ingAccOf env s lines).syn,
         patternsFile := dedupGo [] (ingAccOf env s lines).patterns,
         offsetFile := (ingAccOf env s lines).sizeAfter, log := s.log },
       [WriteEv.tmpWrite StoreId.corpus, WriteEv.atomicRename StoreId.corpus,
        WriteEv.tmpWrite StoreId.syn, WriteEv.atomicRename StoreId.syn,
        WriteEv.tmpWrite StoreId.patterns, WriteEv.atomicRename StoreId.patterns,
        WriteEv.advanceOffset (ingAccOf env s lines).sizeAfter]) := by
  unfold ingestRun ingAccOf
  rw [h]

theorem goodKeys_ingAcc (env : IngestEnv) (s : StoreState) (lines : List LogLine) :
    ∀ k ∈ keysOf (ingAccOf env s lines).index, goodKey k := by
  intro k hk
  unfold ingAccOf at hk
  rw [mem_keysOf_foldLines] at hk
  rcases hk with hk | ⟨l, _, hap⟩
  · exact goodKeys_buildIndex s.corpusFile k hk
  · exact goodKey_acceptedPair hap

/-- External log appends between ingestion calls (they never touch the
checkpoint file). -/
def appendLog (s : StoreState) (batch : List LogLine) : StoreState :=
  { s with log := some ((s.log.getD []) ++ batch) }

/-- An arbitrary interleaving of log appends and `ingest()` calls. -/
def runSeq (env : IngestEnv) : StoreState → List (List LogLine) → StoreState
  | s, [] => s
  | s, batch :: rest => runSeq env (ingestState env (appendLog s batch)) rest

theorem ingest_offset_mono (env : IngestEnv) (s : StoreState) :
    s.offsetFile ≤ (ingestState env s).offsetFile := by
  rcases hl : s.log with _ | lines
  · show s.offsetFile ≤ (ingestRun env s).2.1.offsetFile
    unfold ingestRun
    rw [hl]
  · show s.offsetFile ≤ (ingestRun env s).2.1.offsetFile
    rw [ingestRun_some env s lines hl]
    show s.offsetFile ≤ (ingAccOf env s lines).sizeAfter
    unfold ingAccOf
    rw [sizeAfter_foldLines]
    show s.offsetFile ≤ s.offsetFile + _
    omega

theorem runSeq_offset_mono (env : IngestEnv) :
    ∀ (batches : List (List LogLine)) (s : StoreState),
      s.offsetFile ≤ (runSeq env s batches).offsetFile := by
  intro batches
  induction batches with
  | nil => intro s; exact le_rfl
  | cons b rest ih =>
    intro s
    show s.offsetFile ≤ (runSeq env (ingestState env (appendLog s b)) rest).offsetFile
    calc s.offsetFile = (appendLog s b).offsetFile := rfl
      _ ≤ (ingestState env (appendLog s b)).offsetFile := ingest_offset_mono env _
      _ ≤ _ := ih _

/-- **C4.** Across any sequence of `ingest()` calls (with arbitrary feedback
appended in between) the persisted checkpoint byte offset never decreases,
and whenever a single call advances the checkpoint, each of the corpus,
synonym and pattern stores has been written to a temporary file and then
atomically renamed into place strictly earlier in the call's durable-write
sequence. -/
theorem C4_checkpoint_monotone_write_order (env : IngestEnv) (s : StoreState)
    (batches : List (List LogLine)) :
    s.offsetFile ≤ (ingestState env s).offsetFile
    ∧ s.offsetFile ≤ (runSeq env s batches).offsetFile
    ∧ (∀ (i : Nat) (n : Nat), (ingestTrace env s)[i]? = some (WriteEv.advanceOffset n) →
        ∀ st : StoreId, ∃ j1 j2 : Nat, j1 < j2 ∧ j2 < i ∧
          (ingestTrace env s)[j1]? = some (WriteEv.tmpWrite st) ∧
          (ingestTrace env s)[j2]? = some (WriteEv.atomicRename st)) := by
  refine ⟨ingest_offset_mono env s, runSeq_offset_mono env batches s, ?_⟩
  intro i n hi st
  rcases hl : s.log with _ | lines
  · have htr : ingestTrace env s = [] := by
      show (ingestRun env s).2.2 = []
      unfold ingestRun
      rw [hl]
    rw [htr] at hi
    simp at hi
  · have htr : ingestTrace env s =
        [WriteEv.tmpWrite StoreId.corpus, WriteEv.atomicRename StoreId.corpus,
         WriteEv.tmpWrite StoreId.syn, WriteEv.atomicRename StoreId.syn,
         WriteEv.tmpWrite StoreId.patterns, WriteEv.atomicRename StoreId.patterns,
         WriteEv.advanceOffset (ingAccOf env s lines).sizeAfter] := by
      show (ingestRun env s).2.2 = _
      rw [ingestRun_some env s lines hl]
    rw [htr] at hi ⊢
    match i with
    | 0 => simp at hi
    | 1 => simp at hi
    | 2 => simp at hi
    | 3 => simp at hi
    | 4 => simp at hi
    | 5 => simp at hi
    | 6 =>
      cases st with
      | corpus => exact ⟨0, 1, by omega, by omega, rfl, rfl⟩
      | syn => exact ⟨2, 3, by omega, by omega, rfl, rfl⟩
      | patterns => exact ⟨4, 5, by omega, by omega, rfl, rfl⟩
    | (m + 7) =>
      rw [List.getElem?_eq_none (by simp)] at hi
      exact absurd hi (by simp)

/-- **C10.** When the feedback log file does not exist, `ingest()` returns
`(0, n)` where `n` is the number of unique non-empty normalised
`(question, sql)` pairs in the current corpus file, leaves every store and
the checkpoint untouched, and performs no durable write at all. -/
theorem C10_missing_log_frame (env : IngestEnv) (s : StoreState) (h : s.log = none) :
    ingestRun env s = ((0, uniquePairCount s.corpusFile), s, []) := by
  unfold ingestRun
  rw [h]
  dsimp only
  rw [length_buildIndex]

/-- **C6.** Per-record behaviour of ingestion: a blank or unparsable feedback
line changes none of the three stores' accumulators and never blocks the
processing of subsequent lines; for a parsed record, the `(question, query)`
pair merged into the corpus index is exactly the normalised question together
with the corrected query when a non-empty one is present, else the generated
query when the record is marked correct — and otherwise the record
contributes nothing to any store. -/
theorem C6_feedback_record_handling (env : IngestEnv) (acc : IngAcc) (l : LogLine)
    (rest : List LogLine) :
    ((l :: rest).foldl (lineStep env) acc = rest.foldl (lineStep env) (lineStep env acc l))
    ∧ (acceptedPair l = none →
        (lineStep env acc l).index = acc.index ∧
        (lineStep env acc l).syn = acc.syn ∧
        (lineStep env acc l).patterns = acc.patterns ∧
        (lineStep env acc l).newCount = acc.newCount)
    ∧ (∀ k, acceptedPair l = some k →
        (lineStep env acc l).index = bumpIndex acc.index k 1 ∧
        ∃ r, l.parsed = some r ∧
          k = (asciiLower (stripWs (getStr r.question)), normWs (acceptedSqlSpec r))) := by
  refine ⟨rfl, ?_, ?_⟩
  · intro hnone
    rw [(lineStep_cases env acc l).1 hnone]
    exact ⟨rfl, rfl, rfl, rfl⟩
  · intro k hk
    refine ⟨((lineStep_cases env acc l).2 k hk).1, ?_⟩
    unfold acceptedPair at hk
    rcases hp : l.parsed with _ | r
    · rw [hp] at hk
      exact absurd hk (by simp)
    · rw [hp] at hk
      dsimp only at hk
      split at hk
      · exact ⟨r, rfl, (Option.some.inj hk).symm⟩
      · exact absurd hk (by simp)

/-- **C2.** Replay idempotence of `ingest()`: starting from any store state,
ingesting a byte range of the feedback log, resetting the checkpoint to its
prior value, and ingesting again, leaves the Corpus Store with exactly the
same set of `(question, sql)` pairs (the state is identical after
deduplication by that pair) as ingesting the range once. -/
theorem C2_ingest_replay_idempotent (env : IngestEnv) (s : StoreState)
    (lines : List LogLine) (hlog : s.log = some lines) :
    ∀ k, k ∈ corpusKeys (ingestState env
            { ingestState env s with offsetFile := s.offsetFile }).corpusFile ↔
         k ∈ corpusKeys (ingestState env s).corpusFile := by
  intro k
  have h1 : ingestState env s =
      { corpusFile := finalItems (ingAccOf env s lines).index,
        synFile := (ingAccOf env s lines).syn,
        patternsFile := dedupGo [] (ingAccOf env s lines).patterns,
        offsetFile := (ingAccOf env s lines).sizeAfter, log := s.log } := by
    show (ingestRun env s).2.1 = _
    rw [ingestRun_some env s lines hlog]
  set s2 : StoreState := { ingestState env s with offsetFile := s.offsetFile } with hs2
  have hs2log : s2.log = some lines := by
    rw [hs2, h1]
    exact hlog
  have hs2corpus : s2.corpusFile = finalItems (ingAccOf env s lines).index := by
    rw [hs2, h1]
  have hs2off : s2.offsetFile = s.offsetFile := by
    rw [hs2]
  have h2 : ingestState env s2 =
      { corpusFile := finalItems (ingAccOf env s2 lines).index,
        synFile := (ingAccOf env s2 lines).syn,
        patternsFile := dedupGo [] (ingAccOf env s2 lines).patterns,
        offsetFile := (ingAccOf env s2 lines).sizeAfter, log := s2.log } := by
    show (ingestRun env s2).2.1 = _
    rw [ingestRun_some env s2 lines hs2log]
  rw [h1, h2]
  show k ∈ corpusKeys (finalItems (ingAccOf env s2 lines).index) ↔
    k ∈ corpusKeys (finalItems (ingAccOf env s lines).index)
  rw [mem_corpusKeys_finalItems, mem_corpusKeys_finalItems]
  have hacc2 : (ingAccOf env s2 lines).index =
      ((readFrom lines s.offsetFile).foldl (lineStep env)
        { index := buildIndex (finalItems (ingAccOf env s lines).index), newCount := 0,
          syn := s2.synFile, patterns := s2.patternsFile,
          sizeAfter := s.offsetFile }).index := by
    unfold ingAccOf
    rw [hs2off, hs2corpus]
    rfl
  rw [hacc2, mem_keysOf_foldLines]
  rw [mem_keysOf_buildIndex_finalItems _ (goodKeys_ingAcc env s lines) k]
  have hB : k ∈ keysOf (ingAccOf env s lines).index ↔
      k ∈ keysOf (buildIndex s.corpusFile) ∨
        ∃ l ∈ readFrom lines s.offsetFile, acceptedPair l = some k := by
    unfold ingAccOf
    exact mem_keysOf_foldLines env _ _ k
  rw [hB]
  tauto

/-! ### Concrete witnesses for the ingestion claims -/

def wEnvI : IngestEnv :=
  { mine := fun _ _ syn => syn, induce := fun q sql => (q, sql) }

def wLine1 : LogLine :=
  { len := 62,
    parsed := some
      { question := some (lit ("Show claims")),
        generatedSql := some (lit ("SELECT * FROM claims")),
        correctedSql := none, correct := true } }

def wLineBad : LogLine := { len := 9, parsed := none }

def wStateA : StoreState :=
  { corpusFile := [{ q := some (lit ("q1")), sql := some (lit ("SELECT 1")), count := some 2 }],
    synFile := [], patternsFile := [], offsetFile := 0, log := some [wLine1, wLineBad] }

def wStateNone : StoreState :=
  { corpusFile :=
      [{ q := some (lit ("q1")), sql := some (lit ("SELECT 1")), count := some 2 },
       { q := some (lit (" Q1 ")), sql := some (lit ("SELECT  1")), count := none }],
    synFile := [], patternsFile := [], offsetFile := 7, log := none }

def wAcc : IngAcc :=
  { index := [], newCount := 0, syn := [], patterns := [], sizeAfter := 0 }

theorem C2_witness :
    (lit ("show claims"), lit ("SELECT * FROM claims")) ∈
        corpusKeys (ingestState wEnvI
          { ingestState wEnvI wStateA with offsetFile := wStateA.offsetFile }).corpusFile ↔
      (lit ("show claims"), lit ("SELECT * FROM claims")) ∈
        corpusKeys (ingestState wEnvI wStateA).corpusFile :=
  C2_ingest_replay_idempotent wEnvI wStateA [wLine1, wLineBad] rfl _

theorem C4_witness :
    wStateA.offsetFile ≤ (ingestState wEnvI wStateA).offsetFile
    ∧ (∃ j1 j2 : Nat, j1 < j2 ∧ j2 < 6 ∧
        (ingestTrace wEnvI wStateA)[j1]? = some (WriteEv.tmpWrite StoreId.corpus) ∧
        (ingestTrace wEnvI wStateA)[j2]? = some (WriteEv.atomicRename StoreId.corpus)) := by
  have h := C4_checkpoint_monotone_write_order wEnvI wStateA []
  exact ⟨h.1, h.2.2 6 71 rfl StoreId.corpus⟩

theorem C6_witness :
    (lineStep wEnvI wAcc wLineBad).index = wAcc.index
    ∧ (lineStep wEnvI wAcc wLine1).index =
        bumpIndex wAcc.index (lit ("show claims"), lit ("SELECT * FROM claims")) 1 := by
  have h1 := C6_feedback_record_handling wEnvI wAcc wLineBad []
  have h2 := C6_feedback_record_handling wEnvI wAcc wLine1 []
  exact ⟨(h1.2.1 rfl).1, ((h2.2.2 (lit ("show claims"), lit ("SELECT * FROM claims"))) rfl).1⟩

theorem C10_witness : ingestRun wEnvI wStateNone = ((0, 1), wStateNone, []) := by
  rw [C10_missing_log_frame wEnvI wStateNone rfl]
  rfl

/-! ## Schema model (output of `learner.learn_schema` / input of `joins.py`) -/

/-- A raw value sampled from the database (the payloads the Python code
inspects with `isinstance`). -/
inductive Value
  | vInt (n : Int)
  | vReal
  | vStr (s : Str)
  | vNull
deriving DecidableEq

structure ColInfo where
  surfaces : List Str
  isNumeric : Bool
  isDate : Bool
deriving DecidableEq

structure TableInfo where
  columns : List Str
  samples : List (Str × List Value)
  surfaces : List Str
deriving DecidableEq

/-- The `learned` dictionary: `{"tables": {...}, "columns": {...}}`, with
dict iteration order preserved as list order. -/
structure Learned where
  tables : List (Str × TableInfo)
  columns : List (Str × ColInfo)
deriving DecidableEq

def lookupL {β : Type} (k : Str) : List (Str × β) → Option β
  | [] => none
  | (k2, v) :: rest => if k2 = k then some v else lookupL k rest

def tableNames (L : Learned) : List Str := L.tables.map Prod.fst

def tinfo (L : Learned) (t : Str) : TableInfo :=
  (lookupL t L.tables).getD { columns := [], samples := [], surfaces := [] }

def colsOf (L : Learned) (t : Str) : List Str := (tinfo L t).columns

def samplesOf (L : Learned) (t c : Str) : List Value :=
  (lookupL c (tinfo L t).samples).getD []

def colInfoOf (L : Learned) (key : Str) : ColInfo :=
  (lookupL key L.columns).getD { surfaces := [], isNumeric := false, isDate := false }

/-- `suffix.isSuffixOf s` — Python `s.endswith(suffix)`. -/
def endsWithS (suffix s : Str) : Bool := List.isSuffixOf suffix s

/-- Python `s.rstrip("s")`: strip every trailing `'s'`. -/
def rstripS (s : Str) : Str := s.rdropWhile (fun c => c = 's')

/-- Python `s[:-n]`. -/
def dropLastN (n : Nat) (s : Str) : Str := s.take (s.length - n)

/-- Python `pat in s` (substring containment), for non-empty `pat`. -/
def containsSub (pat : Str) : Str → Bool
  | [] => pat.isEmpty
  | c :: rest => pat.isPrefixOf (c :: rest) || containsSub pat rest

/-- Fuel-driven worker for Python `s.replace(pat, rep)` (left-to-right,
non-overlapping), `pat` non-empty. -/
def replaceSubGo (pat rep : Str) : Nat → Str → Str
  | 0, s => s
  | fuel + 1, s =>
    match s with
    | [] => []
    | c :: rest =>
      if pat.isPrefixOf (c :: rest) && !pat.isEmpty then
        rep ++ replaceSubGo pat rep fuel (List.drop pat.length (c :: rest))
      else c :: replaceSubGo pat rep fuel rest

def replaceSub (pat rep s : Str) : Str := replaceSubGo pat rep s.length s

/-- Decimal digits of a natural number (Python `str(n)` for `n ≥ 0`). -/
def digitChar (d : Nat) : Char := Char.ofNatAux (48 + d % 10) (Or.inl (by omega))

def natDigitsGo : Nat → Nat → Str
  | 0, _ => []
  | fuel + 1, n =>
    if n < 10 then [digitChar n]
    else natDigitsGo fuel (n / 10) ++ [digitChar (n % 10)]

def natDigits (n : Nat) : Str := natDigitsGo (n + 1) n

/-! ## Embedding of `legacy_assistant/joins.py` -/

/-- `_pk_for`: `id`, else `<singular>_id`, else first `*_id` column, else the
first column (`[]` standing for the `IndexError` a zero-column table would
raise — unreachable for schemas produced by SQLite introspection). -/
def pkFor (L : Learned) (t : Str) : Str :=
  let cols := colsOf L t
  if lit ("id") ∈ cols then lit ("id")
  else
    let cand := rstripS t ++ lit ("_id")
    if cand ∈ cols then cand
    else
      match cols.find? (fun c => endsWithS (lit ("_id")) c) with
      | some c => c
      | none => cols.headD []

/-- `infer_fk_edges` (strategies in strict priority order, first table wins,
`for`/`else` semantics). -/
def inferFkEdges (L : Learned) : List (Str × Str × Str × Str) :=
  let tables := tableNames L
  tables.foldl
    (fun edges t =>
      (colsOf L t).foldl
        (fun es c =>
          if endsWithS (lit ("_id")) c then
            let stem := asciiLower (dropLastN 3 c)
            match tables.find? (fun u => u ≠ t && c = pkFor L u) with
            | some u => es ++ [(t, c, u, pkFor L u)]
            | none =>
              match tables.find? (fun u => u ≠ t &&
                  (asciiLower u = stem || asciiLower (rstripS u) = rstripS stem)) with
              | some u => es ++ [(t, c, u, pkFor L u)]
              | none =>
                match tables.find? (fun u => u ≠ t && !stem.isEmpty &&
                    (containsSub stem (asciiLower u) || containsSub (asciiLower u) stem)) with
                | some u => es ++ [(t, c, u, pkFor L u)]
                | none => es
          else es)
        edges)
    []

def addAdj (adj : List (Str × List (Str × Str × Str))) (t : Str) (e : Str × Str × Str) :
    List (Str × List (Str × Str × Str)) :=
  if (lookupL t adj).isSome then
    adj.map (fun kv => if kv.1 = t then (kv.1, kv.2 ++ [e]) else kv)
  else adj ++ [(t, [e])]

/-- `_adjacency`. -/
def adjacency (L : Learned) : List (Str × List (Str × Str × Str)) :=
  (inferFkEdges L).foldl (fun adj e => addAdj adj e.1 (e.2.2.1, e.2.1, e.2.2.2)) []

/-- `find_join_path` (the `max_hops` parameter is accepted and, as in the
source, never used: the 1-hop and 2-hop probes are hard-coded). -/
def findJoinPath (L : Learned) (src dst : Str) (maxHops : Nat) :
    Option (List (Str × Str × Str × Str)) :=
  if src = dst then some []
  else
    let adj := adjacency L
    let asrc := (lookupL src adj).getD []
    match asrc.find? (fun e => e.1 = dst) with
    | some e => some [(src, e.2.1, dst, e.2.2)]
    | none =>
      asrc.findSome? (fun e =>
        match ((lookupL e.1 adj).getD []).find? (fun e2 => e2.1 = dst) with
        | some e2 => some [(src, e.2.1, e.1, e.2.2), (e.1, e2.2.1, dst, e2.2.2)]
        | none => none)

theorem exists_of_findSomeP {α β : Type} (f : α → Option β) :
    ∀ (l : List α) (b : β), l.findSome? f = some b → ∃ a ∈ l, f a = some b := by
  intro l
  induction l with
  | nil =>
    intro b h
    exact absurd h (by simp [List.findSome?])
  | cons x xs ih =>
    intro b h
    have hcons : (x :: xs).findSome? f =
        match f x with
        | some v => some v
        | none => xs.findSome? f := rfl
    rw [hcons] at h
    revert h
    rcases hf : f x with _ | v
    · intro h
      obtain ⟨a, ha, hfa⟩ := ih b h
      exact ⟨a, by simp [ha], hfa⟩
    · intro h
      exact ⟨x, by simp, by rw [hf]; exact h⟩

/-- **C7.** For every schema, every pair of tables and every `max_hops`
argument, `find_join_path(T, T)` returns the empty path, and every path it
returns has at most 2 join edges. -/
theorem C7_find_path_bounds (L : Learned) (src dst : Str) (maxHops : Nat) :
    (src = dst → findJoinPath L src dst maxHops = some [])
    ∧ (∀ p, findJoinPath L src dst maxHops = some p → p.length ≤ 2) := by
  constructor
  · intro h
    unfold findJoinPath
    rw [if_pos h]
  · intro p hp
    unfold findJoinPath at hp
    by_cases h : src = dst
    · rw [if_pos h] at hp
      rw [← Option.some.inj hp]
      simp
    · rw [if_neg h] at hp
      dsimp only at hp
      split at hp
      · rw [← Option.some.inj hp]
        simp
      · obtain ⟨e, _, he⟩ := exists_of_findSomeP _ _ _ hp
        revert he
        split
        · intro he
          rw [← Option.some.inj he]
          simp
        · intro he
          exact absurd he (by simp)

def wLearnedJ : Learned :=
  { tables :=
      [(lit ("organizations"),
        { columns := [lit ("org_id"), lit ("org_name")], samples := [], surfaces := [] }),
       (lit ("users"),
        { columns := [lit ("user_id"), lit ("org_id")], samples := [], surfaces := [] })],
    columns := [] }

theorem C7_witness :
    findJoinPath wLearnedJ (lit ("users")) (lit ("users")) 2 = some []
    ∧ (findJoinPath wLearnedJ (lit ("users")) (lit ("organizations")) 2 =
        some [(lit ("users"), lit ("org_id"), lit ("organizations"), lit ("org_id"))]
      ∧ [(lit ("users"), lit ("org_id"), lit ("organizations"), lit ("org_id"))].length ≤ 2) := by
  refine ⟨(C7_find_path_bounds wLearnedJ (lit ("users")) (lit ("users")) 2).1 rfl, rfl, ?_⟩
  exact (C7_find_path_bounds wLearnedJ (lit ("users")) (lit ("organizations")) 2).2 _ rfl

/-! ## Embedding of `legacy_assistant/lex.py`, `learner.py` and
`db.schema_introspect` -/

/-- `lex.underscore_to_words`. -/
def underscoreToWords (name : Str) : Str :=
  asciiLower (stripWs (name.map (fun c => if c = '_' then ' ' else c)))

/-- `lex.singular`. -/
def singularS (s : Str) : Str :=
  if endsWithS (lit ("ies")) s then dropLastN 3 s ++ lit ("y")
  else if endsWithS (lit ("ses")) s then dropLastN 2 s
  else if endsWithS (lit ("s")) s && s.length > 3 then dropLastN 1 s
  else s

/-- `lex.surface_forms`: `sorted({w, singular(w)})`. -/
def surfaceForms (name : Str) : List Str :=
  let w := underscoreToWords name
  let g := singularS w
  if w = g then [w] else if strLtB w g then [w, g] else [g, w]

/-- One introspected column: its name and the raw values its sampling query
returned (in database order, already capped by the query's `LIMIT`). -/
structure RawCol where
  name : Str
  vals : List Value
deriving DecidableEq

/-- `learner.learn_schema` lines 54–59: type flags from the first 10 sampled
values only — `is_num` if some early value is an int/float, `is_date` if some
early value is a string of length ≥ 8 with dashes at offsets 4 and 7. -/
def valIsNum : Value → Bool
  | Value.vInt _ => true
  | Value.vReal => true
  | _ => false

def isoShape8 (s : Str) : Bool :=
  decide (8 ≤ s.length) && (s.getD 4 ' ' = '-') && (s.getD 7 ' ' = '-')

def valIsoDate8 : Value → Bool
  | Value.vStr s => isoShape8 s
  | _ => false

def learnFlags (vals : List Value) : Bool × Bool :=
  ((vals.take 10).any valIsNum, (vals.take 10).any valIsoDate8)

/-- The `ColumnInfo` record `learn_schema` stores for one column. -/
def learnColInfo (cname : Str) (vals : List Value) : ColInfo :=
  { surfaces := surfaceForms cname,
    isNumeric := (learnFlags vals).1,
    isDate := (learnFlags vals).2 }

/-- Full `learn_schema`, as a pure function of the introspected raw data. -/
def learnSchema (raw : List (Str × List RawCol)) : Learned :=
  { tables := raw.map (fun tr =>
      (tr.1, { columns := tr.2.map RawCol.name,
               samples := tr.2.map (fun c => (c.name, c.vals)),
               surfaces := surfaceForms tr.1 })),
    columns := raw.flatMap (fun tr =>
      tr.2.map (fun c => (tr.1 ++ lit (".") ++ c.name, learnColInfo c.name c.vals))) }

/-- `db._looks_date_sample`: some sampled string of length ≥ 10 with dashes
at offsets 4 and 7. -/
def isoShape10 (s : Str) : Bool :=
  decide (10 ≤ s.length) && (s.getD 4 ' ' = '-') && (s.getD 7 ' ' = '-')

def strVals (vals : List Value) : List Str :=
  vals.filterMap (fun v => match v with | Value.vStr s => some s | _ => none)

def looksDateSample (vals : List Str) : Bool := vals.any isoShape10

/-- `db._name_looks_numeric`: curated numeric-suggestive stems. -/
def numericStems : List Str :=
  [lit ("amount"), lit ("limit"), lit ("value"), lit ("sum"),
   lit ("count"), lit ("price"), lit ("qty"), lit ("quantity")]

def nameLooksNumeric (c : Str) : Bool :=
  let cl := asciiLower c
  numericStems.any (fun tok => containsSub tok cl) ||
    endsWithS (lit ("_id")) cl || endsWithS (lit ("_count")) cl

/-- The flags `db.schema_introspect` stores for one column (lines 236–240):
`is_date` from a string-sample shape test or a date-suggestive name suffix,
`is_numeric` from the curated name stems. -/
def introColFlags (cname : Str) (vals : List Value) : Bool × Bool :=
  (looksDateSample (strVals vals) ||
     endsWithS (lit ("_date")) cname || endsWithS (lit ("_at")) cname,
   nameLooksNumeric cname)

/-- **C9 as stated**: in the schema model the pipeline's Schema Learner
(`learner.learn_schema`) produces, `is_date` would hold exactly when a sample
matches an ISO-date-like shape or the name has a date-suggestive suffix, and
`is_numeric` exactly when the name matches the curated numeric stems. -/
def C9_claim : Prop :=
  ∀ (cname : Str) (vals : List Value),
    ((learnColInfo cname vals).isDate = (introColFlags cname vals).1)
    ∧ ((learnColInfo cname vals).isNumeric = (introColFlags cname vals).2)

/-- **C9 counterexample**: a column named `created_at` whose sampling query
returned no values.  `learn_schema` flags it `is_date = false` (it only looks
at sampled values), while the claimed name-suffix rule demands `true`. -/
theorem C9_counterexample : ¬ C9_claim := by
  intro h
  have h2 := (h (lit ("created_at")) []).1
  revert h2
  decide

/-- **C9 amended.** The sample-or-suffix / curated-stem biconditionals hold
of the flags computed by `db.schema_introspect`, not of the pipeline's
`learner.learn_schema`: `schema_introspect.is_date` is true iff some sampled
string value has the ISO-date shape (length ≥ 10, dashes at offsets 4 and 7)
or the name ends in `_date`/`_at`, and `schema_introspect.is_numeric` is
true iff the lower-cased name contains one of the curated numeric stems or
ends in `_id`/`_count`; whereas `learn_schema` derives `is_date`/`is_numeric`
solely from the shapes/types of the first 10 sampled values. -/
theorem C9_amended_flag_semantics (cname : Str) (vals : List Value) :
    ((introColFlags cname vals).1 = true ↔
      ((∃ s ∈ strVals vals, isoShape10 s = true) ∨
        endsWithS (lit ("_date")) cname = true ∨ endsWithS (lit ("_at")) cname = true))
    ∧ ((introColFlags cname vals).2 = true ↔
      ((∃ stem ∈ numericStems, containsSub stem (asciiLower cname) = true) ∨
        endsWithS (lit ("_id")) (asciiLower cname) = true ∨
        endsWithS (lit ("_count")) (asciiLower cname) = true))
    ∧ ((learnColInfo cname vals).isDate = true ↔
        ∃ v ∈ vals.take 10, valIsoDate8 v = true)
    ∧ ((learnColInfo cname vals).isNumeric = true ↔
        ∃ v ∈ vals.take 10, valIsNum v = true) := by
  refine ⟨?_, ?_, ?_, ?_⟩
  · show (looksDateSample (strVals vals) || _ || _) = true ↔ _
    rw [Bool.or_eq_true, Bool.or_eq_true]
    unfold looksDateSample
    rw [List.any_eq_true]
    exact or_assoc
  · show nameLooksNumeric cname = true ↔ _
    unfold nameLooksNumeric
    rw [Bool.or_eq_true, Bool.or_eq_true]
    rw [List.any_eq_true]
    exact or_assoc
  · show (vals.take 10).any valIsoDate8 = true ↔ _
    rw [List.any_eq_true]
  · show (vals.take 10).any valIsNum = true ↔ _
    rw [List.any_eq_true]

/-! ## Embedding of `templates.py`, `dynamic_templates.py`,
`feedback_learn.load_user_corpus`, and the synthesis half of `joins.py` -/

def joinWith (sep : Str) : List Str → Str
  | [] => []
  | [x] => x
  | x :: y :: rest => x ++ sep ++ joinWith sep (y :: rest)

/-- The static template corpus of `templates.py`. -/
def TEMPLATES : List (Str × Str) :=
  [(lit ("how many policies are active"),
    lit ("SELECT COUNT(*) AS active_policies FROM policies WHERE status='ACTIVE'")),
   (lit ("list top {k} organizations by total credit limit"),
    lit ("SELECT o.org_name, SUM(p.credit_limit) AS total_limit FROM organizations o JOIN policies p ON p.org_id=o.org_id GROUP BY o.org_name ORDER BY total_limit DESC LIMIT {k}")),
   (lit ("show claims for policy {policy_number}"),
    lit ("SELECT c.claim_number, c.created_at, c.amount, c.status FROM claims c JOIN policies p ON p.policy_id=c.policy_id WHERE p.policy_number = '{policy_number}' ORDER BY c.created_at DESC")),
   (lit ("which policies expired in {year}"),
    lit ("SELECT policy_number, expiry_date, status FROM policies WHERE substr(expiry_date,1,4) = '{year}' ORDER BY expiry_date DESC")),
   (lit ("find organizations in {city}"),
    lit ("SELECT org_code, org_name, city, country_code FROM organizations WHERE lower(city) LIKE '%{city_lc}%' ORDER BY org_name LIMIT 100"))]

/-- `dynamic_templates.generate_dynamic_corpus`, as `(q, sql)` pairs. -/
def genDynamicCorpus (L : Learned) : List (Str × Str) :=
  L.tables.flatMap (fun tr =>
    let t := tr.1
    let ti := tr.2
    [(lit ("how many rows in ") ++ t, lit ("SELECT COUNT(*) AS row_count FROM ") ++ t),
     (lit ("list columns of ") ++ t, lit ("-- columns: ") ++ joinWith (lit (", ")) ti.columns)]
    ++ ti.columns.flatMap (fun c =>
      let cinfo := colInfoOf L (t ++ lit (".") ++ c)
      [(lit ("unique ") ++ c ++ lit (" in ") ++ t,
        lit ("SELECT DISTINCT ") ++ c ++ lit (" FROM ") ++ t ++ lit (" ORDER BY ") ++ c ++
          lit (" LIMIT 200")),
       (lit ("how many ") ++ c ++ lit (" in ") ++ t,
        lit ("SELECT COUNT(DISTINCT ") ++ c ++ lit (") AS distinct_") ++ c ++
          lit ("_count FROM ") ++ t),
       (lit ("count by ") ++ c ++ lit (" in ") ++ t,
        lit ("SELECT ") ++ c ++ lit (", COUNT(*) AS n FROM ") ++ t ++ lit (" GROUP BY ") ++ c ++
          lit (" ORDER BY n DESC LIMIT 200"))]
      ++ (if cinfo.isNumeric then
            [(lit ("sum ") ++ c ++ lit (" in ") ++ t,
              lit ("SELECT SUM(") ++ c ++ lit (") AS sum_") ++ c ++ lit (" FROM ") ++ t),
             (lit ("average ") ++ c ++ lit (" in ") ++ t,
              lit ("SELECT AVG(") ++ c ++ lit (") AS avg_") ++ c ++ lit (" FROM ") ++ t)]
            ++ (if 2 ≤ ti.columns.length then
                  let other :=
                    if ti.columns.headD [] ≠ c then ti.columns.headD []
                    else if 1 < ti.columns.length then ti.columns.getD 1 [] else c
                  [(lit ("top 10 ") ++ other ++ lit (" in ") ++ t ++ lit (" by ") ++ c,
                    lit ("SELECT ") ++ other ++ lit (", SUM(") ++ c ++ lit (") AS s FROM ") ++
                      t ++ lit (" GROUP BY ") ++ other ++ lit (" ORDER BY s DESC LIMIT 10"))]
                else [])
          else [])
      ++ (if cinfo.isDate then
            [(t ++ lit (" in 2024"),
              lit ("SELECT * FROM ") ++ t ++ lit (" WHERE substr(") ++ c ++
                lit (",1,4)='2024' LIMIT 200")),
             (t ++ lit (" in 2025"),
              lit ("SELECT * FROM ") ++ t ++ lit (" WHERE substr(") ++ c ++
                lit (",1,4)='2025' LIMIT 200"))]
          else [])
      ++ (((lookupL c ti.samples).getD []).take 5).filterMap (fun v =>
            match v with
            | Value.vStr s =>
              let vq := asciiLower s
              if 2 ≤ vq.length ∧ vq.length ≤ 40 then
                some (lit ("show ") ++ t ++ lit (" where ") ++ c ++ lit (" = ") ++ vq,
                  lit ("SELECT * FROM ") ++ t ++ lit (" WHERE LOWER(") ++ c ++ lit (") = '") ++
                    vq ++ lit ("' LIMIT 200"))
              else none
            | _ => none)))

/-- `feedback_learn.load_user_corpus`: defensive re-aggregation (same merge
as ingestion) followed by the `(-count, q)` sort. -/
def loadUserCorpus (items : List CorpusItem) : List (Str × Str × Int) :=
  sortByLt itemLt ((items.foldl corpusStep []).map (fun e => (e.1.1, e.1.2, e.2)))

/-- `nl2sql` lines 113–120: materialise one induced pattern ({K} → 10). -/
def materializePat (p : QPattern) : Str × Str :=
  if containsSub (lit ("{K}")) p.1 || containsSub (lit ("{K}")) p.2 then
    (replaceSub (lit ("{K}")) (lit ("10")) p.1, replaceSub (lit ("{K}")) (lit ("10")) p.2)
  else (p.1, p.2)

def setAssoc {κ β : Type} [DecidableEq κ] (m : List (κ × β)) (k : κ) (v : β) : List (κ × β) :=
  if (m.map Prod.fst).contains k then
    m.map (fun e => if e.1 = k then (k, v) else e)
  else m ++ [(k, v)]

/-- `joins.infer_fk_map` (dict build, later assignments overwrite). -/
def inferFkMap (L : Learned) : List ((Str × Str) × (Str × Str × Str)) :=
  let tables := tableNames L
  tables.foldl
    (fun fk t =>
      (colsOf L t).foldl
        (fun fk c =>
          if endsWithS (lit ("_id")) c then
            let other := dropLastN 3 c
            match tables.find? (fun tt => tt ≠ t && (tt = other || rstripS tt = rstripS other)) with
            | some cand => setAssoc fk (t, cand) (t, c, cand)
            | none => fk
          else fk)
        fk)
    []

/-- `join_sql` inside `joins.synthesize_join_templates`. -/
def joinSqlT (L : Learned) (src col dst : Str) : Str :=
  let show1 := (colsOf L src).take 2
  let show2 := (colsOf L dst).take 2
  let sel := joinWith (lit (", "))
    [src ++ lit (".") ++ show1.headD [], dst ++ lit (".") ++ show2.headD []]
  lit ("SELECT ") ++ sel ++ lit ("\nFROM ") ++ src ++ lit (" \nJOIN ") ++ dst ++
    lit (" ON ") ++ src ++ lit (".") ++ col ++ lit (" = ") ++ dst ++ lit (".id\nLIMIT 200")

def joinCountTemplate (src col dst : Str) : Str :=
  lit ("SELECT ") ++ dst ++ lit (".id, COUNT(*) AS n FROM ") ++ src ++ lit (" JOIN ") ++ dst ++
    lit (" ON ") ++ src ++ lit (".") ++ col ++ lit ("=") ++ dst ++ lit (".id GROUP BY ") ++
    dst ++ lit (".id ORDER BY n DESC LIMIT 200")

def joinSumTemplate (src col dst : Str) : Str :=
  lit ("SELECT ") ++ dst ++ lit (".id, SUM(1) AS s FROM ") ++ src ++ lit (" JOIN ") ++ dst ++
    lit (" ON ") ++ src ++ lit (".") ++ col ++ lit ("=") ++ dst ++ lit (".id GROUP BY ") ++
    dst ++ lit (".id ORDER BY s DESC LIMIT 200")

/-- `joins.synthesize_join_templates`. -/
def synthJoinTemplates (L : Learned) (t1 t2 : Str) : List (Str × Str) :=
  let fk := inferFkMap L
  (match lookupA (t1, t2) fk with
   | some e =>
     [(lit ("show ") ++ t1 ++ lit (" with ") ++ t2, joinSqlT L e.1 e.2.1 e.2.2),
      (lit ("count ") ++ t1 ++ lit (" by ") ++ t2, joinCountTemplate e.1 e.2.1 e.2.2),
      (lit ("sum by ") ++ t2 ++ lit (" in ") ++ t1, joinSumTemplate e.1 e.2.1 e.2.2)]
   | none => [])
  ++ (match lookupA (t2, t1) fk with
      | some e =>
        [(lit ("show ") ++ t2 ++ lit (" with ") ++ t1, joinSqlT L e.1 e.2.1 e.2.2),
         (lit ("count ") ++ t2 ++ lit (" by ") ++ t1, joinCountTemplate e.1 e.2.1 e.2.2),
         (lit ("sum by ") ++ t1 ++ lit (" in ") ++ t2, joinSumTemplate e.1 e.2.1 e.2.2)]
      | none => [])

def consecPairs : List Str → List (Str × Str)
  | a :: b :: rest => (if a ≠ b then [(a, b)] else []) ++ consecPairs (b :: rest)
  | _ => []

def assocSetS (m : List (Str × Str)) (k v : Str) : List (Str × Str) :=
  if (lookupL k m).isSome then m.map (fun e => if e.1 = k then (k, v) else e)
  else m ++ [(k, v)]

/-- `joins.two_table_candidates` (the later duplicate definition in the file,
which is the one Python keeps). -/
def twoTableCandidates (toks : List Str) (L : Learned) : List (Str × Str) :=
  let surf := L.tables.foldl
    (fun m tr => (tr.2.surfaces ++ [tr.1]).foldl (fun m s => assocSetS m s tr.1) m) []
  let hits := toks.filterMap (fun w => lookupL w surf)
  dedupGo [] (consecPairs hits)

def labelPrio : List Str :=
  [lit ("org_name"), lit ("organization_name"), lit ("org_code"), lit ("name"),
   lit ("display_name"), lit ("username"), lit ("policy_number"), lit ("claim_number"),
   lit ("invoice_number"), lit ("title")]

/-- `joins._guess_label_column`. -/
def guessLabelColumn (L : Learned) (t : Str) : Option Str :=
  let cols := colsOf L t
  match labelPrio.find? (fun p => cols.contains p) with
  | some p => some p
  | none =>
    cols.find? (fun c => !endsWithS (lit ("_id")) c && !endsWithS (lit ("_number")) c)

/-- `a.split(" AS ")[0]`: the prefix before the first occurrence of `sep`. -/
def splitBeforeGo (sep : Str) : Nat → Str → Str
  | 0, s => s
  | _ + 1, [] => []
  | fuel + 1, c :: rest =>
    if sep.isPrefixOf (c :: rest) then []
    else c :: splitBeforeGo sep fuel rest

def splitBefore (sep s : Str) : Str := splitBeforeGo sep s.length s

/-- One step of the `FROM`/`JOIN` chain fold of
`joins.synthesize_aggregate_join` (swap the edge if it is not written from
the current left table). -/
def aggStep (acc : Str × List Str) (st : Str × Str × Str × Str) : Str × List Str :=
  let e := if st.1 ≠ acc.1 then (st.2.2.1, st.2.2.2, st.1, st.2.1) else st
  (e.2.2.1,
   acc.2 ++ [lit ("JOIN ") ++ e.2.2.1 ++ lit (" ON ") ++ e.1 ++ lit (".") ++ e.2.1 ++
     lit (" = ") ++ e.2.2.1 ++ lit (".") ++ e.2.2.2])

/-- `select_cols`: PK alias plus optional (truthy) label column. -/
def aggSelCols (L : Learned) (tt : Str) : List Str :=
  [tt ++ lit (".") ++ pkFor L tt ++ lit (" AS ") ++ (tt ++ lit ("_id"))]
  ++ (match guessLabelColumn L tt with
      | some lc =>
        if lc = [] then []
        else [tt ++ lit (".") ++ lc ++ lit (" AS ") ++ lc]
      | none => [])

/-- `(metric_expr, order_expr)`. -/
def aggMetric (metricTable metricCol : Str) (aggIsCount : Bool) : Str × Str :=
  if aggIsCount then
    (lit ("COUNT(*) AS ") ++
       (if asciiLower metricTable = lit ("users") then lit ("user_count")
        else lit ("row_count")),
     if asciiLower metricTable = lit ("users") then lit ("user_count")
     else lit ("row_count"))
  else
    (lit ("SUM(") ++ metricTable ++ lit (".") ++ metricCol ++ lit (") AS ") ++
       (lit ("sum_") ++ metricCol),
     lit ("sum_") ++ metricCol)

/-- The SQL assembled by `joins.synthesize_aggregate_join` once a join path
(starting at `start`) has been found. -/
def aggSql (L : Learned) (targetTable metricTable metricCol : Str) (k : Nat)
    (aggIsCount : Bool) (start : Str) (path : List (Str × Str × Str × Str)) : Str :=
  let joins := (path.foldl aggStep (start, [])).2
  lit ("SELECT ") ++
    joinWith (lit (", "))
      (aggSelCols L targetTable ++ [(aggMetric metricTable metricCol aggIsCount).1]) ++
    lit ("\nFROM ") ++ start ++ lit ("\n") ++
    (if joins.isEmpty then [] else joinWith (lit ("\n")) joins ++ lit ("\n")) ++
    (lit ("GROUP BY ") ++
      joinWith (lit (", "))
        ((aggSelCols L targetTable).map (splitBefore (lit (" AS "))))) ++
    lit ("\nORDER BY ") ++ (aggMetric metricTable metricCol aggIsCount).2 ++
    lit (" DESC\nLIMIT ") ++ natDigits k

/-- `joins.synthesize_aggregate_join` (`agg` is only ever `"COUNT"`/`"SUM"`;
`aggIsCount` models `agg.upper() == "COUNT"`). -/
def synthAggJoin (L : Learned) (targetTable metricTable metricCol : Str) (k : Nat)
    (aggIsCount : Bool) : Option Str :=
  match findJoinPath L targetTable metricTable 2 with
  | some p => some (aggSql L targetTable metricTable metricCol k aggIsCount targetTable p)
  | none =>
    match findJoinPath L metricTable targetTable 2 with
    | some p => some (aggSql L targetTable metricTable metricCol k aggIsCount metricTable p)
    | none => none

/-! ## Embedding of `nl2sql.py`

`Candidate` mirrors the dataclass; scores are rationals (the Python floats
0.99, 0.95, … are exact decimal literals, and no claim depends on float
rounding).  External-library behaviour that `generate_candidates` consumes —
spaCy keyword extraction, the rapidfuzz scorer `score_table_column`, the
regex match results on the fixed question, `predict_filters` /
`predict_numbers`, the TF-IDF `rank`, the float `min(0.05, 0.02*log1p n)`
boost, and the light SQL-parsing regexes — is modelled by the oracle record
`NlEnv`; claims quantify over all oracles satisfying the interface
constraints `EnvOK` (which record only facts evident from the library code,
e.g. that `score_table_column` returns a learned table and one of its
columns). -/

structure Candidate where
  sql : Str
  score : ℚ
  rationale : Str
deriving DecidableEq, Repr

structure NlEnv where
  keywords : Str → List Str
  scoreTC : List Str → Option Str × Option Str
  reUnique : Option (Str × Str)
  reCountDistinct : Option (Str × Str)
  reCountRows : Option Str
  reTopkInBy : Option (Nat × Str × Str × Str)
  reTopkHighest : Option (Nat × Str × Str)
  reShowList : Bool
  reYearIn : Option (Str × Str)
  predictFilters : List (Str × Str × Str)
  predictK : Option Int
  predictYear : Option Nat
  rankIdxs : Str → List Str → List Nat
  freqBoost : Int → ℚ
  sqlTablesOf : Str → List Str
  sqlDistinctColsOf : Str → List Str

/-- The `ID_LIKE` regex `(^|_)(id|number)$` (case-insensitive search). -/
def idLike (c : Str) : Bool :=
  let l := asciiLower c
  l = lit ("id") || endsWithS (lit ("_id")) l ||
  l = lit ("number") || endsWithS (lit ("_number")) l

def underscoreToSpace (s : Str) : Str := s.map (fun c => if c = '_' then ' ' else c)

/-- `" ".join(phrase.strip().lower().replace("_", " ").split())`. -/
def normPhrase (s : Str) : Str := normWs (underscoreToSpace (asciiLower (stripWs s)))

/-- `" ".join(c.lower().replace("_", " ").split())`. -/
def colNorm (c : Str) : Str := normWs (underscoreToSpace (asciiLower c))

/-- The `(len(samples.get(c, [])) or 10_000, c)` sort key as a strict order. -/
def catKeyLt (L : Learned) (t : Str) (a b : Str) : Bool :=
  let na := (samplesOf L t a).length
  let na := if na = 0 then 10000 else na
  let nb := (samplesOf L t b).length
  let nb := if nb = 0 then 10000 else nb
  if na < nb then true else if na = nb then strLtB a b else false

/-- `nl2sql._pick_distinct_column`. -/
def pickDistinctColumn (L : Learned) (t : Str) (phrase : Str) : Str :=
  let cols := colsOf L t
  let want := normPhrase phrase
  match cols.find? (fun c => colNorm c = want) with
  | some c => c
  | none =>
    let nonId := cols.filter (fun c => !idLike c)
    let nonId2 := if nonId.isEmpty then cols else nonId
    match sortByLt (catKeyLt L t) nonId2 with
    | c :: _ => c
    | [] => cols.headD []

def candLt (a b : Candidate) : Bool :=
  if b.score < a.score then true
  else if a.score = b.score then strLtB a.rationale b.rationale
  else false

def dedupeStep (m : List (Str × Candidate)) (c : Candidate) : List (Str × Candidate) :=
  let key := stripWs c.sql
  match lookupL key m with
  | none => m ++ [(key, c)]
  | some c0 =>
    if c0.score < c.score then m.map (fun e => if e.1 = key then (key, c) else e)
    else m

/-- `nl2sql._dedupe_keep_best`: dedupe by `sql.strip()` keeping the larger
score (strict improvement replaces, first occurrence fixes dict position),
then Python's stable sort by `(-score, rationale)`. -/
def dedupeKeepBest (cands : List Candidate) : List Candidate :=
  sortByLt candLt ((cands.foldl dedupeStep []).map Prod.snd)

def firstDateCol (L : Learned) (t : Str) : Option Str :=
  (colsOf L t).find? (fun col => (colInfoOf L (t ++ lit (".") ++ col)).isDate)

def ruleUnique (env : NlEnv) (learned : Learned) : List Candidate :=
  match env.reUnique with
  | none => []
  | some g =>
    if learned.tables.isEmpty then [] else
    match (env.scoreTC (env.keywords g.1 ++ env.keywords g.2)).1 with
    | none => []
    | some t =>
      if t = [] then [] else
      let c := pickDistinctColumn learned t g.1
      [⟨stripSql (lit ("SELECT DISTINCT ") ++ c ++ lit (" FROM ") ++ t ++
          lit (" ORDER BY ") ++ c),
        99/100,
        lit ("Rule: unique/distinct (resolved table/column; non-ID/categorical preference)")⟩]

def ruleCountDistinct (env : NlEnv) (learned : Learned) : List Candidate :=
  match env.reCountDistinct with
  | none => []
  | some g =>
    if learned.tables.isEmpty then [] else
    let tc := env.scoreTC (env.keywords g.1 ++ env.keywords g.2)
    match tc.1 with
    | none => []
    | some t =>
      if t = [] then [] else
      let c :=
        match tc.2 with
        | none => pickDistinctColumn learned t g.1
        | some c0 =>
          if c0 = [] || endsWithS (lit ("_id")) (asciiLower c0) || idLike c0 then
            pickDistinctColumn learned t g.1
          else c0
      [⟨lit ("SELECT COUNT(DISTINCT ") ++ c ++ lit (") AS distinct_") ++ c ++
          lit ("_count FROM ") ++ t,
        95/100,
        lit ("Rule: count distinct column in table (ID-avoidance fallback)")⟩]

def ruleCountRows (env : NlEnv) (learned : Learned) : List Candidate :=
  match env.reCountRows with
  | none => []
  | some tabLike =>
    if learned.tables.isEmpty then [] else
    match (env.scoreTC (env.keywords tabLike)).1 with
    | none => []
    | some t =>
      if t = [] then [] else
      [⟨lit ("SELECT COUNT(*) AS row_count FROM ") ++ t, 94/100,
        lit ("Rule: count rows in table")⟩]

def ruleTopkInBy (env : NlEnv) (learned : Learned) : List Candidate :=
  match env.reTopkInBy with
  | none => []
  | some g =>
    if learned.tables.isEmpty then [] else
    let a := env.scoreTC (env.keywords g.2.1 ++ env.keywords g.2.2.1)
    let b := env.scoreTC (env.keywords g.2.2.2 ++ env.keywords g.2.2.1)
    match a.1, a.2, b.1, b.2 with
    | some tA, some colA, some tB, some colB =>
      if tA ≠ [] ∧ tB ≠ [] ∧ tA = tB ∧ colA ≠ [] ∧ colB ≠ [] then
        [⟨stripSql (lit ("SELECT ") ++ colA ++ lit (", SUM(") ++ colB ++
            lit (") AS s FROM ") ++ tA ++ lit (" GROUP BY ") ++ colA ++
            lit (" ORDER BY s DESC LIMIT ") ++ natDigits g.1),
          9/10, lit ("Rule: top-K by aggregate")⟩]
      else []
    | _, _, _, _ => []

def ruleYearIn (env : NlEnv) (learned : Learned) : List Candidate :=
  match env.reYearIn with
  | none => []
  | some g =>
    if learned.tables.isEmpty then [] else
    match (env.scoreTC (env.keywords g.1)).1 with
    | none => []
    | some t =>
      if t = [] then [] else
      match firstDateCol learned t with
      | none => []
      | some dc =>
        [⟨stripSql (lit ("SELECT * FROM ") ++ t ++ lit (" WHERE substr(") ++ dc ++
            lit (",1,4)='") ++ g.2 ++ lit ("'")),
          88/100, lit ("Rule: year filter")⟩]

def ruleShowList (env : NlEnv) (learned : Learned) (toks : List Str) : List Candidate :=
  if env.reShowList then
    if learned.tables.isEmpty then [] else
    match (env.scoreTC toks).1 with
    | none => []
    | some t =>
      if t = [] then [] else
      let whereEq := env.predictFilters.filterMap (fun f =>
        if f.1 = t then
          some (lit ("LOWER(") ++ f.2.1 ++ lit (") = '") ++ f.2.2 ++ lit ("'"))
        else none)
      let whereAll :=
        match env.predictYear with
        | some y =>
          if y ≠ 0 then
            match firstDateCol learned t with
            | some dc =>
              whereEq ++ [lit ("substr(") ++ dc ++ lit (",1,4)='") ++ natDigits y ++ lit ("'")]
            | none => whereEq
          else whereEq
        | none => whereEq
      let whereSql :=
        if whereAll.isEmpty then [] else lit (" WHERE ") ++ joinWith (lit (" AND ")) whereAll
      [⟨stripSql (lit ("SELECT * FROM ") ++ t ++ whereSql), 88/100,
        lit ("Rule: show/list with inferred filters")⟩]
  else []

def ruleJoinDiscovery (learned : Learned) (toks : List Str) : List Candidate :=
  if learned.tables.isEmpty then [] else
  ((twoTableCandidates toks learned).take 2).flatMap (fun pr =>
    ((synthJoinTemplates learned pr.1 pr.2).take 3).map (fun item =>
      ⟨stripSql item.2, 83/100, lit ("Join discovery: ") ++ item.1⟩))

def ruleTopkHighest (env : NlEnv) (learned : Learned) : List Candidate :=
  match env.reTopkHighest with
  | none => []
  | some g =>
    if learned.tables.isEmpty then [] else
    let entLo := asciiLower g.2.1
    let entHint :=
      (containsSub (lit ("organization")) entLo || containsSub (lit ("org")) entLo ||
       containsSub (lit ("company")) entLo || containsSub (lit ("client")) entLo ||
       containsSub (lit ("customer")) entLo) &&
      (lookupL (lit ("organizations")) learned.tables).isSome
    let tEnt : Option Str :=
      if entHint then some (lit ("organizations"))
      else (env.scoreTC (env.keywords g.2.1)).1
    let metLo := asciiLower g.2.2
    let countIntent :=
      [lit ("count"), lit ("counts"), lit ("users"), lit ("user"), lit ("entries"),
       lit ("rows"), lit ("records")].any (fun w => containsSub w metLo)
    let metHint := countIntent && (lookupL (lit ("users")) learned.tables).isSome
    let tm : Option Str × Option Str :=
      if metHint then (some (lit ("users")), none)
      else env.scoreTC (env.keywords g.2.2)
    if countIntent then
      match tEnt, tm.1 with
      | some te, some tmt =>
        if te ≠ [] ∧ tmt ≠ [] then
          match synthAggJoin learned te tmt (pkFor learned tmt) g.1 true with
          | some sql =>
            [⟨stripSql sql, 96/100, lit ("Rule: top-K by highest counts via join")⟩]
          | none => []
        else []
      | _, _ => []
    else
      match tEnt, tm.1, tm.2 with
      | some te, some tmt, some cm =>
        if te ≠ [] ∧ tmt ≠ [] ∧ cm ≠ [] then
          match synthAggJoin learned te tmt cm g.1 false with
          | some sql =>
            [⟨stripSql sql, 94/100, lit ("Rule: top-K by highest metric via join")⟩]
          | none => []
        else []
      | _, _, _ => []

def intDigits (n : Int) : Str :=
  if n < 0 then '-' :: natDigits n.natAbs else natDigits n.toNat

/-- The retriever corpus: static templates, dynamic templates, merged user
corpus with counts, materialised patterns; each sql whitespace-normalised. -/
def buildRetrCorpus (learned : Learned) (hasTables : Bool) (ufile : List CorpusItem)
    (pfile : List QPattern) : List (Str × Str × Int) :=
  (TEMPLATES.map (fun x => (x.1, normWs x.2, (1 : Int))))
  ++ ((if hasTables then genDynamicCorpus learned else []).map
        (fun x => (x.1, normWs x.2, (1 : Int))))
  ++ ((loadUserCorpus ufile).map (fun x => (x.1, normWs x.2.1, x.2.2)))
  ++ (((pfile.take 50).map materializePat).map (fun x => (x.1, normWs x.2, (1 : Int))))

def retrieverCands (env : NlEnv) (tPred cPred : Option Str) (q : Str)
    (corpus : List (Str × Str × Int)) : List Candidate :=
  if corpus.isEmpty then [] else
  (env.rankIdxs (asciiLower q) (corpus.map (fun x => x.1))).enum.map (fun ri =>
    let item := corpus.getD ri.2 ([], [], 1)
    let base : ℚ := 78/100 - (4/100) * (ri.1 : ℚ)
    let boost := env.freqBoost item.2.2
    let tables := env.sqlTablesOf item.2.1
    let dcols := env.sqlDistinctColsOf item.2.1
    let compat : ℚ :=
      (match tPred with
       | some tp => if tp ≠ [] ∧ tables.contains tp then 10/100 else 0
       | none => 0) +
      (match cPred with
       | some cp =>
         if cp ≠ [] ∧ (dcols.contains cp || dcols.any (containsSub cp)) then 5/100 else 0
       | none => 0)
    let penalty : ℚ :=
      match tPred with
      | some tp => if tp ≠ [] ∧ ¬tables.isEmpty ∧ ¬tables.contains tp then -(45/100) else 0
      | none => 0
    ⟨stripSql item.2.1, base + boost + compat + penalty,
     lit ("Retriever: ") ++ item.1 ++ lit (" (freq×") ++ intDigits item.2.2 ++ lit (")")⟩)

def fallbackCand : Candidate := ⟨lit ("SELECT * FROM policies"), 2/5, lit ("Fallback sample")⟩

/-- All candidates accumulated before the fallback/dedupe step
(`cands` just before line 362 of `nl2sql.py`). -/
def preCandidates (env : NlEnv) (learnedOpt : Option Learned) (ufile : List CorpusItem)
    (pfile : List QPattern) (question : Str) : List Candidate :=
  let q := stripWs question
  let learned := learnedOpt.getD ⟨[], []⟩
  let hasTables := !learned.tables.isEmpty
  let toks := env.keywords q
  let corpus := buildRetrCorpus learned hasTables ufile pfile
  let tc := if hasTables then env.scoreTC toks else (none, none)
  ruleUnique env learned ++ ruleCountDistinct env learned ++ ruleCountRows env learned ++
  ruleTopkInBy env learned ++ ruleYearIn env learned ++ ruleShowList env learned toks ++
  ruleJoinDiscovery learned toks ++ ruleTopkHighest env learned ++
  retrieverCands env tc.1 tc.2 q corpus

/-- `nl2sql.generate_candidates` (`learnedOpt = none` models `conn=None`;
`ufile`/`pfile` are the parsed corpus and pattern store contents). -/
def generateCandidates (env : NlEnv) (learnedOpt : Option Learned)
    (ufile : List CorpusItem) (pfile : List QPattern) (question : Str) : List Candidate :=
  let cands := preCandidates env learnedOpt ufile pfile question
  dedupeKeepBest (if cands.isEmpty then [fallbackCand] else cands)

/-- The curated synonym map `nlp.SYN` (the duplicated `"policy"` key carries
an identical value, so a single entry has the same lookup semantics). -/
def SYN : List (Str × List Str) :=
  [(lit ("policy"), [lit ("policies"), lit ("contract")]),
   (lit ("claim"), [lit ("claims"), lit ("loss"), lit ("case")]),
   (lit ("role"), [lit ("roles"), lit ("permission"), lit ("group")]),
   (lit ("roles"), [lit ("role"), lit ("permissions"), lit ("groups")]),
   (lit ("status"), [lit ("state"), lit ("stage")]),
   (lit ("amount"), [lit ("value"), lit ("sum"), lit ("total")]),
   (lit ("city"), [lit ("town"), lit ("location")]),
   (lit ("number"), [lit ("code"), lit ("id"), lit ("identifier")]),
   (lit ("active"), [lit ("current"), lit ("open"), lit ("enabled")]),
   (lit ("organization"),
    [lit ("organizations"), lit ("org"), lit ("company"), lit ("customer"),
     lit ("client"), lit ("party"), lit ("policyholder")]),
   (lit ("organizations"),
    [lit ("organization"), lit ("orgs"), lit ("companies"), lit ("clients"),
     lit ("parties"), lit ("policyholders")]),
   (lit ("user"),
    [lit ("users"), lit ("account"), lit ("accounts"), lit ("member"),
     lit ("members"), lit ("user_account")]),
   (lit ("users"),
    [lit ("user"), lit ("accounts"), lit ("members"), lit ("user_account")]),
   (lit ("credit limit"),
    [lit ("credit_limit"), lit ("limit"), lit ("coverage"), lit ("exposure")])]

def curatedSyn (w : Str) : List Str := (lookupL w SYN).getD []

/-! ## LIMIT-clause counting

A LIMIT clause (the test-suite regex `\blimit\s+\d+\b`, case-insensitive) is
a `limit` word token immediately followed by an all-digit token.  We count
adjacent `("limit", digits)` pairs over `sqlTokens` (maximal `[a-z0-9_]+`
runs of the lowercased text); this over-approximates the regex count (the
regex additionally requires the separator to be whitespace), so
`limitPairs ≤ 1` soundly implies at most one textual LIMIT clause, and a
pair exhibited with a literal space separator is a genuine clause. -/

def numTok (w : Str) : Bool := !w.isEmpty && w.all isDigitCh

def limitPairs : List Str → Nat
  | a :: b :: rest => (if a = lit ("limit") ∧ numTok b then 1 else 0) + limitPairs (b :: rest)
  | _ => 0

/-- Interface constraints on the oracle environment, all evident from
`predictor.py`: `score_table_column` only returns a learned table and one of
its columns, `predict_filters` only emits (table, sampled column, value)
triples, and a `RE_YEAR_IN` match always captures a 4-digit year. -/
def EnvOK (env : NlEnv) (L : Learned) : Prop :=
  (∀ toks t, (env.scoreTC toks).1 = some t → t ∈ tableNames L) ∧
  (∀ toks c, (env.scoreTC toks).2 = some c →
    ∃ t, (env.scoreTC toks).1 = some t ∧ c ∈ colsOf L t) ∧
  (∀ f ∈ env.predictFilters, f.1 ∈ tableNames L ∧ f.2.1 ∈ colsOf L f.1) ∧
  (∀ g, env.reYearIn = some g → g.2 ≠ [] ∧ ∀ ch ∈ g.2, isDigitCh ch = true)

/-- An oracle in which no regex matches, no keywords are extracted and the
retriever ranks nothing. -/
def blankEnv : NlEnv :=
  ⟨fun _ => [], fun _ => (none, none), none, none, none, none, none, false, none,
   [], none, none, fun _ _ => [], fun _ => 0, fun _ => [], fun _ => []⟩

theorem blankEnv_ok (L : Learned) : EnvOK blankEnv L := by
  refine ⟨?_, ?_, ?_, ?_⟩
  · intro _ _ h; simp [blankEnv] at h
  · intro _ _ h; simp [blankEnv] at h
  · intro _ h; simp [blankEnv] at h
  · intro _ h; simp [blankEnv] at h

/-! ## C1: the aggregator never returns an empty list -/

theorem dedupeStep_ne_nil (m : List (Str × Candidate)) (c : Candidate) :
    dedupeStep m c ≠ [] := by
  unfold dedupeStep
  dsimp only
  rcases hl : lookupL (stripWs c.sql) m with _ | c0
  · simp
  · dsimp only
    rcases m with _ | ⟨e, m1⟩
    · simp [lookupL] at hl
    · split
      · simp
      · simp

theorem foldl_dedupeStep_ne_nil :
    ∀ (cs : List Candidate) (m : List (Str × Candidate)), m ≠ [] →
      cs.foldl dedupeStep m ≠ [] := by
  intro cs
  induction cs with
  | nil => intro m hm; simpa using hm
  | cons c cs1 ih =>
    intro m _
    simp only [List.foldl_cons]
    exact ih (dedupeStep m c) (dedupeStep_ne_nil m c)

theorem dedupeKeepBest_ne_nil {cands : List Candidate} (h : cands ≠ []) :
    dedupeKeepBest cands ≠ [] := by
  unfold dedupeKeepBest
  intro hemp
  have hlen := length_sortByLt candLt ((cands.foldl dedupeStep []).map Prod.snd)
  rw [hemp] at hlen
  simp only [List.length_nil, List.length_map] at hlen
  rcases cands with _ | ⟨c, cs⟩
  · exact h rfl
  · have hne : (c :: cs).foldl dedupeStep [] ≠ [] := by
      simp only [List.foldl_cons]
      exact foldl_dedupeStep_ne_nil cs (dedupeStep [] c) (dedupeStep_ne_nil [] c)
    exact hne (List.length_eq_zero.mp hlen.symm)

/-- C1: `generate_candidates` returns a non-empty candidate list for every
question (including the empty string), every schema (including the empty
schema used when `conn=None`), every store content and every oracle
environment: if the rule/retriever candidates are empty the fallback is
appended, and `_dedupe_keep_best` preserves non-emptiness. -/
theorem C1_nonempty_candidates (env : NlEnv) (learnedOpt : Option Learned)
    (ufile : List CorpusItem) (pfile : List QPattern) (question : Str) :
    generateCandidates env learnedOpt ufile pfile question ≠ [] := by
  unfold generateCandidates
  apply dedupeKeepBest_ne_nil
  by_cases h : (preCandidates env learnedOpt ufile pfile question).isEmpty
  · simp [h]
  · simp only [h, if_neg]
    simpa using h

/-! ## C8: the empty-list fallback -/

/-- C8 as stated: whenever the aggregated candidate list would otherwise be
empty, the appended fallback is a *bounded* `SELECT *` — its text contains a
limiting clause. -/
def C8_claim : Prop :=
  ∀ (env : NlEnv) (learnedOpt : Option Learned) (ufile : List CorpusItem)
    (pfile : List QPattern) (question : Str),
    EnvOK env (learnedOpt.getD ⟨[], []⟩) →
    preCandidates env learnedOpt ufile pfile question = [] →
    ∀ c ∈ generateCandidates env learnedOpt ufile pfile question,
      1 ≤ limitPairs (sqlTokens c.sql)

theorem preCandidates_blank : preCandidates blankEnv none [] [] [] = [] := by decide

theorem generate_blank : generateCandidates blankEnv none [] [] [] = [fallbackCand] := by
  unfold generateCandidates
  rw [preCandidates_blank]
  rfl

/-- C8 is false: with no schema, empty stores and an oracle that matches no
intent and ranks nothing, the candidate list is empty before the fallback,
and the fallback returned is `SELECT * FROM policies`, whose text contains
no LIMIT clause at all. -/
theorem C8_counterexample : ¬ C8_claim := by
  intro h
  have hc := h blankEnv none [] [] [] (blankEnv_ok _) preCandidates_blank fallbackCand
    (generate_blank ▸ List.mem_singleton.mpr rfl)
  exact absurd hc (by decide)

/-- C8 amended: whenever the aggregated candidate list would otherwise be
empty, the single candidate returned is the fixed fallback
`SELECT * FROM policies` with score 0.40 — an *unbounded* `SELECT *`: its
text contains no LIMIT clause (result limiting is left to the executor,
which appends a LIMIT only when the query lacks one). -/
theorem C8_fallback_unbounded (env : NlEnv) (learnedOpt : Option Learned)
    (ufile : List CorpusItem) (pfile : List QPattern) (question : Str)
    (hpre : preCandidates env learnedOpt ufile pfile question = []) :
    generateCandidates env learnedOpt ufile pfile question = [fallbackCand] ∧
      limitPairs (sqlTokens fallbackCand.sql) = 0 := by
  constructor
  · unfold generateCandidates
    rw [hpre]
    rfl
  · decide

theorem C8_witness :
    preCandidates blankEnv none [] [] [] = [] ∧
      (generateCandidates blankEnv none [] [] [] = [fallbackCand] ∧
        limitPairs (sqlTokens fallbackCand.sql) = 0) :=
  ⟨preCandidates_blank,
   C8_fallback_unbounded blankEnv none [] [] [] preCandidates_blank⟩

/-! ## C5: the DISTINCT column choice and identifier-likeness -/

/-- C5 as stated: whenever the schema table resolved by the
unique/distinct-X-in-T rule has both an identifier-like column and a
categorical (sampled) non-identifier column named or synonymous with X, the
column `_pick_distinct_column` places in the `SELECT DISTINCT` candidate is
never identifier-like ("synonymous" taken from the curated `nlp.SYN` map). -/
def C5_claim : Prop :=
  ∀ (L : Learned) (t X : Str), t ∈ tableNames L →
    (∃ d ∈ colsOf L t, idLike d = true) →
    (∃ g ∈ colsOf L t, idLike g = false ∧ samplesOf L t g ≠ [] ∧
      (colNorm g = normPhrase X ∨ g ∈ curatedSyn (normPhrase X))) →
    idLike (pickDistinctColumn L t X) = false

/-- A schema with one table `orders` whose columns are the identifier-like
`number` and the sampled categorical `code` (a curated synonym of
`number`). -/
def cexL5 : Learned :=
  ⟨[(lit ("orders"),
     ⟨[lit ("number"), lit ("code")],
      [(lit ("code"), [Value.vStr (lit ("a"))])],
      []⟩)],
   []⟩

/-- C5 is false: for the phrase `number` against `cexL5`, the exact
normalized-name match fires *before* the ID-avoidance filter and returns the
identifier-like column `number`, even though the non-identifier synonym
`code` is available. -/
theorem C5_counterexample : ¬ C5_claim := by
  intro h
  have hc := h cexL5 (lit ("orders")) (lit ("number")) (by decide)
    ⟨lit ("number"), by decide, by decide⟩
    ⟨lit ("code"), by decide, by decide⟩
  exact absurd hc (by decide)

/-- C5 amended: the non-identifier guarantee additionally requires that no
column whose normalized name exactly equals the normalized phrase is
identifier-like (the exact-match step precedes and bypasses the
ID-avoidance filter); under that proviso the chosen column is never
identifier-like. -/
theorem C5_distinct_column_not_id (L : Learned) (t X : Str)
    (ht : t ∈ tableNames L)
    (hid : ∃ d ∈ colsOf L t, idLike d = true)
    (hg : ∃ g ∈ colsOf L t, idLike g = false ∧ samplesOf L t g ≠ [] ∧
      (colNorm g = normPhrase X ∨ g ∈ curatedSyn (normPhrase X)))
    (hexact : ∀ c ∈ colsOf L t, colNorm c = normPhrase X → idLike c = false) :
    idLike (pickDistinctColumn L t X) = false := by
  clear ht hid
  unfold pickDistinctColumn
  dsimp only
  rcases hf : (colsOf L t).find? (fun c => decide (colNorm c = normPhrase X)) with _ | c
  · obtain ⟨g, hgmem, hgid, -, -⟩ := hg
    have hgf : g ∈ (colsOf L t).filter (fun c => !idLike c) :=
      List.mem_filter.mpr ⟨hgmem, by simp [hgid]⟩
    have hne : (colsOf L t).filter (fun c => !idLike c) ≠ [] :=
      List.ne_nil_of_mem hgf
    have hemp : ((colsOf L t).filter (fun c => !idLike c)).isEmpty = false := by
      rcases hl : (colsOf L t).filter (fun c => !idLike c) with _ | _
      · exact absurd hl hne
      · rfl
    rw [hemp, if_neg Bool.false_ne_true]
    rcases hs : sortByLt (catKeyLt L t) ((colsOf L t).filter (fun c => !idLike c))
      with _ | ⟨c, rest⟩
    · have := length_sortByLt (catKeyLt L t) ((colsOf L t).filter (fun c => !idLike c))
      rw [hs] at this
      rcases hl : (colsOf L t).filter (fun c => !idLike c) with _ | _
      · exact absurd hl hne
      · rw [hl] at this; simp at this
    · have hcmem : c ∈ sortByLt (catKeyLt L t) ((colsOf L t).filter (fun c => !idLike c)) := by
        rw [hs]; exact List.mem_cons_self c rest
      have := (mem_sortByLt (catKeyLt L t) _ c).mp hcmem
      have hfc := List.mem_filter.mp this
      show idLike c = false
      simpa using hfc.2
  · have hmem := List.mem_of_find?_eq_some hf
    have hpc := List.find?_some hf
    exact hexact c hmem (of_decide_eq_true hpc)

theorem C5_witness :
    idLike (pickDistinctColumn cexL5 (lit ("orders")) (lit ("code"))) = false :=
  C5_distinct_column_not_id cexL5 (lit ("orders")) (lit ("code")) (by decide)
    ⟨lit ("number"), by decide, by decide⟩
    ⟨lit ("code"), by decide, by decide⟩
    (by decide)

/-! ## C3: LIMIT-clause counting toolkit -/

/-- Occurrences of the token `limit` in a token list. -/
def countLim : List Str → Nat
  | [] => 0
  | a :: rest => (if a = lit ("limit") then 1 else 0) + countLim rest

/-- Every `("limit", digits)` pair starts with a `limit` token, so the pair
count is bounded by the `limit`-token count. -/
theorem limitPairs_le_countLim : ∀ toks, limitPairs toks ≤ countLim toks := by
  intro toks
  induction toks with
  | nil => exact Nat.le_refl 0
  | cons a rest ih =>
    rcases rest with _ | ⟨b, r⟩
    · exact Nat.zero_le _
    · show (if a = lit ("limit") ∧ numTok b = true then 1 else 0) + limitPairs (b :: r) ≤
        (if a = lit ("limit") then 1 else 0) + countLim (b :: r)
      by_cases h : a = lit ("limit") ∧ numTok b = true
      · rw [if_pos h, if_pos h.1]; omega
      · rw [if_neg h]
        split <;> omega

theorem countLim_append : ∀ xs ys, countLim (xs ++ ys) = countLim xs + countLim ys := by
  intro xs ys
  induction xs with
  | nil => simp [countLim]
  | cons a rest ih =>
    show (if a = lit ("limit") then 1 else 0) + countLim (rest ++ ys) = _
    rw [ih]
    show _ = (if a = lit ("limit") then 1 else 0) + countLim rest + countLim ys
    omega

/-- `limit`-token count of a SQL text. -/
def lCount (s : Str) : Nat := countLim (sqlTokens s)

theorem lCount_le (s : Str) : limitPairs (sqlTokens s) ≤ lCount s :=
  limitPairs_le_countLim _

theorem lCount_sep_split (x : Str) {b : Char} (hb : isWordCh (lowerChar b) = false)
    (y : Str) : lCount (x ++ b :: y) = lCount x + lCount y := by
  unfold lCount sqlTokens wordTokens asciiLower
  rw [List.map_append, List.map_cons, chunksBy_append_sep hb, countLim_append]

theorem lCount_cons_sep {b : Char} (hb : isWordCh (lowerChar b) = false) (y : Str) :
    lCount (b :: y) = lCount y := by
  have h := lCount_sep_split [] hb y
  rw [show lCount ([] : Str) = 0 from rfl] at h
  simpa using h

/-- A single (possibly empty) word-character run contributes no `limit`
token unless it is literally `limit`. -/
theorem lCount_word {w : Str} (hw : ∀ c ∈ asciiLower w, isWordCh c = true)
    (hne : asciiLower w ≠ lit ("limit")) : lCount w = 0 := by
  unfold lCount sqlTokens wordTokens
  rcases hl : asciiLower w with _ | ⟨c, cs⟩
  · rfl
  · rw [hl] at hw hne
    rw [chunksBy_all_keep hw (by simp)]
    show (if (c :: cs) = lit ("limit") then 1 else 0) + 0 = 0
    rw [if_neg hne]

/-- A schema identifier as it may appear in generated SQL: its lowering is a
single word-character run (hence one token) other than `limit`; the empty
string (contributing no token) also qualifies. -/
def identTok (w : Str) : Prop :=
  (∀ c ∈ asciiLower w, isWordCh c = true) ∧ asciiLower w ≠ lit ("limit")

theorem lCount_identTok {w : Str} (h : identTok w) : lCount w = 0 :=
  lCount_word h.1 h.2

theorem lCount_append_words {a b : Str} (ha : ∀ c ∈ asciiLower a, isWordCh c = true)
    (hb : ∀ c ∈ asciiLower b, isWordCh c = true)
    (hne : asciiLower (a ++ b) ≠ lit ("limit")) : lCount (a ++ b) = 0 := by
  apply lCount_word _ hne
  intro c hc
  rw [asciiLower_append] at hc
  rcases List.mem_append.mp hc with h | h
  exacts [ha c h, hb c h]

theorem underscore_mem_asciiLower {w : Str} (h : '_' ∈ w) : '_' ∈ asciiLower w := by
  unfold asciiLower
  exact List.mem_map.mpr ⟨'_', h, rfl⟩

theorem ne_limit_of_underscore {w : Str} (h : '_' ∈ w) : w ≠ lit ("limit") := by
  intro he
  subst he
  exact absurd h (by decide)

theorem lowerChar_digit {c : Char} (h : isDigitCh c = true) : lowerChar c = c := by
  rw [isDigitCh_iff] at h
  rw [char_eq_iff_toNat, toNat_lowerChar, if_neg (by omega)]

theorem digitChar_digit (d : Nat) : isDigitCh (digitChar d) = true := by
  rw [isDigitCh_iff]
  have h : (digitChar d).toNat = 48 + d % 10 := rfl
  omega

theorem mem_natDigitsGo :
    ∀ (fuel n : Nat) (c : Char), c ∈ natDigitsGo fuel n → isDigitCh c = true := by
  intro fuel
  induction fuel with
  | zero => intro n c h; exact absurd h (by simp [natDigitsGo])
  | succ f ih =>
    intro n c h
    unfold natDigitsGo at h
    split at h
    · simp at h
      subst h
      exact digitChar_digit n
    · rcases List.mem_append.mp h with h1 | h1
      · exact ih _ c h1
      · simp at h1
        subst h1
        exact digitChar_digit (n % 10)

/-- An all-digit string contributes no `limit` token. -/
theorem lCount_digits {y : Str} (h : ∀ c ∈ y, isDigitCh c = true) : lCount y = 0 := by
  apply lCount_word
  · intro c hc
    unfold asciiLower at hc
    obtain ⟨d, hd, rfl⟩ := List.mem_map.mp hc
    rw [lowerChar_digit (h d hd)]
    have hdd := h d hd
    simp [isWordCh, hdd]
  · intro he
    have hl : 'l' ∈ asciiLower y := by rw [he]; decide
    unfold asciiLower at hl
    obtain ⟨d, hd, hld⟩ := List.mem_map.mp hl
    have hdd := h d hd
    rw [lowerChar_digit hdd] at hld
    subst hld
    exact absurd hdd (by decide)

theorem lCount_natDigits (n : Nat) : lCount (natDigits n) = 0 :=
  lCount_digits (fun c hc => mem_natDigitsGo _ _ c hc)

/-! ## C3: claim and counterexample -/

/-- C3 as stated: every candidate's SQL has at most one LIMIT clause, for
every question, every schema, and every corpus/pattern store content. -/
def C3_claim : Prop :=
  ∀ (env : NlEnv) (learnedOpt : Option Learned) (ufile : List CorpusItem)
    (pfile : List QPattern) (question : Str),
    EnvOK env (learnedOpt.getD ⟨[], []⟩) →
    ∀ c ∈ generateCandidates env learnedOpt ufile pfile question,
      limitPairs (sqlTokens c.sql) ≤ 1

/-- One table `t` with one column `c`. -/
def cexL3 : Learned := ⟨[(lit ("t"), ⟨[lit ("c")], [], []⟩)], []⟩

/-- An oracle for a show/list question whose value index matched a sampled
string value `limit 5 limit 6` of column `c` (predict_filters copies sampled
values verbatim into equality filters). -/
def cex3Env : NlEnv :=
  ⟨fun _ => [], fun _ => (some (lit ("t")), none), none, none, none, none, none, true, none,
   [(lit ("t"), lit ("c"), lit ("limit 5 limit 6"))], none, none,
   fun _ _ => [], fun _ => 0, fun _ => [], fun _ => []⟩

theorem cex3Env_ok : EnvOK cex3Env cexL3 := by
  refine ⟨?_, ?_, ?_, ?_⟩
  · intro toks t h
    have ht : lit ("t") = t := by simpa [cex3Env] using h
    subst ht
    decide
  · intro toks c h
    simp [cex3Env] at h
  · intro f hf
    have : f = (lit ("t"), lit ("c"), lit ("limit 5 limit 6")) := by
      simpa [cex3Env] using hf
    subst this
    exact ⟨by decide, by decide⟩
  · intro g h
    simp [cex3Env] at h

def cex3Bad : Candidate :=
  ⟨lit ("SELECT * FROM t WHERE LOWER(c) = 'limit 5 limit 6'"), 88/100,
   lit ("Rule: show/list with inferred filters")⟩

theorem generate_cex3 : generateCandidates cex3Env (some cexL3) [] [] [] = [cex3Bad] := rfl

/-- C3 is false: a sampled value containing `limit 5 limit 6` flows verbatim
into a show/list equality filter, and the emitted candidate
`SELECT * FROM t WHERE LOWER(c) = 'limit 5 limit 6'` contains two textual
LIMIT clauses (the test-suite regex `\blimit\s+\d+\b` matches twice inside
the quoted literal). -/
theorem C3_counterexample : ¬ C3_claim := by
  intro h
  have hc := h cex3Env (some cexL3) [] [] [] cex3Env_ok cex3Bad
    (generate_cex3 ▸ List.mem_singleton.mpr rfl)
  exact absurd hc (by decide)

/-! ## C3: identifier tracking through the schema and `joins.py` -/

theorem foldl_preserve {α β : Type} (P : β → Prop) (f : β → α → β) :
    ∀ (l : List α) (init : β), P init → (∀ b a, a ∈ l → P b → P (f b a)) →
      P (l.foldl f init) := by
  intro l
  induction l with
  | nil => intro init h _; exact h
  | cons x xs ih =>
    intro init h hstep
    exact ih (f init x) (hstep init x (by simp) h)
      (fun b a ha hb => hstep b a (by simp [ha]) hb)

theorem lookupL_mem {β : Type} {k : Str} :
    ∀ {l : List (Str × β)} {v : β}, lookupL k l = some v → (k, v) ∈ l := by
  intro l
  induction l with
  | nil => intro v h; exact absurd h (by simp [lookupL])
  | cons e rest ih =>
    intro v h
    rcases e with ⟨k2, v2⟩
    unfold lookupL at h
    split at h
    · next heq =>
      have hv := Option.some.inj h
      subst heq
      rw [← hv]
      exact List.mem_cons_self _ _
    · exact List.mem_cons_of_mem _ (ih h)

theorem mem_dedupGo {α : Type} [DecidableEq α] :
    ∀ (l seen : List α) (x : α), x ∈ dedupGo seen l → x ∈ l := by
  intro l
  induction l with
  | nil => intro seen x h; simpa [dedupGo] using h
  | cons p rest ih =>
    intro seen x h
    unfold dedupGo at h
    split at h
    · exact List.mem_cons_of_mem _ (ih seen x h)
    · rcases List.mem_cons.mp h with h1 | h1
      · simp [h1]
      · exact List.mem_cons_of_mem _ (ih _ x h1)

theorem mem_consecPairs :
    ∀ (l : List Str) (pr : Str × Str), pr ∈ consecPairs l → pr.1 ∈ l ∧ pr.2 ∈ l := by
  intro l
  induction l with
  | nil => intro pr h; simp [consecPairs] at h
  | cons a rest ih =>
    intro pr h
    rcases rest with _ | ⟨b, r⟩
    · simp [consecPairs] at h
    · unfold consecPairs at h
      rcases List.mem_append.mp h with h1 | h1
      · split at h1
        · have : pr = (a, b) := by simpa using h1
          subst this
          exact ⟨by simp, by simp⟩
        · simp at h1
      · have := ih pr h1
        exact ⟨List.mem_cons_of_mem _ this.1, List.mem_cons_of_mem _ this.2⟩

/-- All table names and column names of the learned schema lower to single
word-token runs other than `limit` (Python/SQLite identifiers). -/
def IdentOK (L : Learned) : Prop :=
  ∀ tr ∈ L.tables, identTok tr.1 ∧ ∀ c ∈ tr.2.columns, identTok c

theorem identTok_nil : identTok ([] : Str) := ⟨by simp [asciiLower], by decide⟩

theorem identTok_colsOf {L : Learned} (hI : IdentOK L) (t : Str) :
    ∀ c ∈ colsOf L t, identTok c := by
  intro c hc
  unfold colsOf tinfo at hc
  rcases hl : lookupL t L.tables with _ | ti
  · rw [hl] at hc; simp at hc
  · rw [hl] at hc
    exact (hI (t, ti) (lookupL_mem hl)).2 c hc

theorem identTok_table {L : Learned} (hI : IdentOK L) :
    ∀ t ∈ tableNames L, identTok t := by
  intro t ht
  obtain ⟨tr, htr, rfl⟩ := List.mem_map.mp ht
  exact (hI tr htr).1

theorem identTok_headD {l : List Str} (h : ∀ c ∈ l, identTok c) :
    identTok (l.headD []) := by
  rcases l with _ | ⟨c, rest⟩
  · exact identTok_nil
  · exact h c (by simp)

theorem identTok_pkFor {L : Learned} (hI : IdentOK L) (u : Str) :
    identTok (pkFor L u) := by
  unfold pkFor
  dsimp only
  split
  · exact ⟨by decide, by decide⟩
  · split
    · next hmem => exact identTok_colsOf hI u _ hmem
    · split
      · next c hfind => exact identTok_colsOf hI u c (List.mem_of_find?_eq_some hfind)
      · exact identTok_headD (identTok_colsOf hI u)

theorem edges_ident {L : Learned} (hI : IdentOK L) :
    ∀ ed ∈ inferFkEdges L,
      identTok ed.1 ∧ identTok ed.2.1 ∧ identTok ed.2.2.1 ∧ identTok ed.2.2.2 := by
  unfold inferFkEdges
  dsimp only
  refine foldl_preserve
    (fun es : List (Str × Str × Str × Str) => ∀ ed ∈ es,
      identTok ed.1 ∧ identTok ed.2.1 ∧ identTok ed.2.2.1 ∧ identTok ed.2.2.2)
    _ (tableNames L) [] (by simp) ?_
  intro es t ht hes
  refine foldl_preserve
    (fun es : List (Str × Str × Str × Str) => ∀ ed ∈ es,
      identTok ed.1 ∧ identTok ed.2.1 ∧ identTok ed.2.2.1 ∧ identTok ed.2.2.2)
    _ (colsOf L t) es hes ?_
  intro es2 c hc hes2
  dsimp only
  have hnew : ∀ u, u ∈ tableNames L →
      ∀ ed ∈ es2 ++ [(t, c, u, pkFor L u)],
        identTok ed.1 ∧ identTok ed.2.1 ∧ identTok ed.2.2.1 ∧ identTok ed.2.2.2 := by
    intro u hu ed hed
    rcases List.mem_append.mp hed with h1 | h1
    · exact hes2 ed h1
    · have : ed = (t, c, u, pkFor L u) := by simpa using h1
      subst this
      exact ⟨identTok_table hI t ht, identTok_colsOf hI t c hc,
        identTok_table hI u hu, identTok_pkFor hI u⟩
  split
  · split
    · next u hfind => exact hnew u (List.mem_of_find?_eq_some hfind)
    · split
      · next u hfind => exact hnew u (List.mem_of_find?_eq_some hfind)
      · split
        · next u hfind => exact hnew u (List.mem_of_find?_eq_some hfind)
        · exact hes2
  · exact hes2

theorem adjacency_ident {L : Learned} (hI : IdentOK L) :
    ∀ kv ∈ adjacency L, ∀ e ∈ kv.2,
      identTok e.1 ∧ identTok e.2.1 ∧ identTok e.2.2 := by
  unfold adjacency
  refine foldl_preserve
    (fun adj : List (Str × List (Str × Str × Str)) =>
      ∀ kv ∈ adj, ∀ e ∈ kv.2, identTok e.1 ∧ identTok e.2.1 ∧ identTok e.2.2)
    _ (inferFkEdges L) [] (by simp) ?_
  intro adj ed hed hadj
  have hQ := edges_ident hI ed hed
  have hnewe : identTok (ed.2.2.1, ed.2.1, ed.2.2.2).1 ∧
      identTok (ed.2.2.1, ed.2.1, ed.2.2.2).2.1 ∧
      identTok (ed.2.2.1, ed.2.1, ed.2.2.2).2.2 :=
    ⟨hQ.2.2.1, hQ.2.1, hQ.2.2.2⟩
  intro kv hkv e he
  unfold addAdj at hkv
  split at hkv
  · obtain ⟨kv0, hkv0, hkveq⟩ := List.mem_map.mp hkv
    by_cases hk : kv0.1 = ed.1
    · rw [if_pos hk] at hkveq
      subst hkveq
      rcases List.mem_append.mp he with h1 | h1
      · exact hadj kv0 hkv0 e h1
      · have : e = (ed.2.2.1, ed.2.1, ed.2.2.2) := by simpa using h1
        subst this
        exact hnewe
    · rw [if_neg hk] at hkveq
      subst hkveq
      exact hadj kv0 hkv0 e he
  · rcases List.mem_append.mp hkv with h1 | h1
    · exact hadj kv h1 e he
    · have : kv = (ed.1, [(ed.2.2.1, ed.2.1, ed.2.2.2)]) := by simpa using h1
      subst this
      have : e = (ed.2.2.1, ed.2.1, ed.2.2.2) := by simpa using he
      subst this
      exact hnewe

theorem findJoinPath_ident {L : Learned} (hI : IdentOK L) {src dst : Str}
    (hsrc : identTok src) (hdst : identTok dst) {mh : Nat}
    {p : List (Str × Str × Str × Str)} (hp : findJoinPath L src dst mh = some p) :
    ∀ st ∈ p, identTok st.1 ∧ identTok st.2.1 ∧ identTok st.2.2.1 ∧ identTok st.2.2.2 := by
  unfold findJoinPath at hp
  by_cases hsd : src = dst
  · rw [if_pos hsd] at hp
    rw [← Option.some.inj hp]
    simp
  · rw [if_neg hsd] at hp
    dsimp only at hp
    have hasrc : ∀ e ∈ (lookupL src (adjacency L)).getD [],
        identTok e.1 ∧ identTok e.2.1 ∧ identTok e.2.2 := by
      rcases hl : lookupL src (adjacency L) with _ | l
      · simp
      · intro e he
        exact adjacency_ident hI (src, l) (lookupL_mem hl) e (by simpa using he)
    split at hp
    · next e hfind =>
      rw [← Option.some.inj hp]
      intro st hst
      have hste : st = (src, e.2.1, dst, e.2.2) := by simpa using hst
      subst hste
      have he := hasrc e (List.mem_of_find?_eq_some hfind)
      exact ⟨hsrc, he.2.1, hdst, he.2.2⟩
    · obtain ⟨e, hemem, hee⟩ := exists_of_findSomeP _ _ _ hp
      have he := hasrc e hemem
      rcases h2 : ((lookupL e.1 (adjacency L)).getD []).find? (fun e2 => e2.1 = dst)
        with _ | e2
      · rw [h2] at hee
        exact absurd hee (by simp)
      · rw [h2] at hee
        have he2mem := List.mem_of_find?_eq_some h2
        have he2 : identTok e2.1 ∧ identTok e2.2.1 ∧ identTok e2.2.2 := by
          rcases hl : lookupL e.1 (adjacency L) with _ | l
          · rw [hl] at he2mem
            simp at he2mem
          · rw [hl] at he2mem
            exact adjacency_ident hI (e.1, l) (lookupL_mem hl) e2 (by simpa using he2mem)
        rw [← Option.some.inj hee]
        intro st hst
        rcases List.mem_cons.mp hst with h1 | h1
        · subst h1
          exact ⟨hsrc, he.2.1, he.1, he.2.2⟩
        · have : st = (e.1, e2.2.1, dst, e2.2.2) := by simpa using h1
          subst this
          exact ⟨he.1, he2.2.1, hdst, he2.2.2⟩

theorem inferFkMap_ident {L : Learned} (hI : IdentOK L) :
    ∀ kv ∈ inferFkMap L,
      identTok kv.2.1 ∧ identTok kv.2.2.1 ∧ identTok kv.2.2.2 ∧
        kv.2.1 ∈ tableNames L ∧ kv.2.2.2 ∈ tableNames L := by
  unfold inferFkMap
  dsimp only
  refine foldl_preserve
    (fun fk : List ((Str × Str) × (Str × Str × Str)) => ∀ kv ∈ fk,
      identTok kv.2.1 ∧ identTok kv.2.2.1 ∧ identTok kv.2.2.2 ∧
        kv.2.1 ∈ tableNames L ∧ kv.2.2.2 ∈ tableNames L)
    _ (tableNames L) [] (by simp) ?_
  intro fk t ht hfk
  refine foldl_preserve
    (fun fk : List ((Str × Str) × (Str × Str × Str)) => ∀ kv ∈ fk,
      identTok kv.2.1 ∧ identTok kv.2.2.1 ∧ identTok kv.2.2.2 ∧
        kv.2.1 ∈ tableNames L ∧ kv.2.2.2 ∈ tableNames L)
    _ (colsOf L t) fk hfk ?_
  intro fk2 c hc hfk2
  dsimp only
  split
  · split
    · next cand hfindc =>
      have hcand := List.mem_of_find?_eq_some hfindc
      have hnewv : identTok (t, c, cand).1 ∧ identTok (t, c, cand).2.1 ∧
          identTok (t, c, cand).2.2 ∧ (t, c, cand).1 ∈ tableNames L ∧
          (t, c, cand).2.2 ∈ tableNames L :=
        ⟨identTok_table hI t ht, identTok_colsOf hI t c hc,
         identTok_table hI cand hcand, ht, hcand⟩
      intro kv hkv
      unfold setAssoc at hkv
      split at hkv
      · obtain ⟨kv0, hkv0, hkveq⟩ := List.mem_map.mp hkv
        by_cases hk : kv0.1 = (t, cand)
        · rw [if_pos hk] at hkveq
          subst hkveq
          exact hnewv
        · rw [if_neg hk] at hkveq
          subst hkveq
          exact hfk2 kv0 hkv0
      · rcases List.mem_append.mp hkv with h1 | h1
        · exact hfk2 kv h1
        · have : kv = ((t, cand), (t, c, cand)) := by simpa using h1
          subst this
          exact hnewv
    · exact hfk2
  · exact hfk2

theorem twoTable_tables (L : Learned) (toks : List Str) :
    ∀ pr ∈ twoTableCandidates toks L, pr.1 ∈ tableNames L ∧ pr.2 ∈ tableNames L := by
  unfold twoTableCandidates
  dsimp only
  have hsurf : ∀ kv ∈ L.tables.foldl
      (fun m tr => (tr.2.surfaces ++ [tr.1]).foldl (fun m s => assocSetS m s tr.1) m) [],
      kv.2 ∈ tableNames L := by
    refine foldl_preserve (fun m : List (Str × Str) => ∀ kv ∈ m, kv.2 ∈ tableNames L)
      _ L.tables [] (by simp) ?_
    intro m tr htr hm
    refine foldl_preserve (fun m : List (Str × Str) => ∀ kv ∈ m, kv.2 ∈ tableNames L)
      _ (tr.2.surfaces ++ [tr.1]) m hm ?_
    intro m2 s _ hm2
    intro kv hkv
    unfold assocSetS at hkv
    have htrn : tr.1 ∈ tableNames L := List.mem_map.mpr ⟨tr, htr, rfl⟩
    split at hkv
    · obtain ⟨kv0, hkv0, hkveq⟩ := List.mem_map.mp hkv
      by_cases hk : kv0.1 = s
      · rw [if_pos hk] at hkveq
        subst hkveq
        exact htrn
      · rw [if_neg hk] at hkveq
        subst hkveq
        exact hm2 kv0 hkv0
    · rcases List.mem_append.mp hkv with h1 | h1
      · exact hm2 kv h1
      · have : kv = (s, tr.1) := by simpa using h1
        subst this
        exact htrn
  intro pr hpr
  have hd := mem_dedupGo _ _ pr hpr
  have hcp := mem_consecPairs _ pr hd
  constructor
  · obtain ⟨w, _, hlk⟩ := List.mem_filterMap.mp hcp.1
    exact hsurf (w, pr.1) (lookupL_mem hlk)
  · obtain ⟨w, _, hlk⟩ := List.mem_filterMap.mp hcp.2
    exact hsurf (w, pr.2) (lookupL_mem hlk)

theorem identTok_no_space {w : Str} (h : identTok w) : ∀ c ∈ w, c ≠ ' ' := by
  intro c hc he
  subst he
  have hmem : ' ' ∈ asciiLower w := List.mem_map.mpr ⟨' ', hc, rfl⟩
  have := h.1 ' ' hmem
  exact absurd this (by decide)

theorem isPrefixOf_append (p r : Str) : p.isPrefixOf (p ++ r) = true := by
  induction p with
  | nil => rcases r with _ | ⟨a, l⟩ <;> rfl
  | cons c cs ih =>
    show ((c == c) && List.isPrefixOf cs (cs ++ r)) = true
    rw [beq_self_eq_true, ih]
    rfl

theorem splitBeforeGo_AS (y : Str) :
    ∀ (x : Str) (fuel : Nat), x.length < fuel → (∀ c ∈ x, c ≠ ' ') →
      splitBeforeGo (lit (" AS ")) fuel (x ++ (lit (" AS ") ++ y)) = x := by
  intro x
  induction x with
  | nil =>
    intro fuel hf _
    rcases fuel with _ | f
    · omega
    · show splitBeforeGo (lit (" AS ")) (f + 1) (' ' :: (lit ("AS ") ++ y)) = []
      unfold splitBeforeGo
      rw [if_pos]
      exact isPrefixOf_append (lit (" AS ")) y
  | cons c cs ih =>
    intro fuel hf hx
    rcases fuel with _ | f
    · omega
    · have hc : c ≠ ' ' := hx c (by simp)
      show splitBeforeGo (lit (" AS ")) (f + 1) (c :: (cs ++ (lit (" AS ") ++ y))) = c :: cs
      unfold splitBeforeGo
      have hpre : (lit (" AS ")).isPrefixOf (c :: (cs ++ (lit (" AS ") ++ y))) = false := by
        have hbeq : (' ' == c) = false := beq_eq_false_iff_ne.mpr (Ne.symm hc)
        show ((' ' == c) && List.isPrefixOf (lit ("AS ")) (cs ++ (lit (" AS ") ++ y))) = false
        rw [hbeq]
        rfl
      rw [hpre]
      simp only [Bool.false_eq_true, if_false]
      rw [ih f (by simpa using hf) (fun d hd => hx d (by simp [hd]))]

theorem splitBefore_AS {x : Str} (hx : ∀ c ∈ x, c ≠ ' ') (y : Str) :
    splitBefore (lit (" AS ")) (x ++ (lit (" AS ") ++ y)) = x := by
  unfold splitBefore
  refine splitBeforeGo_AS y x _ ?_ hx
  have h4 : (lit (" AS ")).length = 4 := rfl
  rw [List.length_append, List.length_append, h4]
  omega

/-! ## C3: `sqlTokens` is invariant under the normalisations applied to
candidate SQL (`_strip_sql`, `" ".join(sql.split())`, `str.lower`) -/

theorem lowerChar_semi_iff (c : Char) : lowerChar c = ';' ↔ c = ';' := by
  constructor
  · intro h
    rw [char_eq_iff_toNat] at h ⊢
    rw [toNat_lowerChar] at h
    have h59 : (';').toNat = 59 := rfl
    rw [h59] at h ⊢
    split at h
    · next hc => omega
    · exact h
  · intro h
    subst h
    decide

theorem rdropWhile_semi_asciiLower (s : Str) :
    (asciiLower s).rdropWhile (fun c => c = ';') =
      asciiLower (s.rdropWhile (fun c => c = ';')) := by
  have hdw : ∀ u : Str, (asciiLower u).dropWhile (fun c => c = ';') =
      asciiLower (u.dropWhile (fun c => c = ';')) := by
    intro u
    unfold asciiLower
    rw [List.dropWhile_map]
    rw [show ((fun c : Char => decide (c = ';')) ∘ lowerChar) =
        (fun c : Char => decide (c = ';')) from funext fun c => ?_]
    by_cases h : c = ';'
    · subst h
      rfl
    · have h2 : lowerChar c ≠ ';' := fun he => h ((lowerChar_semi_iff c).mp he)
      show decide (lowerChar c = ';') = decide (c = ';')
      simp [h, h2]
  unfold List.rdropWhile
  rw [show (asciiLower s).reverse = asciiLower s.reverse by
        unfold asciiLower; rw [List.map_reverse]]
  rw [hdw]
  unfold asciiLower
  rw [List.map_reverse]

theorem sqlTokens_stripSql (s : Str) : sqlTokens (stripSql s) = sqlTokens s := by
  unfold sqlTokens stripSql
  rw [← rdropWhile_semi_asciiLower (stripWs s)]
  show chunksBy isWordCh ((asciiLower (stripWs s)).rdropWhile (fun c => c = ';')) = _
  rw [chunksBy_rdropWhile_sep (fun c hc => by rw [of_decide_eq_true hc]; decide)]
  rw [← stripWs_asciiLower s]
  exact wordTokens_stripWs (asciiLower s)

theorem chunksBy_map_aux2 {keep : Char → Bool} {f : Char → Char}
    (hf : ∀ c, keep (f c) = keep c) :
    ∀ (n : Nat) (s : Str), s.length ≤ n →
      chunksBy keep (s.map f) = (chunksBy keep s).map (List.map f) := by
  intro n
  induction n with
  | zero =>
    intro s hs
    have : s = [] := List.length_eq_zero.mp (Nat.le_zero.mp hs)
    subst this
    rfl
  | succ m ih =>
    intro s hs
    match s with
    | [] => rfl
    | c :: cs =>
      simp only [List.length_cons, Nat.succ_le_succ_iff] at hs
      simp only [List.map_cons]
      by_cases hk : keep c = true
      · rw [chunksBy_cons_pos _ (by rw [hf]; exact hk), chunksBy_cons_pos _ hk]
        have hkf : (keep ∘ f) = keep := funext hf
        have htw : (cs.map f).takeWhile keep = (cs.takeWhile keep).map f := by
          rw [List.takeWhile_map, hkf]
        have hdw : (cs.map f).dropWhile keep = (cs.dropWhile keep).map f := by
          rw [List.dropWhile_map, hkf]
        rw [htw, hdw, ih (cs.dropWhile keep) (le_trans (length_dropWhile_le _ _) hs)]
        simp
      · have hkf : keep c = false := by simpa using hk
        rw [chunksBy_cons_neg _ (by rw [hf]; exact hkf), chunksBy_cons_neg _ hkf]
        exact ih cs hs

theorem splitWs_asciiLower (s : Str) :
    splitWs (asciiLower s) = (splitWs s).map asciiLower := by
  unfold splitWs asciiLower
  exact chunksBy_map_aux2 (fun c => by rw [isWs_lowerChar]) s.length s le_rfl

theorem asciiLower_joinSp :
    ∀ parts : List Str, asciiLower (joinSp parts) = joinSp (parts.map asciiLower) := by
  intro parts
  induction parts with
  | nil => rfl
  | cons p rest ih =>
    rcases rest with _ | ⟨q, r⟩
    · rfl
    · show asciiLower (p ++ ' ' :: joinSp (q :: r)) = _
      rw [asciiLower_append]
      show asciiLower p ++ asciiLower (' ' :: joinSp (q :: r)) =
        asciiLower p ++ ' ' :: joinSp ((q :: r).map asciiLower)
      congr 1
      show lowerChar ' ' :: asciiLower (joinSp (q :: r)) = _
      rw [ih]
      rfl

theorem asciiLower_normWs (s : Str) :
    asciiLower (normWs s) = normWs (asciiLower s) := by
  unfold normWs
  rw [asciiLower_joinSp, ← splitWs_asciiLower]

theorem sqlTokens_normWs (s : Str) : sqlTokens (normWs s) = sqlTokens s := by
  unfold sqlTokens
  rw [asciiLower_normWs]
  exact wordTokens_normWs (asciiLower s)

theorem lCount_stripSql (s : Str) : lCount (stripSql s) = lCount s := by
  unfold lCount
  rw [sqlTokens_stripSql]

theorem lCount_normWs (s : Str) : lCount (normWs s) = lCount s := by
  unfold lCount
  rw [sqlTokens_normWs]

theorem lCount_asciiLower (s : Str) : lCount (asciiLower s) = lCount s := by
  unfold lCount sqlTokens
  rw [asciiLower_idem]

theorem limit_bound_of_lCount {s : Str} (h : lCount s ≤ 1) :
    limitPairs (sqlTokens s) ≤ 1 := le_trans (lCount_le s) h

/-! ## C3: `limit`-token counts of the generated SQL shapes -/

theorem lCount_split_sp (x y : Str) : lCount (x ++ ' ' :: y) = lCount x + lCount y :=
  lCount_sep_split x (by decide) y

theorem lCount_split_lp (x y : Str) : lCount (x ++ '(' :: y) = lCount x + lCount y :=
  lCount_sep_split x (by decide) y

theorem lCount_split_rp (x y : Str) : lCount (x ++ ')' :: y) = lCount x + lCount y :=
  lCount_sep_split x (by decide) y

theorem lCount_split_comma (x y : Str) : lCount (x ++ ',' :: y) = lCount x + lCount y :=
  lCount_sep_split x (by decide) y

theorem lCount_split_dot (x y : Str) : lCount (x ++ '.' :: y) = lCount x + lCount y :=
  lCount_sep_split x (by decide) y

theorem lCount_split_eq (x y : Str) : lCount (x ++ '=' :: y) = lCount x + lCount y :=
  lCount_sep_split x (by decide) y

theorem lCount_split_nl (x y : Str) : lCount (x ++ '\n' :: y) = lCount x + lCount y :=
  lCount_sep_split x (by decide) y

theorem lCount_split_q (x y : Str) :
    lCount (x ++ (Char.ofNat 39) :: y) = lCount x + lCount y :=
  lCount_sep_split x (by decide) y

theorem lCount_cons_sp (y : Str) : lCount (' ' :: y) = lCount y :=
  lCount_cons_sep (by decide) y

theorem lCount_cons_nl (y : Str) : lCount ('\n' :: y) = lCount y :=
  lCount_cons_sep (by decide) y

theorem ne_limit_underscore_left {a b : Str} (h : '_' ∈ a) :
    asciiLower (a ++ b) ≠ lit ("limit") := by
  rw [asciiLower_append]
  apply ne_limit_of_underscore
  exact List.mem_append.mpr (Or.inl (underscore_mem_asciiLower h))

theorem ne_limit_underscore_right {a b : Str} (h : '_' ∈ b) :
    asciiLower (a ++ b) ≠ lit ("limit") := by
  rw [asciiLower_append]
  apply ne_limit_of_underscore
  exact List.mem_append.mpr (Or.inr (underscore_mem_asciiLower h))

/-- A word run `pre ++ c ++ mid` (e.g. `distinct_<c>_count`) followed by a
separator contributes no `limit` token. -/
theorem lCount_merge3 {pre mid c : Str} {b : Char} (hb : isWordCh (lowerChar b) = false)
    (hpre : ∀ ch ∈ asciiLower pre, isWordCh ch = true)
    (hc : identTok c)
    (hmid : ∀ ch ∈ asciiLower mid, isWordCh ch = true)
    (hne : asciiLower (pre ++ c ++ mid) ≠ lit ("limit")) (rest : Str) :
    lCount (pre ++ (c ++ (mid ++ b :: rest))) = lCount rest := by
  rw [show pre ++ (c ++ (mid ++ b :: rest)) = (pre ++ c ++ mid) ++ b :: rest from by
    simp [List.append_assoc]]
  rw [lCount_sep_split _ hb _]
  have h0 : lCount (pre ++ c ++ mid) = 0 := by
    apply lCount_word _ hne
    intro ch hch
    rw [asciiLower_append, asciiLower_append] at hch
    rcases List.mem_append.mp hch with h1 | h1
    · rcases List.mem_append.mp h1 with h2 | h2
      exacts [hpre ch h2, hc.1 ch h2]
    · exact hmid ch h1
  rw [h0]
  omega

/-- A word run `pre ++ c` (e.g. `sum_<c>`) followed by a separator. -/
theorem lCount_merge2 {pre c : Str} {b : Char} (hb : isWordCh (lowerChar b) = false)
    (hpre : ∀ ch ∈ asciiLower pre, isWordCh ch = true)
    (hc : identTok c)
    (hne : asciiLower (pre ++ c) ≠ lit ("limit")) (rest : Str) :
    lCount (pre ++ (c ++ b :: rest)) = lCount rest := by
  rw [show pre ++ (c ++ b :: rest) = (pre ++ c) ++ b :: rest from by
    simp [List.append_assoc]]
  rw [lCount_sep_split _ hb _]
  rw [lCount_append_words hpre hc.1 hne]
  omega

theorem lCount_joinWith {b : Char} (hb : isWordCh (lowerChar b) = false) {rest : Str}
    (hrest : ∀ x : Str, lCount (rest ++ x) = lCount x) :
    ∀ frags : List Str, (∀ f ∈ frags, lCount f = 0) →
      lCount (joinWith (b :: rest) frags) = 0 := by
  intro frags
  induction frags with
  | nil => intro _; rfl
  | cons f rest2 ih =>
    intro h
    rcases rest2 with _ | ⟨g, r⟩
    · exact h f (by simp)
    · have hj : joinWith (b :: rest) (f :: g :: r) =
          f ++ b :: (rest ++ joinWith (b :: rest) (g :: r)) := by
        show (f ++ (b :: rest)) ++ joinWith (b :: rest) (g :: r) = _
        rw [List.append_assoc]
        rfl
      rw [hj, lCount_sep_split _ hb _, h f (by simp), hrest,
        ih (fun f2 hf2 => h f2 (by simp [hf2]))]

theorem lCount_joinWith_commaSp {frags : List Str} (h : ∀ f ∈ frags, lCount f = 0) :
    lCount (joinWith (lit (", ")) frags) = 0 := by
  show lCount (joinWith (',' :: [' ']) frags) = 0
  exact lCount_joinWith (by decide) (fun x => lCount_cons_sp x) frags h

theorem lCount_joinWith_and {frags : List Str} (h : ∀ f ∈ frags, lCount f = 0) :
    lCount (joinWith (lit (" AND ")) frags) = 0 := by
  show lCount (joinWith (' ' :: lit ("AND ")) frags) = 0
  refine lCount_joinWith (by decide) (fun x => ?_) frags h
  show lCount (lit ("AND") ++ ' ' :: x) = lCount x
  rw [lCount_split_sp, show lCount (lit ("AND")) = 0 from by decide]
  omega

theorem lCount_joinWith_nl {frags : List Str} (h : ∀ f ∈ frags, lCount f = 0) :
    lCount (joinWith (lit ("\n")) frags) = 0 := by
  show lCount (joinWith ('\n' :: ([] : Str)) frags) = 0
  exact lCount_joinWith (by decide) (fun x => congrArg lCount (List.nil_append x)) frags h

/-- `SELECT DISTINCT c FROM t ORDER BY c` (the unique/distinct rule). -/
theorem lCount_shape_unique {c t : Str} (hc : identTok c) (ht : identTok t) :
    lCount (lit ("SELECT DISTINCT ") ++ c ++ lit (" FROM ") ++ t ++
      lit (" ORDER BY ") ++ c) = 0 := by
  simp only [List.append_assoc]
  show lCount (lit ("SELECT DISTINCT") ++ ' ' ::
    (c ++ ' ' :: (lit ("FROM") ++ ' ' :: (t ++ ' ' ::
      (lit ("ORDER BY") ++ ' ' :: c))))) = 0
  simp only [lCount_split_sp]
  rw [lCount_identTok hc, lCount_identTok ht]
  decide

/-- `SELECT COUNT(DISTINCT c) AS distinct_c_count FROM t`. -/
theorem lCount_shape_cdist {c t : Str} (hc : identTok c) (ht : identTok t) :
    lCount (lit ("SELECT COUNT(DISTINCT ") ++ c ++ lit (") AS distinct_") ++ c ++
      lit ("_count FROM ") ++ t) = 0 := by
  simp only [List.append_assoc]
  show lCount (lit ("SELECT COUNT(DISTINCT") ++ ' ' ::
    (c ++ ')' :: (lit (" AS") ++ ' ' ::
      (lit ("distinct_") ++ (c ++ (lit ("_count") ++ ' ' ::
        (lit ("FROM") ++ ' ' :: t))))))) = 0
  simp only [lCount_split_sp, lCount_split_rp]
  rw [lCount_merge3 (by decide) (by decide) hc (by decide)
    (ne_limit_underscore_left (List.mem_append.mpr (Or.inl (by decide))))]
  rw [lCount_split_sp, lCount_identTok hc, lCount_identTok ht]
  decide

/-- `SELECT COUNT(*) AS row_count FROM t`. -/
theorem lCount_shape_crows {t : Str} (ht : identTok t) :
    lCount (lit ("SELECT COUNT(*) AS row_count FROM ") ++ t) = 0 := by
  show lCount (lit ("SELECT COUNT(*) AS row_count FROM") ++ ' ' :: t) = 0
  rw [lCount_split_sp, lCount_identTok ht]
  decide

/-- `SELECT a, SUM(b) AS s FROM t GROUP BY a ORDER BY s DESC LIMIT <y>`. -/
theorem lCount_shape_topk {a b t y : Str} (ha : identTok a) (hb : identTok b)
    (ht : identTok t) (hy : lCount y = 0) :
    lCount (lit ("SELECT ") ++ a ++ lit (", SUM(") ++ b ++ lit (") AS s FROM ") ++ t ++
      lit (" GROUP BY ") ++ a ++ lit (" ORDER BY s DESC LIMIT ") ++ y) = 1 := by
  simp only [List.append_assoc]
  show lCount (lit ("SELECT") ++ ' ' ::
    (a ++ ',' :: (lit (" SUM") ++ '(' :: (b ++ ')' ::
      (lit (" AS s FROM") ++ ' ' :: (t ++ ' ' ::
        (lit ("GROUP BY") ++ ' ' :: (a ++ ' ' ::
          (lit ("ORDER BY s DESC LIMIT") ++ ' ' :: y))))))))) = 1
  simp only [lCount_split_sp, lCount_split_comma, lCount_split_lp, lCount_split_rp]
  rw [lCount_identTok ha, lCount_identTok hb, lCount_identTok ht, hy]
  decide

/-- `SELECT * FROM t WHERE substr(dc,1,4)='<y>'`. -/
theorem lCount_shape_year {t dc y : Str} (ht : identTok t) (hdc : identTok dc)
    (hy : lCount y = 0) :
    lCount (lit ("SELECT * FROM ") ++ t ++ lit (" WHERE substr(") ++ dc ++
      lit (",1,4)='") ++ y ++ lit ("'")) = 0 := by
  simp only [List.append_assoc]
  show lCount (lit ("SELECT * FROM") ++ ' ' ::
    (t ++ ' ' :: (lit ("WHERE substr") ++ '(' ::
      (dc ++ ',' :: (lit ("1,4)=") ++ (Char.ofNat 39) ::
        (y ++ (Char.ofNat 39) :: ([] : Str))))))) = 0
  simp only [lCount_split_sp, lCount_split_lp, lCount_split_comma, lCount_split_q]
  rw [lCount_identTok ht, lCount_identTok hdc, hy]
  decide

/-- `LOWER(fc) = '<fv>'` (a show/list equality filter fragment). -/
theorem lCount_frag_filter {fc fv : Str} (hfc : identTok fc) (hfv : lCount fv = 0) :
    lCount (lit ("LOWER(") ++ fc ++ lit (") = '") ++ fv ++ lit ("'")) = 0 := by
  simp only [List.append_assoc]
  show lCount (lit ("LOWER") ++ '(' ::
    (fc ++ ')' :: (lit (" = ") ++ (Char.ofNat 39) ::
      (fv ++ (Char.ofNat 39) :: ([] : Str))))) = 0
  simp only [lCount_split_lp, lCount_split_rp, lCount_split_q]
  rw [lCount_identTok hfc, hfv]
  decide

/-- `substr(dc,1,4)='<y>'` (the show/list year fragment). -/
theorem lCount_frag_year {dc y : Str} (hdc : identTok dc) (hy : lCount y = 0) :
    lCount (lit ("substr(") ++ dc ++ lit (",1,4)='") ++ y ++ lit ("'")) = 0 := by
  simp only [List.append_assoc]
  show lCount (lit ("substr") ++ '(' ::
    (dc ++ ',' :: (lit ("1,4)=") ++ (Char.ofNat 39) ::
      (y ++ (Char.ofNat 39) :: ([] : Str))))) = 0
  simp only [lCount_split_lp, lCount_split_comma, lCount_split_q]
  rw [lCount_identTok hdc, hy]
  decide

/-- `SELECT * FROM t WHERE <f1> AND ... AND <fn>`. -/
theorem lCount_shape_show {t : Str} (ht : identTok t) {frags : List Str}
    (hf : ∀ f ∈ frags, lCount f = 0) :
    lCount (lit ("SELECT * FROM ") ++ t ++
      (lit (" WHERE ") ++ joinWith (lit (" AND ")) frags)) = 0 := by
  simp only [List.append_assoc]
  show lCount (lit ("SELECT * FROM") ++ ' ' ::
    (t ++ ' ' :: (lit ("WHERE") ++ ' ' :: joinWith (lit (" AND ")) frags))) = 0
  simp only [lCount_split_sp]
  rw [lCount_identTok ht, lCount_joinWith_and hf]
  decide

/-- `SELECT * FROM t` (show/list with no inferred filters). -/
theorem lCount_shape_selstar {t : Str} (ht : identTok t) :
    lCount (lit ("SELECT * FROM ") ++ t) = 0 := by
  show lCount (lit ("SELECT * FROM") ++ ' ' :: t) = 0
  rw [lCount_split_sp, lCount_identTok ht]
  decide

/-- `-- columns: c1, c2, ...` (dynamic corpus). -/
theorem lCount_shape_cols {cols : List Str} (h : ∀ c ∈ cols, identTok c) :
    lCount (lit ("-- columns: ") ++ joinWith (lit (", ")) cols) = 0 := by
  show lCount (lit ("-- columns:") ++ ' ' :: joinWith (lit (", ")) cols) = 0
  rw [lCount_split_sp,
    lCount_joinWith_commaSp (fun f hf => lCount_identTok (h f hf))]
  decide

/-- `SELECT DISTINCT c FROM t ORDER BY c LIMIT 200` (dynamic corpus). -/
theorem lCount_shape_uniqueLimit {c t : Str} (hc : identTok c) (ht : identTok t) :
    lCount (lit ("SELECT DISTINCT ") ++ c ++ lit (" FROM ") ++ t ++
      lit (" ORDER BY ") ++ c ++ lit (" LIMIT 200")) = 1 := by
  simp only [List.append_assoc]
  show lCount (lit ("SELECT DISTINCT") ++ ' ' ::
    (c ++ ' ' :: (lit ("FROM") ++ ' ' :: (t ++ ' ' ::
      (lit ("ORDER BY") ++ ' ' :: (c ++ ' ' :: lit ("LIMIT 200"))))))) = 1
  simp only [lCount_split_sp]
  rw [lCount_identTok hc, lCount_identTok ht]
  decide

/-- `SELECT c, COUNT(*) AS n FROM t GROUP BY c ORDER BY n DESC LIMIT 200`. -/
theorem lCount_shape_countBy {c t : Str} (hc : identTok c) (ht : identTok t) :
    lCount (lit ("SELECT ") ++ c ++ lit (", COUNT(*) AS n FROM ") ++ t ++
      lit (" GROUP BY ") ++ c ++ lit (" ORDER BY n DESC LIMIT 200")) = 1 := by
  simp only [List.append_assoc]
  show lCount (lit ("SELECT") ++ ' ' ::
    (c ++ ',' :: (lit (" COUNT(*) AS n FROM") ++ ' ' :: (t ++ ' ' ::
      (lit ("GROUP BY") ++ ' ' :: (c ++ ' ' ::
        lit ("ORDER BY n DESC LIMIT 200"))))))) = 1
  simp only [lCount_split_sp, lCount_split_comma]
  rw [lCount_identTok hc, lCount_identTok ht]
  decide

/-- `SELECT SUM(c) AS sum_c FROM t` (dynamic corpus). -/
theorem lCount_shape_sum {c t : Str} (hc : identTok c) (ht : identTok t) :
    lCount (lit ("SELECT SUM(") ++ c ++ lit (") AS sum_") ++ c ++
      lit (" FROM ") ++ t) = 0 := by
  simp only [List.append_assoc]
  show lCount (lit ("SELECT SUM") ++ '(' ::
    (c ++ ')' :: (lit (" AS") ++ ' ' ::
      (lit ("sum_") ++ (c ++ ' ' :: (lit ("FROM") ++ ' ' :: t)))))) = 0
  simp only [lCount_split_lp, lCount_split_rp, lCount_split_sp]
  rw [lCount_identTok hc,
    lCount_merge2 (by decide) (by decide) hc (ne_limit_underscore_left (by decide))]
  rw [lCount_split_sp, lCount_identTok ht]
  decide

/-- `SELECT AVG(c) AS avg_c FROM t` (dynamic corpus). -/
theorem lCount_shape_avg {c t : Str} (hc : identTok c) (ht : identTok t) :
    lCount (lit ("SELECT AVG(") ++ c ++ lit (") AS avg_") ++ c ++
      lit (" FROM ") ++ t) = 0 := by
  simp only [List.append_assoc]
  show lCount (lit ("SELECT AVG") ++ '(' ::
    (c ++ ')' :: (lit (" AS") ++ ' ' ::
      (lit ("avg_") ++ (c ++ ' ' :: (lit ("FROM") ++ ' ' :: t)))))) = 0
  simp only [lCount_split_lp, lCount_split_rp, lCount_split_sp]
  rw [lCount_identTok hc,
    lCount_merge2 (by decide) (by decide) hc (ne_limit_underscore_left (by decide))]
  rw [lCount_split_sp, lCount_identTok ht]
  decide

/-- `SELECT * FROM t WHERE substr(c,1,4)='<y>' LIMIT 200` (dynamic corpus). -/
theorem lCount_shape_substrLimit {t c y : Str} (ht : identTok t) (hc : identTok c)
    (hy : lCount y = 0) :
    lCount (lit ("SELECT * FROM ") ++ t ++ lit (" WHERE substr(") ++ c ++
      (lit (",1,4)='") ++ y ++ lit ("' LIMIT 200"))) = 1 := by
  simp only [List.append_assoc]
  show lCount (lit ("SELECT * FROM") ++ ' ' ::
    (t ++ ' ' :: (lit ("WHERE substr") ++ '(' ::
      (c ++ ',' :: (lit ("1,4)=") ++ (Char.ofNat 39) ::
        (y ++ (Char.ofNat 39) :: lit (" LIMIT 200"))))))) = 1
  simp only [lCount_split_sp, lCount_split_lp, lCount_split_comma, lCount_split_q]
  rw [lCount_identTok ht, lCount_identTok hc, hy]
  decide

/-- `SELECT * FROM t WHERE LOWER(c) = '<vq>' LIMIT 200` (dynamic corpus,
sampled-value filter). -/
theorem lCount_shape_sample {t c vq : Str} (ht : identTok t) (hc : identTok c)
    (hv : lCount vq = 0) :
    lCount (lit ("SELECT * FROM ") ++ t ++ lit (" WHERE LOWER(") ++ c ++
      lit (") = '") ++ vq ++ lit ("' LIMIT 200")) = 1 := by
  simp only [List.append_assoc]
  show lCount (lit ("SELECT * FROM") ++ ' ' ::
    (t ++ ' ' :: (lit ("WHERE LOWER") ++ '(' ::
      (c ++ ')' :: (lit (" = ") ++ (Char.ofNat 39) ::
        (vq ++ (Char.ofNat 39) :: lit (" LIMIT 200"))))))) = 1
  simp only [lCount_split_sp, lCount_split_lp, lCount_split_rp, lCount_split_q]
  rw [lCount_identTok ht, lCount_identTok hc, hv]
  decide

theorem identTok_getD {l : List Str} (h : ∀ c ∈ l, identTok c) (i : Nat) :
    identTok (l.getD i []) := by
  rw [List.getD_eq_getElem?_getD]
  rcases hx : l[i]? with _ | x
  · exact identTok_nil
  · exact h x (List.getElem?_mem hx)

theorem lCount_dotpair {a b : Str} (ha : identTok a) (hb : identTok b) :
    lCount (a ++ (lit (".") ++ b)) = 0 := by
  show lCount (a ++ '.' :: b) = 0
  rw [lCount_split_dot, lCount_identTok ha, lCount_identTok hb]

/-- The `join_sql` 2-table template (`joins.synthesize_join_templates`). -/
theorem lCount_joinSqlT {L : Learned} (hI : IdentOK L) {src col dst : Str}
    (hsrc : identTok src) (hcol : identTok col) (hdst : identTok dst) :
    lCount (joinSqlT L src col dst) = 1 := by
  have hs1 : identTok (((colsOf L src).take 2).headD []) :=
    identTok_headD (fun c hc => identTok_colsOf hI src c (List.mem_of_mem_take hc))
  have hs2 : identTok (((colsOf L dst).take 2).headD []) :=
    identTok_headD (fun c hc => identTok_colsOf hI dst c (List.mem_of_mem_take hc))
  have hsel : lCount (joinWith (lit (", "))
      [src ++ (lit (".") ++ ((colsOf L src).take 2).headD []),
       dst ++ (lit (".") ++ ((colsOf L dst).take 2).headD [])]) = 0 := by
    apply lCount_joinWith_commaSp
    intro f hf
    rcases List.mem_cons.mp hf with h1 | h1
    · subst h1
      exact lCount_dotpair hsrc hs1
    · have : f = dst ++ (lit (".") ++ ((colsOf L dst).take 2).headD []) := by
        simpa using h1
      subst this
      exact lCount_dotpair hdst hs2
  unfold joinSqlT
  dsimp only
  simp only [List.append_assoc]
  show lCount (lit ("SELECT") ++ ' ' ::
    (joinWith (lit (", "))
      [src ++ (lit (".") ++ ((colsOf L src).take 2).headD []),
       dst ++ (lit (".") ++ ((colsOf L dst).take 2).headD [])] ++ '\n' ::
      (lit ("FROM") ++ ' ' :: (src ++ ' ' :: ('\n' :: (lit ("JOIN") ++ ' ' ::
        (dst ++ ' ' :: (lit ("ON") ++ ' ' :: (src ++ '.' :: (col ++ ' ' ::
          (lit ("=") ++ ' ' :: (dst ++ '.' ::
            lit ("id\nLIMIT 200"))))))))))))) = 1
  simp only [lCount_split_sp, lCount_split_dot, lCount_split_nl, lCount_cons_nl]
  rw [hsel, lCount_identTok hsrc, lCount_identTok hdst, lCount_identTok hcol]
  decide

theorem lCount_joinCount {src col dst : Str} (hsrc : identTok src)
    (hcol : identTok col) (hdst : identTok dst) :
    lCount (joinCountTemplate src col dst) = 1 := by
  unfold joinCountTemplate
  simp only [List.append_assoc]
  show lCount (lit ("SELECT") ++ ' ' ::
    (dst ++ '.' :: (lit ("id, COUNT(*) AS n FROM") ++ ' ' ::
      (src ++ ' ' :: (lit ("JOIN") ++ ' ' ::
        (dst ++ ' ' :: (lit ("ON") ++ ' ' ::
          (src ++ '.' :: (col ++ '=' ::
            (dst ++ '.' :: (lit ("id GROUP BY") ++ ' ' ::
              (dst ++ '.' ::
                lit ("id ORDER BY n DESC LIMIT 200"))))))))))))) = 1
  simp only [lCount_split_sp, lCount_split_dot, lCount_split_eq]
  rw [lCount_identTok hsrc, lCount_identTok hcol, lCount_identTok hdst]
  decide

theorem lCount_joinSum {src col dst : Str} (hsrc : identTok src)
    (hcol : identTok col) (hdst : identTok dst) :
    lCount (joinSumTemplate src col dst) = 1 := by
  unfold joinSumTemplate
  simp only [List.append_assoc]
  show lCount (lit ("SELECT") ++ ' ' ::
    (dst ++ '.' :: (lit ("id, SUM(1) AS s FROM") ++ ' ' ::
      (src ++ ' ' :: (lit ("JOIN") ++ ' ' ::
        (dst ++ ' ' :: (lit ("ON") ++ ' ' ::
          (src ++ '.' :: (col ++ '=' ::
            (dst ++ '.' :: (lit ("id GROUP BY") ++ ' ' ::
              (dst ++ '.' ::
                lit ("id ORDER BY s DESC LIMIT 200"))))))))))))) = 1
  simp only [lCount_split_sp, lCount_split_dot, lCount_split_eq]
  rw [lCount_identTok hsrc, lCount_identTok hcol, lCount_identTok hdst]
  decide

/-- One `JOIN r ON a.b = r.pk` line of `synthesize_aggregate_join`. -/
theorem lCount_joinfrag {r a b pk : Str} (hr : identTok r) (ha : identTok a)
    (hb : identTok b) (hpk : identTok pk) :
    lCount (lit ("JOIN ") ++ r ++ lit (" ON ") ++ a ++ lit (".") ++ b ++
      lit (" = ") ++ r ++ lit (".") ++ pk) = 0 := by
  simp only [List.append_assoc]
  show lCount (lit ("JOIN") ++ ' ' ::
    (r ++ ' ' :: (lit ("ON") ++ ' ' ::
      (a ++ '.' :: (b ++ ' ' :: (lit ("=") ++ ' ' ::
        (r ++ '.' :: pk))))))) = 0
  simp only [lCount_split_sp, lCount_split_dot]
  rw [lCount_identTok hr, lCount_identTok ha, lCount_identTok hb, lCount_identTok hpk]
  decide

theorem lCount_selcol_id {tt tpk : Str} (htt : identTok tt) (htpk : identTok tpk) :
    lCount (tt ++ lit (".") ++ tpk ++ lit (" AS ") ++ (tt ++ lit ("_id"))) = 0 := by
  simp only [List.append_assoc]
  show lCount (tt ++ '.' :: (tpk ++ ' ' :: (lit ("AS") ++ ' ' ::
    (tt ++ lit ("_id"))))) = 0
  simp only [lCount_split_dot, lCount_split_sp]
  rw [lCount_identTok htt, lCount_identTok htpk,
    lCount_append_words htt.1 (by decide) (ne_limit_underscore_right (by decide))]
  decide

theorem lCount_selcol_label {tt lc : Str} (htt : identTok tt) (hlc : identTok lc) :
    lCount (tt ++ lit (".") ++ lc ++ lit (" AS ") ++ lc) = 0 := by
  simp only [List.append_assoc]
  show lCount (tt ++ '.' :: (lc ++ ' ' :: (lit ("AS") ++ ' ' :: lc))) = 0
  simp only [lCount_split_dot, lCount_split_sp]
  rw [lCount_identTok htt, lCount_identTok hlc]
  decide

theorem splitBefore_dotpair {a b : Str} (ha : identTok a) (hb : identTok b) (y : Str) :
    splitBefore (lit (" AS ")) (a ++ lit (".") ++ b ++ (lit (" AS ") ++ y)) =
      a ++ lit (".") ++ b := by
  rw [show a ++ lit (".") ++ b ++ (lit (" AS ") ++ y)
      = (a ++ lit (".") ++ b) ++ (lit (" AS ") ++ y) from by simp [List.append_assoc]]
  apply splitBefore_AS
  intro c hc
  rcases List.mem_append.mp hc with h1 | h1
  · rcases List.mem_append.mp h1 with h2 | h2
    · exact identTok_no_space ha c h2
    · have h3 : c ∈ ('.' :: ([] : Str)) := h2
      have : c = '.' := by simpa using h3
      subst this
      decide
  · exact identTok_no_space hb c h1

theorem guessLabel_mem {L : Learned} {t lc : Str}
    (h : guessLabelColumn L t = some lc) : lc ∈ colsOf L t := by
  unfold guessLabelColumn at h
  dsimp only at h
  split at h
  · next p hfind =>
    have hp := List.find?_some hfind
    have : p = lc := Option.some.inj h
    subst this
    exact List.mem_of_elem_eq_true hp
  · exact List.mem_of_find?_eq_some h

theorem lCount_splitBefore_selcol {a b : Str} (ha : identTok a) (hb : identTok b)
    (y : Str) :
    lCount (splitBefore (lit (" AS ")) (a ++ lit (".") ++ b ++ lit (" AS ") ++ y)) = 0 := by
  rw [show a ++ lit (".") ++ b ++ lit (" AS ") ++ y
      = (a ++ (lit (".") ++ b)) ++ (lit (" AS ") ++ y) from by simp [List.append_assoc]]
  have hxp : ∀ c ∈ a ++ (lit (".") ++ b), c ≠ ' ' := by
    intro c hc
    rcases List.mem_append.mp hc with h1 | h1
    · exact identTok_no_space ha c h1
    · rcases List.mem_append.mp h1 with h2 | h2
      · have h3 : c ∈ ('.' :: ([] : Str)) := h2
        have : c = '.' := by simpa using h3
        subst this
        decide
      · exact identTok_no_space hb c h2
  rw [splitBefore_AS hxp y]
  exact lCount_dotpair ha hb

/-- `SUM(mt.mc) AS sum_mc` (aggregate-join metric expression). -/
theorem lCount_metricSum {mt mc : Str} (hmt : identTok mt) (hmc : identTok mc) :
    lCount (lit ("SUM(") ++ mt ++ lit (".") ++ mc ++ lit (") AS ") ++
      (lit ("sum_") ++ mc)) = 0 := by
  simp only [List.append_assoc]
  show lCount (lit ("SUM") ++ '(' ::
    (mt ++ '.' :: (mc ++ ')' :: (lit (" AS") ++ ' ' ::
      (lit ("sum_") ++ mc))))) = 0
  simp only [lCount_split_lp, lCount_split_dot, lCount_split_rp, lCount_split_sp]
  rw [lCount_identTok hmt, lCount_identTok hmc,
    lCount_append_words (by decide) hmc.1 (ne_limit_underscore_left (by decide))]
  decide

/-- The assembled aggregate-join SQL, with the join region abstracted as a
transparent block `jr` and every variable piece known `limit`-free, has
exactly the one final LIMIT. -/
theorem lCount_aggShape {sel start jr grpJ al2 y : Str}
    (hsel : lCount sel = 0) (hstart : identTok start)
    (hjr : ∀ x : Str, lCount (jr ++ x) = lCount x)
    (hgrp : lCount grpJ = 0) (hal : lCount al2 = 0) (hy : lCount y = 0) :
    lCount (lit ("SELECT ") ++ sel ++ lit ("\nFROM ") ++ start ++ lit ("\n") ++ jr ++
      (lit ("GROUP BY ") ++ grpJ) ++ lit ("\nORDER BY ") ++ al2 ++
      lit (" DESC\nLIMIT ") ++ y) ≤ 1 := by
  simp only [List.append_assoc]
  show lCount (lit ("SELECT") ++ ' ' ::
    (sel ++ '\n' :: (lit ("FROM") ++ ' ' ::
      (start ++ '\n' :: (jr ++ (lit ("GROUP BY") ++ ' ' ::
        (grpJ ++ '\n' :: (lit ("ORDER BY") ++ ' ' ::
          (al2 ++ ' ' :: (lit ("DESC\nLIMIT") ++ ' ' :: y)))))))))) ≤ 1
  simp only [lCount_split_sp, lCount_split_nl]
  rw [hjr]
  simp only [lCount_split_sp, lCount_split_nl]
  rw [hsel, lCount_identTok hstart, hgrp, hal, hy]
  decide

theorem aggFold_inv {path : List (Str × Str × Str × Str)} {start : Str}
    (hstart : identTok start)
    (hpath : ∀ st ∈ path, identTok st.1 ∧ identTok st.2.1 ∧ identTok st.2.2.1 ∧
      identTok st.2.2.2) :
    identTok (path.foldl aggStep (start, [])).1 ∧
      ∀ j ∈ (path.foldl aggStep (start, [])).2, lCount j = 0 := by
  refine foldl_preserve
    (fun acc : Str × List Str => identTok acc.1 ∧ ∀ j ∈ acc.2, lCount j = 0)
    _ path (start, []) ⟨hstart, by simp⟩ ?_
  intro acc st hst hacc
  obtain ⟨h1, h2, h3, h4⟩ := hpath st hst
  unfold aggStep
  dsimp only
  by_cases hsw : st.1 ≠ acc.1
  · rw [if_pos hsw]
    dsimp only
    refine ⟨h1, ?_⟩
    intro j hj
    rcases List.mem_append.mp hj with hj1 | hj1
    · exact hacc.2 j hj1
    · rw [List.mem_singleton] at hj1
      subst hj1
      exact lCount_joinfrag h1 h3 h4 h2
  · rw [if_neg hsw]
    refine ⟨h3, ?_⟩
    intro j hj
    rcases List.mem_append.mp hj with hj1 | hj1
    · exact hacc.2 j hj1
    · rw [List.mem_singleton] at hj1
      subst hj1
      exact lCount_joinfrag h3 h1 h2 h4

theorem aggSelCols_lCount {L : Learned} (hI : IdentOK L) {tt : Str} (htt : identTok tt) :
    ∀ e ∈ aggSelCols L tt, lCount e = 0 := by
  intro e he
  unfold aggSelCols at he
  rcases List.mem_append.mp he with h1 | h1
  · rw [List.mem_singleton] at h1
    subst h1
    exact lCount_selcol_id htt (identTok_pkFor hI tt)
  · rcases hgl : guessLabelColumn L tt with _ | lc
    · rw [hgl] at h1
      simp at h1
    · rw [hgl] at h1
      have hlc : identTok lc := identTok_colsOf hI tt lc (guessLabel_mem hgl)
      have h2 : e ∈ (if lc = [] then ([] : List Str)
          else [tt ++ lit (".") ++ lc ++ lit (" AS ") ++ lc]) := h1
      by_cases hemp : lc = []
      · rw [if_pos hemp] at h2
        simp at h2
      · rw [if_neg hemp, List.mem_singleton] at h2
        subst h2
        exact lCount_selcol_label htt hlc

theorem aggSelCols_split_lCount {L : Learned} (hI : IdentOK L) {tt : Str}
    (htt : identTok tt) :
    ∀ e ∈ (aggSelCols L tt).map (splitBefore (lit (" AS "))), lCount e = 0 := by
  intro e he
  obtain ⟨e0, he0, rfl⟩ := List.mem_map.mp he
  unfold aggSelCols at he0
  rcases List.mem_append.mp he0 with h1 | h1
  · rw [List.mem_singleton] at h1
    subst h1
    exact lCount_splitBefore_selcol htt (identTok_pkFor hI tt) _
  · rcases hgl : guessLabelColumn L tt with _ | lc
    · rw [hgl] at h1
      simp at h1
    · rw [hgl] at h1
      have hlc : identTok lc := identTok_colsOf hI tt lc (guessLabel_mem hgl)
      have h2 : e0 ∈ (if lc = [] then ([] : List Str)
          else [tt ++ lit (".") ++ lc ++ lit (" AS ") ++ lc]) := h1
      by_cases hemp : lc = []
      · rw [if_pos hemp] at h2
        simp at h2
      · rw [if_neg hemp, List.mem_singleton] at h2
        subst h2
        exact lCount_splitBefore_selcol htt hlc _

theorem aggMetric_lCount {mt mc : Str} (hmt : identTok mt) (hmc : identTok mc)
    (agg : Bool) :
    lCount (aggMetric mt mc agg).1 = 0 ∧ lCount (aggMetric mt mc agg).2 = 0 := by
  rcases agg with _ | _
  · unfold aggMetric
    rw [if_neg Bool.false_ne_true]
    exact ⟨lCount_metricSum hmt hmc,
      lCount_append_words (by decide) hmc.1 (ne_limit_underscore_left (by decide))⟩
  · unfold aggMetric
    rw [if_pos rfl]
    by_cases hu : asciiLower mt = lit ("users")
    · rw [if_pos hu]
      exact ⟨by decide, by decide⟩
    · rw [if_neg hu]
      exact ⟨by decide, by decide⟩

theorem lCount_aggSql {L : Learned} (hI : IdentOK L) {tt mt mc start : Str} {k : Nat}
    {agg : Bool} {path : List (Str × Str × Str × Str)}
    (htt : identTok tt) (hmt : identTok mt) (hmc : identTok mc) (hstart : identTok start)
    (hpath : ∀ st ∈ path, identTok st.1 ∧ identTok st.2.1 ∧ identTok st.2.2.1 ∧
      identTok st.2.2.2) :
    lCount (aggSql L tt mt mc k agg start path) ≤ 1 := by
  obtain ⟨-, hfb⟩ := aggFold_inv hstart hpath
  have hmet := aggMetric_lCount hmt hmc agg
  unfold aggSql
  dsimp only
  refine lCount_aggShape ?_ hstart ?_ ?_ hmet.2 (lCount_natDigits k)
  · apply lCount_joinWith_commaSp
    intro f hf
    rcases List.mem_append.mp hf with h1 | h1
    · exact aggSelCols_lCount hI htt f h1
    · rw [List.mem_singleton] at h1
      subst h1
      exact hmet.1
  · intro x
    by_cases hje : ((path.foldl aggStep (start, [])).2).isEmpty
    · rw [if_pos hje]
      exact congrArg lCount (List.nil_append x)
    · rw [if_neg hje, List.append_assoc]
      show lCount (joinWith (lit ("\n")) (path.foldl aggStep (start, [])).2 ++ '\n' :: x) =
        lCount x
      rw [lCount_split_nl, lCount_joinWith_nl hfb]
      omega
  · exact lCount_joinWith_commaSp (aggSelCols_split_lCount hI htt)

/-- Every SQL produced by `synthesize_aggregate_join` has exactly one LIMIT,
provided the two endpoint tables and the metric column are identifiers. -/
theorem lCount_synthAggJoin {L : Learned} (hI : IdentOK L) {tt mt mc : Str} {k : Nat}
    {agg : Bool} (htt : identTok tt) (hmt : identTok mt) (hmc : identTok mc)
    {sql : Str} (h : synthAggJoin L tt mt mc k agg = some sql) : lCount sql ≤ 1 := by
  unfold synthAggJoin at h
  rcases hfp : findJoinPath L tt mt 2 with _ | p
  · rw [hfp] at h
    rcases hfp2 : findJoinPath L mt tt 2 with _ | p2
    · rw [hfp2] at h
      simp at h
    · rw [hfp2] at h
      dsimp only at h
      rw [← Option.some.inj h]
      exact lCount_aggSql hI htt hmt hmc hmt
        (findJoinPath_ident hI hmt htt hfp2)
  · rw [hfp] at h
    dsimp only at h
    rw [← Option.some.inj h]
    exact lCount_aggSql hI htt hmt hmc htt
      (findJoinPath_ident hI htt hmt hfp)

/-! ## C3: hypotheses on the stored data and the oracle -/

/-- Sampled string values carry no `limit` token (they flow verbatim into
dynamic-corpus SQL). -/
def SampleOK (L : Learned) : Prop :=
  ∀ tr ∈ L.tables, ∀ cs ∈ tr.2.samples, ∀ v ∈ cs.2,
    ∀ s, v = Value.vStr s → lCount s = 0

/-- Predicted filter values carry no `limit` token (they flow verbatim into
show/list equality filters). -/
def FilterOK (env : NlEnv) : Prop :=
  ∀ f ∈ env.predictFilters, lCount f.2.2 = 0

/-- Stored user-corpus SQL has at most one `limit` token. -/
def UserOK (ufile : List CorpusItem) : Prop :=
  ∀ e ∈ loadUserCorpus ufile, lCount e.2.1 ≤ 1

/-- Stored induced-pattern SQL has at most one `limit` token once
materialised. -/
def PatOK (pfile : List QPattern) : Prop :=
  ∀ p ∈ pfile, lCount (materializePat p).2 ≤ 1

theorem lookupA_mem {β : Type} {k : Str × Str} :
    ∀ {l : List ((Str × Str) × β)} {v : β}, lookupA k l = some v → (k, v) ∈ l := by
  intro l
  induction l with
  | nil => intro v h; exact absurd h (by simp [lookupA])
  | cons e rest ih =>
    intro v h
    rcases e with ⟨k2, v2⟩
    unfold lookupA at h
    split at h
    · next heq =>
      have hv := Option.some.inj h
      subst heq
      rw [← hv]
      exact List.mem_cons_self _ _
    · exact List.mem_cons_of_mem _ (ih h)

/-- `_pick_distinct_column` returns a column of the table or the empty
string (empty column list). -/
theorem pickDistinct_cases (L : Learned) (t ph : Str) :
    pickDistinctColumn L t ph ∈ colsOf L t ∨ pickDistinctColumn L t ph = [] := by
  unfold pickDistinctColumn
  dsimp only
  split
  · next c hf => exact Or.inl (List.mem_of_find?_eq_some hf)
  · split
    · next c rest hs =>
      left
      have hc : c ∈ (if ((colsOf L t).filter (fun c => !idLike c)).isEmpty
          then colsOf L t else (colsOf L t).filter (fun c => !idLike c)) := by
        rw [← mem_sortByLt (catKeyLt L t)]
        rw [hs]
        exact List.mem_cons_self _ _
      split at hc
      · exact hc
      · exact List.mem_of_mem_filter hc
    · rcases hcols : colsOf L t with _ | ⟨c0, cs⟩
      · right
        rfl
      · left
        exact List.mem_cons_self _ _

theorem identTok_pickDistinct {L : Learned} (hI : IdentOK L) (t ph : Str) :
    identTok (pickDistinctColumn L t ph) := by
  rcases pickDistinct_cases L t ph with h | h
  · exact identTok_colsOf hI t _ h
  · rw [h]
    exact identTok_nil

set_option maxRecDepth 4000 in
/-- Every static template carries at most one `limit` token. -/
theorem lCount_TEMPLATES : ∀ e ∈ TEMPLATES, lCount e.2 ≤ 1 := by decide

/-! ## C3: per-rule `limit` bounds -/

theorem lCount_ruleUnique {env : NlEnv} {L : Learned} (henv : EnvOK env L)
    (hI : IdentOK L) : ∀ c ∈ ruleUnique env L, lCount c.sql ≤ 1 := by
  intro c hc
  unfold ruleUnique at hc
  split at hc
  · simp at hc
  · next g hg =>
    dsimp only at hc
    split at hc
    · simp at hc
    · split at hc
      · simp at hc
      · next t htc =>
        split at hc
        · simp at hc
        · rw [List.mem_singleton] at hc
          subst hc
          dsimp only
          have ht : identTok t := identTok_table hI t (henv.1 _ t htc)
          rw [lCount_stripSql, lCount_shape_unique (identTok_pickDistinct hI t g.1) ht]
          omega

theorem lCount_ruleCountDistinct {env : NlEnv} {L : Learned} (henv : EnvOK env L)
    (hI : IdentOK L) : ∀ c ∈ ruleCountDistinct env L, lCount c.sql ≤ 1 := by
  intro c hc
  unfold ruleCountDistinct at hc
  split at hc
  · simp at hc
  · next g hg =>
    dsimp only at hc
    split at hc
    · simp at hc
    · split at hc
      · simp at hc
      · next t htc =>
        split at hc
        · simp at hc
        · have ht : identTok t := identTok_table hI t (henv.1 _ t htc)
          split at hc
          · rw [List.mem_singleton] at hc
            subst hc
            dsimp only
            rw [lCount_shape_cdist (identTok_pickDistinct hI t g.1) ht]
            omega
          · next c0 hc0 =>
            split at hc
            · rw [List.mem_singleton] at hc
              subst hc
              dsimp only
              rw [lCount_shape_cdist (identTok_pickDistinct hI t g.1) ht]
              omega
            · rw [List.mem_singleton] at hc
              subst hc
              dsimp only
              obtain ⟨t2, ht2, hc0m⟩ := henv.2.1 _ c0 hc0
              rw [lCount_shape_cdist (identTok_colsOf hI t2 c0 hc0m) ht]
              omega

theorem lCount_ruleCountRows {env : NlEnv} {L : Learned} (henv : EnvOK env L)
    (hI : IdentOK L) : ∀ c ∈ ruleCountRows env L, lCount c.sql ≤ 1 := by
  intro c hc
  unfold ruleCountRows at hc
  split at hc
  · simp at hc
  · next tabLike hre =>
    split at hc
    · simp at hc
    · split at hc
      · simp at hc
      · next t htc =>
        split at hc
        · simp at hc
        · rw [List.mem_singleton] at hc
          subst hc
          dsimp only
          rw [lCount_shape_crows (identTok_table hI t (henv.1 _ t htc))]
          omega

theorem lCount_ruleTopkInBy {env : NlEnv} {L : Learned} (henv : EnvOK env L)
    (hI : IdentOK L) : ∀ c ∈ ruleTopkInBy env L, lCount c.sql ≤ 1 := by
  intro c hc
  unfold ruleTopkInBy at hc
  split at hc
  · simp at hc
  · next g hg =>
    split at hc
    · simp at hc
    · dsimp only at hc
      split at hc
      · next tA colA tB colB h1 h2 h3 h4 =>
        split at hc
        · next hguard =>
          rw [List.mem_singleton] at hc
          subst hc
          dsimp only
          have htA : identTok tA := identTok_table hI tA (henv.1 _ tA h1)
          have hcolA : identTok colA := by
            obtain ⟨t2, ht2, hm⟩ := henv.2.1 _ colA h2
            exact identTok_colsOf hI t2 colA hm
          have hcolB : identTok colB := by
            obtain ⟨t2, ht2, hm⟩ := henv.2.1 _ colB h4
            exact identTok_colsOf hI t2 colB hm
          rw [lCount_stripSql, lCount_shape_topk hcolA hcolB htA (lCount_natDigits g.1)]
        · simp at hc
      · simp at hc

theorem lCount_ruleYearIn {env : NlEnv} {L : Learned} (henv : EnvOK env L)
    (hI : IdentOK L) : ∀ c ∈ ruleYearIn env L, lCount c.sql ≤ 1 := by
  intro c hc
  unfold ruleYearIn at hc
  split at hc
  · simp at hc
  · next g hre =>
    split at hc
    · simp at hc
    · split at hc
      · simp at hc
      · next t htc =>
        split at hc
        · simp at hc
        · split at hc
          · simp at hc
          · next dc hdc =>
            rw [List.mem_singleton] at hc
            subst hc
            dsimp only
            unfold firstDateCol at hdc
            have hy : lCount g.2 = 0 := lCount_digits (henv.2.2.2 g hre).2
            rw [lCount_stripSql, lCount_shape_year
              (identTok_table hI t (henv.1 _ t htc))
              (identTok_colsOf hI t dc (List.mem_of_find?_eq_some hdc)) hy]
            omega

theorem lCount_whereEq {env : NlEnv} {L : Learned} (henv : EnvOK env L)
    (hI : IdentOK L) (hF : FilterOK env) (t : Str) :
    ∀ f ∈ env.predictFilters.filterMap (fun f =>
      if f.1 = t then
        some (lit ("LOWER(") ++ f.2.1 ++ lit (") = '") ++ f.2.2 ++ lit ("'"))
      else none), lCount f = 0 := by
  intro f hf
  obtain ⟨f0, hf0, hsome⟩ := List.mem_filterMap.mp hf
  split at hsome
  · have hfeq := Option.some.inj hsome
    rw [← hfeq]
    exact lCount_frag_filter
      (identTok_colsOf hI f0.1 f0.2.1 (henv.2.2.1 f0 hf0).2) (hF f0 hf0)
  · exact Option.noConfusion hsome

/-- The show/list candidate SQL: `SELECT * FROM t` with an optional `WHERE`
conjunction of zero-`limit` fragments. -/
theorem lCount_showCand {t : Str} (ht : identTok t) {whereAll : List Str}
    (hfr : ∀ f ∈ whereAll, lCount f = 0) :
    lCount (stripSql (lit ("SELECT * FROM ") ++ t ++
      (if whereAll.isEmpty then [] else
        lit (" WHERE ") ++ joinWith (lit (" AND ")) whereAll))) ≤ 1 := by
  rw [lCount_stripSql]
  split
  · rw [List.append_nil, lCount_shape_selstar ht]
    omega
  · rw [lCount_shape_show ht hfr]
    omega

theorem lCount_ruleShow {env : NlEnv} {L : Learned} (henv : EnvOK env L)
    (hI : IdentOK L) (hF : FilterOK env) (toks : List Str) :
    ∀ c ∈ ruleShowList env L toks, lCount c.sql ≤ 1 := by
  intro c hc
  unfold ruleShowList at hc
  split at hc
  · split at hc
    · simp at hc
    · dsimp only at hc
      split at hc
      · simp at hc
      · next t htc =>
        split at hc
        · simp at hc
        · rw [List.mem_singleton] at hc
          subst hc
          dsimp only
          refine lCount_showCand (identTok_table hI t (henv.1 _ t htc)) ?_
          intro f hf
          split at hf
          · next y hy =>
            split at hf
            · split at hf
              · next dc hdc =>
                rcases List.mem_append.mp hf with h1 | h1
                · exact lCount_whereEq henv hI hF t f h1
                · rw [List.mem_singleton] at h1
                  subst h1
                  unfold firstDateCol at hdc
                  exact lCount_frag_year
                    (identTok_colsOf hI t dc (List.mem_of_find?_eq_some hdc))
                    (lCount_natDigits y)
              · exact lCount_whereEq henv hI hF t f hf
            · exact lCount_whereEq henv hI hF t f hf
          · exact lCount_whereEq henv hI hF t f hf
  · simp at hc

theorem lCount_synthJoinT {L : Learned} (hI : IdentOK L) (t1 t2 : Str) :
    ∀ item ∈ synthJoinTemplates L t1 t2, lCount item.2 ≤ 1 := by
  intro item hitem
  unfold synthJoinTemplates at hitem
  dsimp only at hitem
  rcases List.mem_append.mp hitem with h1 | h1
  · split at h1
    · next e he =>
      have hkv := inferFkMap_ident hI ((t1, t2), e) (lookupA_mem he)
      simp only [List.mem_cons, List.mem_singleton, List.not_mem_nil, or_false] at h1
      rcases h1 with h1 | h1 | h1
      · subst h1
        dsimp only
        rw [lCount_joinSqlT hI hkv.1 hkv.2.1 hkv.2.2.1]
      · subst h1
        dsimp only
        rw [lCount_joinCount hkv.1 hkv.2.1 hkv.2.2.1]
      · subst h1
        dsimp only
        rw [lCount_joinSum hkv.1 hkv.2.1 hkv.2.2.1]
    · simp at h1
  · split at h1
    · next e he =>
      have hkv := inferFkMap_ident hI ((t2, t1), e) (lookupA_mem he)
      simp only [List.mem_cons, List.mem_singleton, List.not_mem_nil, or_false] at h1
      rcases h1 with h1 | h1 | h1
      · subst h1
        dsimp only
        rw [lCount_joinSqlT hI hkv.1 hkv.2.1 hkv.2.2.1]
      · subst h1
        dsimp only
        rw [lCount_joinCount hkv.1 hkv.2.1 hkv.2.2.1]
      · subst h1
        dsimp only
        rw [lCount_joinSum hkv.1 hkv.2.1 hkv.2.2.1]
    · simp at h1

theorem lCount_ruleJoin {L : Learned} (hI : IdentOK L) (toks : List Str) :
    ∀ c ∈ ruleJoinDiscovery L toks, lCount c.sql ≤ 1 := by
  intro c hc
  unfold ruleJoinDiscovery at hc
  split at hc
  · simp at hc
  · obtain ⟨pr, hpr, hc2⟩ := List.mem_flatMap.mp hc
    obtain ⟨item, hitem, hceq⟩ := List.mem_map.mp hc2
    rw [← hceq]
    dsimp only
    rw [lCount_stripSql]
    exact lCount_synthJoinT hI pr.1 pr.2 item (List.mem_of_mem_take hitem)

theorem identTok_optTab {env : NlEnv} {L : Learned} (henv : EnvOK env L)
    (hI : IdentOK L) {b : Bool} {w : Str} (hw : identTok w) {toks : List Str}
    {te : Str}
    (h : (if b then some w else (env.scoreTC toks).1) = some te) : identTok te := by
  rcases b with _ | _
  · rw [if_neg Bool.false_ne_true] at h
    exact identTok_table hI te (henv.1 toks te h)
  · rw [if_pos rfl] at h
    rw [← Option.some.inj h]
    exact hw

theorem identTok_optTab1 {env : NlEnv} {L : Learned} (henv : EnvOK env L)
    (hI : IdentOK L) {b : Bool} {w : Str} (hw : identTok w) {toks : List Str}
    {tm : Str}
    (h : (if b then (some w, (none : Option Str)) else env.scoreTC toks).1 = some tm) :
    identTok tm := by
  rcases b with _ | _
  · rw [if_neg Bool.false_ne_true] at h
    exact identTok_table hI tm (henv.1 toks tm h)
  · rw [if_pos rfl] at h
    rw [← Option.some.inj h]
    exact hw

theorem identTok_optCol {env : NlEnv} {L : Learned} (henv : EnvOK env L)
    (hI : IdentOK L) {b : Bool} {w : Str} {toks : List Str} {cm : Str}
    (h : (if b then (some w, (none : Option Str)) else env.scoreTC toks).2 = some cm) :
    identTok cm := by
  rcases b with _ | _
  · rw [if_neg Bool.false_ne_true] at h
    obtain ⟨t2, ht2, hm⟩ := henv.2.1 toks cm h
    exact identTok_colsOf hI t2 cm hm
  · rw [if_pos rfl] at h
    exact Option.noConfusion h

theorem lCount_ruleTopkH {env : NlEnv} {L : Learned} (henv : EnvOK env L)
    (hI : IdentOK L) : ∀ c ∈ ruleTopkHighest env L, lCount c.sql ≤ 1 := by
  intro c hc
  unfold ruleTopkHighest at hc
  split at hc
  · simp at hc
  · next g hg =>
    split at hc
    · simp at hc
    · dsimp only at hc
      split at hc
      · split at hc
        · next te tmt hte htm =>
          split at hc
          · split at hc
            · next sql hsyn =>
              rw [List.mem_singleton] at hc
              subst hc
              dsimp only
              rw [lCount_stripSql]
              exact lCount_synthAggJoin hI
                (identTok_optTab henv hI ⟨by decide, by decide⟩ hte)
                (identTok_optTab1 henv hI ⟨by decide, by decide⟩ htm)
                (identTok_pkFor hI tmt) hsyn
            · simp at hc
          · simp at hc
        · simp at hc
      · split at hc
        · next te tmt cm hte htm hcm =>
          split at hc
          · split at hc
            · next sql hsyn =>
              rw [List.mem_singleton] at hc
              subst hc
              dsimp only
              rw [lCount_stripSql]
              exact lCount_synthAggJoin hI
                (identTok_optTab henv hI ⟨by decide, by decide⟩ hte)
                (identTok_optTab1 henv hI ⟨by decide, by decide⟩ htm)
                (identTok_optCol henv hI hcm) hsyn
            · simp at hc
          · simp at hc
        · simp at hc

/-- Every SQL of the dynamic template corpus has at most one `limit` token,
provided schema identifiers are identifiers and sampled string values carry
no `limit` token. -/
theorem lCount_genDynamic {L : Learned} (hI : IdentOK L) (hS : SampleOK L) :
    ∀ e ∈ genDynamicCorpus L, lCount e.2 ≤ 1 := by
  intro e he
  unfold genDynamicCorpus at he
  obtain ⟨tr, htr, he2⟩ := List.mem_flatMap.mp he
  dsimp only at he2
  have htid : identTok tr.1 := (hI tr htr).1
  have hcols : ∀ x ∈ tr.2.columns, identTok x := (hI tr htr).2
  rcases List.mem_append.mp he2 with h1 | h1
  · simp only [List.mem_cons, List.mem_singleton, List.not_mem_nil, or_false] at h1
    rcases h1 with h1 | h1
    · subst h1
      dsimp only
      rw [lCount_shape_crows htid]
      omega
    · subst h1
      dsimp only
      rw [lCount_shape_cols hcols]
      omega
  · obtain ⟨c, hcmem, hc3⟩ := List.mem_flatMap.mp h1
    have hcid : identTok c := hcols c hcmem
    rcases List.mem_append.mp hc3 with h2 | h2
    · rcases List.mem_append.mp h2 with h3 | h3
      · rcases List.mem_append.mp h3 with h4 | h4
        · simp only [List.mem_cons, List.mem_singleton, List.not_mem_nil, or_false] at h4
          rcases h4 with h4 | h4 | h4
          · subst h4
            dsimp only
            rw [lCount_shape_uniqueLimit hcid htid]
          · subst h4
            dsimp only
            rw [lCount_shape_cdist hcid htid]
            omega
          · subst h4
            dsimp only
            rw [lCount_shape_countBy hcid htid]
        · split at h4
          · rcases List.mem_append.mp h4 with h5 | h5
            · simp only [List.mem_cons, List.mem_singleton, List.not_mem_nil,
                or_false] at h5
              rcases h5 with h5 | h5
              · subst h5
                dsimp only
                rw [lCount_shape_sum hcid htid]
                omega
              · subst h5
                dsimp only
                rw [lCount_shape_avg hcid htid]
                omega
            · split at h5
              · rw [List.mem_singleton] at h5
                subst h5
                dsimp only
                have hoth : identTok (if tr.2.columns.headD [] ≠ c
                    then tr.2.columns.headD []
                    else if 1 < tr.2.columns.length then tr.2.columns.getD 1 []
                    else c) := by
                  split
                  · exact identTok_headD hcols
                  · split
                    · exact identTok_getD hcols 1
                    · exact hcid
                rw [show lit (" ORDER BY s DESC LIMIT 10") =
                    lit (" ORDER BY s DESC LIMIT ") ++ lit ("10") from rfl,
                  ← List.append_assoc,
                  lCount_shape_topk hoth hcid htid (by decide)]
              · simp at h5
          · simp at h4
      · split at h3
        · simp only [List.mem_cons, List.mem_singleton, List.not_mem_nil,
            or_false] at h3
          rcases h3 with h3 | h3
          · subst h3
            dsimp only
            rw [show lit (",1,4)='2024' LIMIT 200") =
                lit (",1,4)='") ++ lit ("2024") ++ lit ("' LIMIT 200") from rfl]
            rw [lCount_shape_substrLimit htid hcid (by decide)]
          · subst h3
            dsimp only
            rw [show lit (",1,4)='2025' LIMIT 200") =
                lit (",1,4)='") ++ lit ("2025") ++ lit ("' LIMIT 200") from rfl]
            rw [lCount_shape_substrLimit htid hcid (by decide)]
        · simp at h3
    · obtain ⟨v, hv5, hsome⟩ := List.mem_filterMap.mp h2
      rcases hlk : lookupL c tr.2.samples with _ | lst
      · rw [hlk] at hv5
        simp at hv5
      · rw [hlk] at hv5
        have hv5b : v ∈ lst.take 5 := hv5
        split at hsome
        · next x sv =>
          have hs0 : lCount sv = 0 :=
            hS tr htr (c, lst) (lookupL_mem hlk) (Value.vStr sv)
              (List.mem_of_mem_take hv5b) sv rfl
          split at hsome
          · rw [← Option.some.inj hsome]
            dsimp only
            rw [lCount_shape_sample htid hcid ((lCount_asciiLower sv).trans hs0)]
          · exact Option.noConfusion hsome
        · exact Option.noConfusion hsome

/-- Every SQL in the retriever corpus has at most one `limit` token. -/
theorem lCount_buildRetr {L : Learned} (hI : IdentOK L) (hS : SampleOK L)
    {ufile : List CorpusItem} (hU : UserOK ufile)
    {pfile : List QPattern} (hP : PatOK pfile) (hasTables : Bool) :
    ∀ e ∈ buildRetrCorpus L hasTables ufile pfile, lCount e.2.1 ≤ 1 := by
  intro e he
  unfold buildRetrCorpus at he
  rcases List.mem_append.mp he with h1 | h1
  · rcases List.mem_append.mp h1 with h2 | h2
    · rcases List.mem_append.mp h2 with h3 | h3
      · obtain ⟨x, hx, heq⟩ := List.mem_map.mp h3
        rw [← heq]
        dsimp only
        rw [lCount_normWs]
        exact lCount_TEMPLATES x hx
      · obtain ⟨x, hx, heq⟩ := List.mem_map.mp h3
        rw [← heq]
        dsimp only
        rw [lCount_normWs]
        split at hx
        · exact lCount_genDynamic hI hS x hx
        · simp at hx
    · obtain ⟨x, hx, heq⟩ := List.mem_map.mp h2
      rw [← heq]
      dsimp only
      rw [lCount_normWs]
      exact hU x hx
  · obtain ⟨x, hx, heq⟩ := List.mem_map.mp h1
    rw [← heq]
    dsimp only
    rw [lCount_normWs]
    obtain ⟨p, hp, hpeq⟩ := List.mem_map.mp hx
    rw [← hpeq]
    exact hP p (List.mem_of_mem_take hp)

theorem lCount_retrCands {env : NlEnv} (tPred cPred : Option Str) (q : Str)
    {corpus : List (Str × Str × Int)} (hcorp : ∀ e ∈ corpus, lCount e.2.1 ≤ 1) :
    ∀ c ∈ retrieverCands env tPred cPred q corpus, lCount c.sql ≤ 1 := by
  intro c hc
  unfold retrieverCands at hc
  split at hc
  · simp at hc
  · obtain ⟨ri, hri, hceq⟩ := List.mem_map.mp hc
    rw [← hceq]
    dsimp only
    rw [lCount_stripSql]
    rcases hx : corpus[ri.2]? with _ | item
    · rw [List.getD_eq_getElem?_getD, hx]
      decide
    · rw [List.getD_eq_getElem?_getD, hx]
      exact hcorp item (List.getElem?_mem hx)

/-- `_dedupe_keep_best` only reorders and drops candidates: every output
candidate is one of the inputs. -/
theorem mem_dedupeKeepBest {cands : List Candidate} :
    ∀ c ∈ dedupeKeepBest cands, c ∈ cands := by
  intro c hc
  unfold dedupeKeepBest at hc
  rw [mem_sortByLt] at hc
  obtain ⟨e, he, hceq⟩ := List.mem_map.mp hc
  have hall : ∀ e2 ∈ cands.foldl dedupeStep [], e2.2 ∈ cands := by
    refine foldl_preserve (fun m : List (Str × Candidate) => ∀ e2 ∈ m, e2.2 ∈ cands)
      dedupeStep cands [] (by simp) ?_
    intro m a ha hm e2 he2
    unfold dedupeStep at he2
    dsimp only at he2
    split at he2
    · rcases List.mem_append.mp he2 with h2 | h2
      · exact hm e2 h2
      · rw [List.mem_singleton] at h2
        subst h2
        exact ha
    · split at he2
      · obtain ⟨e3, he3, heq3⟩ := List.mem_map.mp he2
        by_cases h3 : e3.1 = stripWs a.sql
        · rw [if_pos h3] at heq3
          rw [← heq3]
          exact ha
        · rw [if_neg h3] at heq3
          rw [← heq3]
          exact hm e3 he3
      · exact hm e2 he2
  rw [← hceq]
  exact hall e he

theorem lCount_preCandidates {env : NlEnv} {learnedOpt : Option Learned}
    {ufile : List CorpusItem} {pfile : List QPattern} (question : Str)
    (henv : EnvOK env (learnedOpt.getD ⟨[], []⟩))
    (hI : IdentOK (learnedOpt.getD ⟨[], []⟩))
    (hS : SampleOK (learnedOpt.getD ⟨[], []⟩))
    (hF : FilterOK env) (hU : UserOK ufile) (hP : PatOK pfile) :
    ∀ c ∈ preCandidates env learnedOpt ufile pfile question, lCount c.sql ≤ 1 := by
  intro c hc
  unfold preCandidates at hc
  dsimp only at hc
  rcases List.mem_append.mp hc with h | h9
  rcases List.mem_append.mp h with h | h8
  rcases List.mem_append.mp h with h | h7
  rcases List.mem_append.mp h with h | h6
  rcases List.mem_append.mp h with h | h5
  rcases List.mem_append.mp h with h | h4
  rcases List.mem_append.mp h with h | h3
  rcases List.mem_append.mp h with h1 | h2
  · exact lCount_ruleUnique henv hI c h1
  · exact lCount_ruleCountDistinct henv hI c h2
  · exact lCount_ruleCountRows henv hI c h3
  · exact lCount_ruleTopkInBy henv hI c h4
  · exact lCount_ruleYearIn henv hI c h5
  · exact lCount_ruleShow henv hI hF _ c h6
  · exact lCount_ruleJoin hI _ c h7
  · exact lCount_ruleTopkH henv hI c h8
  · exact lCount_retrCands _ _ _ (lCount_buildRetr hI hS hU hP _) c h9

/-- **C3 amended.** Every candidate returned by `generate_candidates` has at
most one LIMIT clause, *provided* the stored data that is spliced verbatim
into SQL is itself limit-free: schema table/column names are single
word-token identifiers, sampled string values and predicted filter values
contain no `limit` token, and user-corpus / induced-pattern SQL carries at
most one. Without those provisos the invariant fails (see the
counterexample: a sampled value `limit 5 limit 6` flows into a show/list
filter). -/
theorem C3_at_most_one_limit (env : NlEnv) (learnedOpt : Option Learned)
    (ufile : List CorpusItem) (pfile : List QPattern) (question : Str)
    (henv : EnvOK env (learnedOpt.getD ⟨[], []⟩))
    (hI : IdentOK (learnedOpt.getD ⟨[], []⟩))
    (hS : SampleOK (learnedOpt.getD ⟨[], []⟩))
    (hF : FilterOK env) (hU : UserOK ufile) (hP : PatOK pfile) :
    ∀ c ∈ generateCandidates env learnedOpt ufile pfile question,
      limitPairs (sqlTokens c.sql) ≤ 1 := by
  intro c hc
  unfold generateCandidates at hc
  dsimp only at hc
  have hc2 := mem_dedupeKeepBest c hc
  apply limit_bound_of_lCount
  split at hc2
  · rw [List.mem_singleton] at hc2
    subst hc2
    decide
  · exact lCount_preCandidates question henv hI hS hF hU hP c hc2

theorem C3_witness :
    EnvOK blankEnv ((none : Option Learned).getD ⟨[], []⟩) ∧
    IdentOK ((none : Option Learned).getD ⟨[], []⟩) ∧
    ∀ c ∈ generateCandidates blankEnv none [] []
        (lit ("how many policies are active")),
      limitPairs (sqlTokens c.sql) ≤ 1 :=
  ⟨blankEnv_ok _, fun tr htr => absurd htr (List.not_mem_nil tr),
   C3_at_most_one_limit blankEnv none [] [] (lit ("how many policies are active"))
     (blankEnv_ok _) (fun tr htr => absurd htr (List.not_mem_nil tr))
     (fun tr htr => absurd htr (List.not_mem_nil tr))
     (fun f hf => absurd hf (List.not_mem_nil f))
     (fun e he => absurd he (List.not_mem_nil e))
     (fun p hp => absurd hp (List.not_mem_nil p))⟩

end NLSQL
